import Mathlib

/-!
miscprogs, `basic/basic.c` and `tabe/tabe.c`.

A shallow embedding of the line-numbered BASIC interpreter of `src/basic/basic.c`
(the macro-heavy one-file interpreter: `Q`, `G`, the expression tiers
`S J K V W Y` generated by the macro `O`, and the command loop `basic`), and of
the expand mode of the tab filter `src/tabe/tabe.c`.

Conventions of the embedding.

* A C string is a `List Char` without its terminating NUL; the 999-byte input
  buffer `B` is the list of the bytes written so far, every byte after the end
  of the list being the 0 of a zero-initialised global.  Stale bytes behind a
  terminator are kept, because the code reads them (`B[1]`, `B[5]`, `*d`).
* `int` is `Int` reduced by `wrap` (two's complement, 32 bits); `long` is 64
  bits wide (LP64) and `char` is signed, as with gcc and clang on x86-64.
* Whatever the C standard leaves undefined (division by zero, an access outside
  an array, a null pointer, freeing the string literal) is a `Fault`: the model
  then says nothing more about the run.
* Recursion depth and loop length are bounded by a fuel argument; running out
  of it is the fault `Fault.fuel`.  For the evaluator, the macro `U` and the
  load loop the bound is computed and proved never to be reached; the run loop
  and the command loop take it as an argument, since a program may run for
  ever.
-/

namespace Basic

/-! ## Data model -/

/-- The text of a C string, terminator excluded. -/
abbrev Text := List Char

/-- The constant `R` of `#define R 999`. -/
def R : Nat := 999

/-- The terminator of a C string. -/
def NUL : Char := Char.ofNat 0

/-- The ways in which the C program leaves defined behaviour, and `fuel` for a
bound of the embedding that was reached. -/
inductive Fault where
  | divide
  | bounds
  | null
  | badFree
  | fuel
  deriving DecidableEq, Repr

/-- The result of a piece of code that may fault. -/
inductive Res (α : Type) where
  | ok (a : α)
  | fault (f : Fault)
  deriving DecidableEq, Repr

/-- Sequencing of code that may fault. -/
def Res.bind {α β : Type} (r : Res α) (k : α → Res β) : Res β :=
  match r with
  | .ok a => k a
  | .fault f => .fault f

/-- Conversion to `int`: reduction to the two's complement 32-bit range. -/
def wrap (x : Int) : Int := (x + 2147483648) % 4294967296 - 2147483648

/-- The byte at index `i` of a buffer (0 behind the bytes written so far). -/
def rd (B : Text) (i : Nat) : Char := B.getD i NUL

/-- The C string that starts at index `i` of a buffer. -/
def cstr (B : Text) (i : Nat) : Text := (B.drop i).takeWhile (fun c => c != NUL)

/-- Writing the C string `s` and its terminator at the start of a buffer; the
bytes behind the terminator stay as they were. -/
def put (B : Text) (s : Text) : Text := s ++ NUL :: B.drop (s.length + 1)

/-! ## `Q`: substring search -/

/-- The function `Q(s, o)`: the offset of the first occurrence of the non-empty
string `o` in `s`, or `none` for the null pointer. -/
def Q : Text → Text → Option Nat
  | [], _ => none
  | c :: s, o =>
    if o ≠ [] ∧ o.isPrefixOf (c :: s) = true then some 0
    else (Q s o).map (fun i => i + 1)

/-! ## Library functions: `strtol`, `atoi`, `%d` -/

/-- The value of a character as a digit, as `strtol` reads it (letters count
from 10, in either case). -/
def digitVal (c : Char) : Option Nat :=
  if 48 ≤ c.toNat ∧ c.toNat ≤ 57 then some (c.toNat - 48)
  else if 97 ≤ c.toNat ∧ c.toNat ≤ 122 then some (c.toNat - 87)
  else if 65 ≤ c.toNat ∧ c.toNat ≤ 90 then some (c.toNat - 55)
  else none

/-- The digit loop of `strtol`: reads digits below `base`, returns the number
read and how many characters it consumed. -/
def scanDigits (base : Nat) : Text → Nat → Nat → Nat × Nat
  | [], acc, k => (acc, k)
  | c :: s, acc, k =>
    match digitVal c with
    | some d => if d < base then scanDigits base s (acc * base + d) (k + 1) else (acc, k)
    | none => (acc, k)

/-- The constant `LONG_MAX` of a 64-bit `long`. -/
def LONG_MAX : Nat := 9223372036854775807

/-- The base `strtol(_, _, 0)` chooses and the length of the prefix it skips:
`0x`/`0X` before a hexadecimal digit is base 16, another leading `0` is base 8,
anything else base 10. -/
def base0 : Text → Nat × Nat
  | '0' :: x :: h :: _ =>
    if (x = 'x' ∨ x = 'X') ∧ (digitVal h).any (fun d => decide (d < 16)) = true then (16, 2)
    else (8, 0)
  | '0' :: _ => (8, 0)
  | _ => (10, 0)

/-- The call `strtol(p, &p, 0)` on a string whose first character is a decimal
digit (the only way `Y` calls it, so no white space and no sign are skipped):
the value, clamped to `LONG_MAX`, and the number of characters consumed. -/
def strtol (s : Text) : Int × Nat :=
  let bk := base0 s
  let vk := scanDigits bk.1 (s.drop bk.2) 0 0
  (Int.ofNat (min vk.1 LONG_MAX), bk.2 + vk.2)

/-- The function `atoi` (glibc: `(int) strtol(s, NULL, 10)`): white space is
skipped, then an optional sign, then decimal digits. -/
def atoi (s : Text) : Int :=
  let t := s.dropWhile (fun c => c = ' ' ∨ (9 ≤ c.toNat ∧ c.toNat ≤ 13))
  match t with
  | '-' :: u => wrap (-(Int.ofNat (min (scanDigits 10 u 0 0).1 (LONG_MAX + 1))))
  | '+' :: u => wrap (Int.ofNat (min (scanDigits 10 u 0 0).1 LONG_MAX))
  | u => wrap (Int.ofNat (min (scanDigits 10 u 0 0).1 LONG_MAX))

/-- Decimal digits of a natural number, most significant first, put before
`acc`; the first argument bounds the number of digits. -/
def natDecAux : Nat → Nat → Text → Text
  | 0, _, acc => acc
  | f + 1, n, acc =>
    if n < 10 then Char.ofNat (48 + n) :: acc
    else natDecAux f (n / 10) (Char.ofNat (48 + n % 10) :: acc)

/-- The decimal numeral of a natural number, without leading zeros. -/
def natDec (n : Nat) : Text := natDecAux (n + 1) n []

/-- The conversion `%d` of `printf`: the decimal numeral of an `int`. -/
def fmtInt (v : Int) : Text :=
  if v < 0 then '-' :: natDec v.natAbs else natDec v.toNat

/-! ## The expression evaluator: macro `O` and the tiers `S J K V W Y` -/

/-- The value and the cursor `p` an evaluator function leaves. -/
abbrev Ev := Res (Int × Nat)

/-- The truth value of a C comparison. -/
def cbool (b : Bool) : Int := if b then 1 else 0

/-- The operator `/` of C on `int`: truncation toward zero; a zero divisor and
the overflowing quotient are undefined. -/
def cdiv (o r : Int) : Res Int :=
  if r = 0 then .fault .divide
  else if o = -2147483648 ∧ r = -1 then .fault .divide
  else .ok (Int.tdiv o r)

/-- The body the macro `O(b,f,u,s,c,a)` gives the tier function `b`:
`int o=f(); switch(*p++){case u: return o s b(); case c: return o a b();
default: p--; return o;}`.  Here `f` and `b` are the lower tier and the tier
itself, as functions of the cursor. -/
def O (B : Text) (b f : Nat → Ev) (u : Char) (s : Int → Int → Res Int)
    (c : Char) (a : Int → Int → Res Int) (p : Nat) : Ev :=
  (f p).bind fun op =>
    if R ≤ op.2 then .fault .bounds
    else if rd B op.2 = u then
      (b (op.2 + 1)).bind fun rp => (s op.1 rp.1).bind fun v => .ok (v, rp.2)
    else if rd B op.2 = c then
      (b (op.2 + 1)).bind fun rp => (a op.1 rp.1).bind fun v => .ok (v, rp.2)
    else .ok (op.1, op.2)

mutual
/-- Tier `S`: `O(S, J, '=', ==, '#', !=)`. -/
def S (B : Text) (P : Nat → Int) : Nat → Nat → Ev
  | 0, _ => .fault .fuel
  | n + 1, p =>
    O B (S B P n) (J B P n) '=' (fun o r => .ok (cbool (o == r)))
      '#' (fun o r => .ok (cbool (o != r))) p
termination_by structural n => n
/-- Tier `J`: `O(J, K, '<', <, '>', >)`. -/
def J (B : Text) (P : Nat → Int) : Nat → Nat → Ev
  | 0, _ => .fault .fuel
  | n + 1, p =>
    O B (J B P n) (K B P n) '<' (fun o r => .ok (cbool (decide (o < r))))
      '>' (fun o r => .ok (cbool (decide (o > r)))) p
termination_by structural n => n
/-- Tier `K`: `O(K, V, '$', <=, '!', >=)`. -/
def K (B : Text) (P : Nat → Int) : Nat → Nat → Ev
  | 0, _ => .fault .fuel
  | n + 1, p =>
    O B (K B P n) (V B P n) '$' (fun o r => .ok (cbool (decide (o ≤ r))))
      '!' (fun o r => .ok (cbool (decide (o ≥ r)))) p
termination_by structural n => n
/-- Tier `V`: `O(V, W, '+', +, '-', -)`. -/
def V (B : Text) (P : Nat → Int) : Nat → Nat → Ev
  | 0, _ => .fault .fuel
  | n + 1, p =>
    O B (V B P n) (W B P n) '+' (fun o r => .ok (wrap (o + r)))
      '-' (fun o r => .ok (wrap (o - r))) p
termination_by structural n => n
/-- Tier `W`: `O(W, Y, '*', *, '/', /)`. -/
def W (B : Text) (P : Nat → Int) : Nat → Nat → Ev
  | 0, _ => .fault .fuel
  | n + 1, p =>
    O B (W B P n) (Y B P n) '*' (fun o r => .ok (wrap (o * r))) '/' cdiv p
termination_by structural n => n
/-- Tier `Y`, the primary: `*p=='-' ? p++,-Y() : *p>='0'&&*p<='9' ?
strtol(p,&p,0) : *p=='(' ? p++,o=S(),p++,o : P[*p++]`. -/
def Y (B : Text) (P : Nat → Int) : Nat → Nat → Ev
  | 0, _ => .fault .fuel
  | n + 1, p =>
    if R ≤ p then .fault .bounds
    else if rd B p = '-' then
      (Y B P n (p + 1)).bind fun vp => .ok (wrap (-vp.1), vp.2)
    else if 48 ≤ (rd B p).toNat ∧ (rd B p).toNat ≤ 57 then
      .ok (wrap (strtol (B.drop p)).1, p + (strtol (B.drop p)).2)
    else if rd B p = '(' then
      (S B P n (p + 1)).bind fun op => .ok (op.1, op.2 + 1)
    else if (rd B p).toNat < 128 then .ok (P (rd B p).toNat, p + 1)
    else .fault .bounds
termination_by structural n => n
end

/-- An expression evaluated from cursor `p` of the buffer: the call `S()`.
Every level of the recursion either goes one tier down or moves the cursor,
and the cursor stays below `R`, so the depth `6 * (R - p) + 6` is never
exceeded (theorem `eval_sound`). -/
def eval (B : Text) (P : Nat → Int) (p : Nat) : Ev := S B P (6 * (R - p) + 6) p

/-! ## The interpreter state -/

/-- The globals of the interpreter that live from one command to the next, and
the world around it.  `m` is the array of stored lines (`12 * R` slots), `B`
the input buffer, `P` the variables, `M` and `L` the loop limits and loop
lines; `out` is what was printed, line by line, `inp` the lines still to be
read from standard input, `fs` the files by name.  The cursors
`p q x y z s d`, the counters `i j l` and the stack pointer `C` are set anew
before every use and are local to the functions below. -/
structure State where
  m : Nat → Option Text
  B : Text
  P : Nat → Int
  M : Nat → Int
  L : Nat → Int
  out : List Text
  inp : List Text
  fs : Text → Option Text

/-- The index a `char` gives into an `int` array of `R` entries (`P[*d]`): a
plain `char` above 127 is negative. -/
def idx (c : Char) : Res Nat := if c.toNat < 128 then .ok c.toNat else .fault .bounds

/-- The call `gets(B)`: the next line of standard input is written to the
buffer; at end of input the buffer stays and the call yields the null pointer
(`false`).  A line that does not fit the buffer overflows it. -/
def gets (st : State) : Res (State × Bool) :=
  match st.inp with
  | [] => .ok (st, false)
  | line :: rest =>
    if R ≤ line.length then .fault .bounds
    else .ok ({ st with B := put st.B line, inp := rest }, true)

/-! ## `G`: the definition of a line -/

/-- The function `G()`: `l = atoi(B); m[l] && free(m[l]);
(p = Q(B, " ")) ? strcpy(m[l] = malloc(strlen(p)), p + 1) : (m[l] = 0, 0)`.
Slot `11 * R` holds the string literal `"E"`, which cannot be freed. -/
def G (st : State) : Res State :=
  let l := atoi (cstr st.B 0)
  if l < 0 ∨ 12 * (R : Int) ≤ l then .fault .bounds
  else if l.toNat = 11 * R ∧ st.m (11 * R) ≠ none then .fault .badFree
  else
    match Q (cstr st.B 0) [' '] with
    | some p => .ok { st with m := Function.update st.m l.toNat (some (cstr st.B (p + 1))) }
    | none => .ok { st with m := Function.update st.m l.toNat none }

/-! ## The statement executor -/

/-- The loop of the macro `U(y,z)`: `while(p=Q(s,y))*p++=z,*p=' '`, with a
bound on the number of rounds. -/
def Uloop : Nat → Text → Text → Char → Text
  | 0, s, _, _ => s
  | n + 1, s, y, z =>
    match Q s y with
    | none => s
    | some i => Uloop n ((s.set i z).set (i + 1) ' ') y z

/-- The macro `U(y,z)` on the stored line `s`; every round removes one
occurrence of `y` and makes no new one, so `s.length` rounds are enough
(theorem `U_done`). -/
def U (s y : Text) (z : Char) : Text := Uloop s.length s y z

/-- The rewriting of a stored line at the head of the run loop:
`if(!Q(s,"\"")){U("<>",'#');U("<=",'$');U(">=",'!');}`. -/
def sentinels (s : Text) : Text :=
  if Q s ['"'] = none then U (U (U s ['<', '>'] '#') ['<', '='] '$') ['>', '='] '!'
  else s

/-- The copy loop `while(*F=*s){*s=='"'&&j++;if(j&1||!Q(" \t",F))*d++=*s;s++;}`:
the characters of the line that reach the buffer, `j` counting the quotes. -/
def strip : Text → Nat → Text
  | [], _ => []
  | c :: s, j =>
    if (if c = '"' then j + 1 else j) % 2 = 1 ∨ Q [' ', '\t'] [c] = none then
      c :: strip s (if c = '"' then j + 1 else j)
    else strip s (if c = '"' then j + 1 else j)

/-- The loop `while(!(s=m[l]))l++`, the first argument being the number of
slots of `m` from `l` on: reading behind the last slot is a fault. -/
def skip (m : Nat → Option Text) : Nat → Nat → Res Nat
  | 0, _ => .fault .bounds
  | f + 1, l => if (m l).isSome then .ok l else skip m f (l + 1)

/-- What a statement leaves: the state, the counter `l` and the call stack
(`E` up to `C`, last pushed first). -/
abbrev Ctl := State × Int × List Int

/-- The statement in the buffer executed: `if(B[1]!='=')switch(*B){...}
else p=B+2,P[*B]=S();` with `d` at the last character of the statement. -/
def exec (st : State) (l : Int) (E : List Int) (d : Nat) : Res Ctl :=
  if rd st.B 1 = '=' then
    (eval st.B st.P 2).bind fun vp => (idx (rd st.B 0)).bind fun i =>
      .ok ({ st with P := Function.update st.P i vp.1 }, l, E)
  else if rd st.B 0 = 'E' then .ok (st, -1, E)
  else if rd st.B 0 = 'R' then
    if rd st.B 2 ≠ 'M' then
      match E with
      | [] => .fault .bounds
      | r :: E1 => .ok (st, r, E1)
    else .ok (st, l, E)
  else if rd st.B 0 = 'I' then
    if rd st.B 1 = 'N' then
      (gets st).bind fun sg =>
        (eval sg.1.B sg.1.P 0).bind fun vp => (idx (rd sg.1.B d)).bind fun i =>
          .ok ({ sg.1 with P := Function.update sg.1.P i vp.1 }, l, E)
    else
      match Q (cstr st.B 0) ['T', 'H'] with
      | none => .fault .null
      | some q =>
        (eval (st.B.set q NUL) st.P 2).bind fun cp =>
          if cp.1 ≠ 0 then
            (eval (st.B.set q NUL) st.P (q + 4)).bind fun tp =>
              .ok ({ st with B := st.B.set q NUL }, wrap (tp.1 - 1), E)
          else .ok ({ st with B := st.B.set q NUL }, l, E)
  else if rd st.B 0 = 'P' then
    if rd st.B 5 = '"' then
      .ok ({ st with B := st.B.set d NUL, out := st.out ++ [cstr (st.B.set d NUL) 6] }, l, E)
    else
      (eval st.B st.P 5).bind fun vp =>
        .ok ({ st with out := st.out ++ [fmtInt vp.1] }, l, E)
  else if rd st.B 0 = 'G' then
    if rd st.B 2 = 'S' then
      if R ≤ E.length then .fault .bounds
      else (eval st.B st.P 5).bind fun vp => .ok (st, wrap (vp.1 - 1), l :: E)
    else (eval st.B st.P 4).bind fun vp => .ok (st, wrap (vp.1 - 1), E)
  else if rd st.B 0 = 'F' then
    match Q (cstr st.B 0) ['T', 'O'] with
    | none => .fault .null
    | some q =>
      (eval (st.B.set q NUL) st.P 5).bind fun vp =>
        (idx (rd (st.B.set q NUL) 3)).bind fun i =>
          (eval (st.B.set q NUL) (Function.update st.P i vp.1) (q + 2)).bind fun wp =>
            .ok ({ st with B := st.B.set q NUL, P := Function.update st.P i vp.1,
                           M := Function.update st.M i wp.1,
                           L := Function.update st.L i l }, l, E)
  else if rd st.B 0 = 'N' then
    (idx (rd st.B d)).bind fun i =>
      if wrap (st.P i + 1) ≤ st.M i then
        .ok ({ st with P := Function.update st.P i (wrap (st.P i + 1)) }, st.L i, E)
      else .ok ({ st with P := Function.update st.P i (wrap (st.P i + 1)) }, l, E)
  else .ok (st, l, E)

/-- The state in which the statement of slot `k` is executed: the stored line
`s` rewritten in place (macro `U`) and its copy without blanks in the buffer. -/
def prepared (st : State) (k : Nat) (s : Text) : State :=
  { st with m := Function.update st.m k (some (sentinels s)),
            B := put st.B (strip (sentinels s) 0) }

/-- The body of the loop `while(l)` once the line `s` of slot `k` is found:
the line is rewritten and copied to the buffer (which it has to fit), `d` is
left at its last character, and the statement is executed. -/
def stmt (st : State) (k : Nat) (s : Text) (E : List Int) : Res Ctl :=
  if R ≤ (strip (sentinels s) 0).length then .fault .bounds
  else exec (prepared st k s) (Int.ofNat k) E ((strip (sentinels s) 0).length - 1)

/-- One round of the loop `while(l)` for `l` not 0: the next stored line is
looked up (`while(!(s=m[l]))l++`), its statement is executed and `l++`
follows. -/
def step (st : State) (l : Int) (E : List Int) : Res Ctl :=
  if l < 0 then .fault .bounds
  else
    (skip st.m (12 * R - l.toNat) l.toNat).bind fun k =>
      match st.m k with
      | none => .fault .bounds
      | some s => (stmt st k s E).bind fun c => .ok (c.1, wrap (c.2.1 + 1), c.2.2)

/-- The loop `while(l){...}`, for at most `n` statements. -/
def loop : Nat → State → Int → List Int → Res State
  | 0, _, _, _ => .fault .fuel
  | n + 1, st, l, E =>
    if l = 0 then .ok st
    else (step st l E).bind fun c => loop n c.1 c.2.1 c.2.2

/-- The command `R`: `C=E; l=1; for(i=0;i<R;P[i++]=0); while(l){...}`. -/
def run (n : Nat) (st : State) : Res State :=
  loop n { st with P := fun _ => 0 } 1 []

/-! ## The command loop -/

/-- What the macros `N` and `I` print for the slots below `11 * R`:
`for(i=0;i<11*R;i++)m[i]&&printf("%d %s\n",i,m[i])`, one text per line. -/
def listing (m : Nat → Option Text) : List Text :=
  (List.range (11 * R)).filterMap fun i =>
    (m i).map fun s => fmtInt (Int.ofNat i) ++ ' ' :: s

/-- The bytes the command `S` writes to its file: every line of the listing
followed by a newline. -/
def saved (m : Nat → Option Text) : Text :=
  (listing m).flatMap fun ln => ln ++ ['\n']

/-- The command `N`: `for(i=0;i<11*R;i++)m[i]&&(free(m[i]),m[i]=0)`. -/
def clear (m : Nat → Option Text) : Nat → Option Text :=
  fun i => if i < 11 * R then none else m i

/-- The characters `fgets(B, n + 1, f)` takes from the rest of a file: at most
`n`, ending with the first newline. -/
def takeLine : Nat → Text → Text
  | 0, _ => []
  | _ + 1, [] => []
  | n + 1, c :: s => if c = '\n' then [c] else c :: takeLine n s

/-- The loop `while(fgets(B,R,f))(*Q(B,"\n")=0,G())` of the command `O` over
the rest of the file; each round takes at least one character, and the first
argument bounds the number of rounds (theorem `load_ne_fuel`). -/
def load : Nat → State → Text → Res State
  | 0, st, rest => if rest = [] then .ok st else .fault .fuel
  | n + 1, st, rest =>
    if rest = [] then .ok st
    else
      match Q (cstr (put st.B (takeLine (R - 1) rest)) 0) ['\n'] with
      | none => .fault .null
      | some q =>
        (G { st with B := (put st.B (takeLine (R - 1) rest)).set q NUL }).bind fun st1 =>
          load n st1 (rest.drop (takeLine (R - 1) rest).length)

/-- The body of the loop of `basic()` for the line in the buffer:
`switch(*B)` with the cases `R L N B S O` and `G()` for everything else.  The
flag says that the function returned (command `B`).  An empty file name makes
`fopen` yield the null pointer, as does a file that is not there. -/
def command (n : Nat) (st : State) : Res (State × Bool) :=
  if rd st.B 0 = 'R' then (run n st).bind fun s1 => .ok (s1, false)
  else if rd st.B 0 = 'L' then .ok ({ st with out := st.out ++ listing st.m }, false)
  else if rd st.B 0 = 'N' then .ok ({ st with m := clear st.m }, false)
  else if rd st.B 0 = 'B' then .ok (st, true)
  else if rd st.B 0 = 'S' then
    if cstr st.B 5 = [] then .fault .null
    else .ok ({ st with fs := Function.update st.fs (cstr st.B 5) (some (saved st.m)) }, false)
  else if rd st.B 0 = 'O' then
    match st.fs (cstr st.B 4) with
    | none => .fault .null
    | some content => (load content.length st content).bind fun s1 => .ok (s1, false)
  else (G st).bind fun s1 => .ok (s1, false)

/-- One round of the loop `while(puts("Ok"),gets(B))switch(*B){...}` of
`basic()`: the prompt, the line read and its command.  The flag says that the
function returned (end of input, or command `B`). -/
def prompt (n : Nat) (st : State) : Res (State × Bool) :=
  (gets { st with out := st.out ++ [['O', 'k']] }).bind fun sg =>
    if sg.2 = false then .ok (sg.1, true) else command n sg.1

/-- The loop of `basic()`, for at most `n` commands of at most `n` statements
each. -/
def session : Nat → State → Res State
  | 0, _ => .fault .fuel
  | n + 1, st =>
    (prompt n st).bind fun c => if c.2 = true then .ok c.1 else session n c.1

/-- The globals when `basic()` starts, after `m[11*R]="E"`: everything else is
zero. -/
def init (inp : List Text) (fs : Text → Option Text) : State :=
  { m := fun k => if k = 11 * R then some ['E'] else none,
    B := [], P := fun _ => 0, M := fun _ => 0, L := fun _ => 0,
    out := [], inp := inp, fs := fs }

/-- The function `basic()` on a standard input and a file system. -/
def basic (n : Nat) (inp : List Text) (fs : Text → Option Text) : Res State :=
  session n (init inp fs)

/-- The session of a fresh interpreter without files in which the lines `inp`
are typed, up to the end of the input. -/
def typed (n : Nat) (inp : List Text) : Res State := basic n inp (fun _ => none)

/-- A store that holds the three lines `s1`, `s2`, `s3` at 10, 20, 30, the line
`"E"` of `basic()` in slot `11 * R`, and nothing else. -/
def Holds3 (m : Nat → Option Text) (s1 s2 s3 : Text) : Prop :=
  m 10 = some s1 ∧ m 20 = some s2 ∧ m 30 = some s3 ∧ m (11 * R) = some ['E'] ∧
    ∀ i, i ≠ 10 → i ≠ 20 → i ≠ 30 → i ≠ 11 * R → m i = none

/-- The stored lines below slot `N`, in the order of the listing. -/
def entries (m : Nat → Option Text) (N : Nat) : List (Nat × Text) :=
  (List.range N).filterMap fun i => (m i).map fun s => (i, s)

/-- A listed entry whose saved line `<number> <text>` with its newline can be
taken by one `fgets(B,R,f)`, that is by `R - 1` characters, and holds no
newline of its own. -/
def Fits (e : Nat × Text) : Prop :=
  e.1 < 11 * R ∧ (∀ c ∈ e.2, c ≠ NUL ∧ c ≠ '\n') ∧
    (natDec e.1).length + e.2.length + 2 ≤ R - 1

/-- An evaluator result that is not the fault of the depth bound and whose
cursor is not before `p`. -/
def Sound (r : Ev) (p : Nat) : Prop :=
  r ≠ .fault .fuel ∧ ∀ v q, r = .ok (v, q) → p ≤ q

/-- The image of a result. -/
def Res.map {α β : Type} (f : α → β) : Res α → Res β
  | .ok a => .ok (f a)
  | .fault e => .fault e

/-- The lines a session printed, prompts included. -/
def printed (r : Res State) : Res (List Text) := r.map State.out

/-! ## Vocabulary for the run loop and the rewriting of operators -/

/-- The first `n` rounds of the loop `while(l){...}`: the state, the counter
and the stack they leave, whether or not the run ends later. -/
def rounds : Nat → State → Int → List Int → Res Ctl
  | 0, st, l, E => .ok (st, l, E)
  | n + 1, st, l, E =>
    if l = 0 then .ok (st, l, E)
    else (step st l E).bind fun c => rounds n c.1 c.2.1 c.2.2

/-- The state `st` when the lines `o` were printed before its own output and
the file system is `f`. -/
def State.after (st : State) (o : List Text) (f : Text → Option Text) : State :=
  { st with out := o ++ st.out, fs := f }

/-- One pass of the macro `U(y,z)` for a pattern `y` of the two characters
`y0`, `y1`, from left to right: every occurrence becomes `z` and a blank
(theorem `U_eq_Upass`). -/
def Upass (y0 y1 z : Char) : Text → Text
  | [] => []
  | [a] => [a]
  | a :: b :: r =>
    if a = y0 ∧ b = y1 then z :: ' ' :: Upass y0 y1 z r else a :: Upass y0 y1 z (b :: r)

/-- The rewriting of the specification: each `<>`, `<=`, `>=` of the text
becomes its single sentinel character. -/
def rewritten : Text → Text
  | [] => []
  | [a] => [a]
  | a :: b :: r =>
    if a = '<' ∧ b = '>' then '#' :: rewritten r
    else if a = '<' ∧ b = '=' then '$' :: rewritten r
    else if a = '>' ∧ b = '=' then '!' :: rewritten r
    else a :: rewritten (b :: r)

/-- The text the specification lets the executor dispatch on: every space and
tab deleted first, the two-character operators rewritten then. -/
def specText (s : Text) : Text :=
  rewritten (s.filter fun c => !(c == ' ' || c == '\t'))

/-- No `<` or `>` of the text is directly followed by a space or a tab. -/
def tight : Text → Bool
  | [] => true
  | [_] => true
  | a :: b :: r =>
    !((a == '<' || a == '>') && (b == ' ' || b == '\t')) && tight (b :: r)

/-- The three passes of the macro `U` in the order of the code: `<>`, then
`<=`, then `>=`. -/
def passes (s : Text) : Text :=
  Upass '>' '=' '!' (Upass '<' '=' '$' (Upass '<' '>' '#' s))

/-! ## Vocabulary for the lines a session stores -/

/-- The input line `ln` is the definition `<k> <t>` of a line whose number `k`
is a slot of the array `m` other than that of the line `"E"`; it fits the
buffer `B`. -/
def Defines (ln : Text) (k : Nat) (t : Text) : Prop :=
  ln = natDec k ++ ' ' :: t ∧ k < 12 * R ∧ k ≠ 11 * R ∧ (∀ c ∈ t, c ≠ NUL) ∧ ln.length < R

/-- The input line `ln` is the command `OLD <path>` for a file of `fs` that
holds the saved lines `<number> <text>` of the entries `es`, one per line. -/
def Loads (fs : Text → Option Text) (ln : Text) (es : List (Nat × Text)) : Prop :=
  ∃ path, ln = "OLD ".data ++ path ∧ path ≠ [] ∧ (∀ c ∈ path, c ≠ NUL) ∧
    path.length + 4 < R ∧
    fs path = some (es.flatMap fun e => natDec e.1 ++ ' ' :: e.2 ++ ['\n']) ∧
    ∀ e ∈ es, Fits e

/-- An input line that is a line definition, the command `NEW`, or the load
of a file of saved lines. -/
def Accepted (fs : Text → Option Text) (ln : Text) : Prop :=
  ln = "NEW".data ∨ (∃ k t, Defines ln k t) ∨ ∃ es, Loads fs ln es

/-- Where the entry `s` of slot `k` comes from, the input lines being `A`: it
is the line `"E"` of `basic()`, or one of the input lines defined it, or one
of them loaded it from its file. -/
def Origin (fs : Text → Option Text) (A : List Text) (k : Nat) (s : Text) : Prop :=
  (k = 11 * R ∧ s = ['E']) ∨ (∃ ln ∈ A, Defines ln k s) ∨
    ∃ ln ∈ A, ∃ es, Loads fs ln es ∧ (k, s) ∈ es

/-! ## `tabe.c`: the expansion of tabs

The filter `src/tabe/tabe.c`, as far as its expand mode goes: the argument
loop of `main` and the loop of the branch `TAB_EXPAND`.  Standard input and
standard output are texts; `int` and its operators are those of the
interpreter above (`wrap`, `cdiv`), `atoi` is the same library function. -/

/-- The constant `TAB_EXPAND`. -/
def TAB_EXPAND : Nat := 0

/-- The constant `TAB_COMPRESS`. -/
def TAB_COMPRESS : Nat := 1

/-- The constant `TAB_BOLONLY`. -/
def TAB_BOLONLY : Nat := 2

/-- The variables the argument loop of `main` sets: the global `chpertab` and
the locals `gottype`, `exptype` (without a value until a mode is given) and
`ccerror`. -/
structure Options where
  chpertab : Int
  gottype : Bool
  exptype : Option Nat
  ccerror : Bool
deriving DecidableEq

/-- The variables before the argument loop: `int chpertab = 4`,
`gottype = FALSE`, `ccerror = FALSE`. -/
def defaults : Options :=
  { chpertab := 4, gottype := false, exptype := none, ccerror := false }

/-- The function `isdigit` of `ctype.h` in the C locale. -/
def isdigit (c : Char) : Bool := decide (48 ≤ c.toNat ∧ c.toNat ≤ 57)

/-- The loop `for(whicharg=1; whicharg<argc; whicharg++)` of `main` over the
arguments `argv[1]`, `argv[2]`, ... -/
def arguments : List Text → Options → Options
  | [], o => o
  | a :: rest, o =>
    if a = ['-', 'c'] then
      arguments rest { o with exptype := some TAB_COMPRESS, gottype := true }
    else if a = ['-', 'e'] then
      arguments rest { o with exptype := some TAB_EXPAND, gottype := true }
    else if a = ['-', 'b'] then
      arguments rest { o with exptype := some TAB_BOLONLY, gottype := true }
    else if rd a 0 = '-' ∧ isdigit (rd a 1) = true then
      arguments rest { o with chpertab := atoi (a.drop 1) }
    else arguments rest { o with ccerror := true }

/-- The column after the loop `for(k=0; k<nspaces; k++){putchar(' ');
curcol++;}` has run `k` times. -/
def advance : Nat → Int → Int
  | 0, curcol => curcol
  | k + 1, curcol => advance k (wrap (curcol + 1))

/-- The loop `while((ch = getchar()) != EOF)` of the branch `TAB_EXPAND`, for
the tab width `chpertab`, from the column `curcol` on, over the rest of
standard input: what it writes to standard output. -/
def expand (chpertab : Int) : Int → Text → Res Text
  | _, [] => .ok []
  | curcol, ch :: rest =>
    if ch = '\t' then
      (cdiv curcol chpertab).bind fun q =>
        (expand chpertab
            (advance (wrap (wrap (wrap (q + 1) * chpertab) - curcol)).toNat curcol) rest).bind
          fun out =>
            .ok (List.replicate (wrap (wrap (wrap (q + 1) * chpertab) - curcol)).toNat ' '
              ++ out)
    else if ch = '\n' then (expand chpertab 0 rest).bind fun out => .ok (ch :: out)
    else (expand chpertab (wrap (curcol + 1)) rest).bind fun out => .ok (ch :: out)

/-- The column that follows column `col` when the character `ch` is read, as
the usage text describes it: a tab leads to the next multiple of the tab width
`c`, a newline to column 0, any other character one column on. -/
def nextColumn (c col : Nat) (ch : Char) : Nat :=
  if ch = '\t' then (col / c + 1) * c else if ch = '\n' then 0 else col + 1

/-- The expansion of a text as the usage text describes it, from column `col`
on: each tab becomes the spaces up to the next multiple of `c`, every other
character is copied. -/
def expanded (c : Nat) : Nat → Text → Text
  | _, [] => []
  | col, ch :: rest =>
    if ch = '\t' then
      List.replicate (nextColumn c col ch - col) ' ' ++ expanded c (nextColumn c col ch) rest
    else ch :: expanded c (nextColumn c col ch) rest

/-- The largest column reached while a text is read from column `col` on. -/
def reach (c : Nat) : Nat → Text → Nat
  | col, [] => col
  | col, ch :: rest => max col (reach c (nextColumn c col ch) rest)

/-! ## Theorems -/

theorem cbool_decide (p : Prop) [Decidable p] : cbool (decide p) = if p then 1 else 0 := by
  by_cases h : p <;> simp [cbool, h]

theorem cbool_beq (a b : Int) : cbool (a == b) = if a = b then 1 else 0 := by
  by_cases h : a = b <;> simp [cbool, h]

theorem cbool_bne (a b : Int) : cbool (a != b) = if a = b then 0 else 1 := by
  by_cases h : a = b <;> simp [cbool, h]

/-! ### The depth bound of `eval` is never reached -/

theorem bind_ok {α β : Type} (a : α) (k : α → Res β) : (Res.ok a).bind k = k a := rfl

theorem bind_fault {α β : Type} (e : Fault) (k : α → Res β) :
    (Res.fault e : Res α).bind k = .fault e := rfl

theorem O_sound (B : Text) (b f : Nat → Ev) (u : Char) (s : Int → Int → Res Int)
    (c : Char) (a : Int → Int → Res Int) (p : Nat)
    (hs : ∀ o r, s o r ≠ .fault .fuel) (ha : ∀ o r, a o r ≠ .fault .fuel)
    (hf : Sound (f p) p) (hb : ∀ q, p < q → q ≤ R → Sound (b q) q) :
    Sound (O B b f u s c a p) p := by
  unfold O
  cases hfp : f p with
  | fault e =>
    rw [hfp] at hf
    rw [bind_fault]
    exact hf
  | ok op =>
    rw [hfp] at hf
    have hp1 : p ≤ op.2 := hf.2 op.1 op.2 rfl
    rw [bind_ok]
    by_cases hR : R ≤ op.2
    · rw [if_pos hR]; exact ⟨by simp, by intro v q h; cases h⟩
    · rw [if_neg hR]
      have hbq := hb (op.2 + 1) (by omega) (by omega)
      have key : ∀ (g : Int → Int → Res Int), (∀ o r, g o r ≠ .fault .fuel) →
          Sound ((b (op.2 + 1)).bind fun rp => (g op.1 rp.1).bind fun v => .ok (v, rp.2)) p := by
        intro g hg
        cases hbr : b (op.2 + 1) with
        | fault e =>
          rw [hbr] at hbq
          rw [bind_fault]
          exact ⟨hbq.1, by intro v q h; cases h⟩
        | ok rp =>
          rw [hbr] at hbq
          have hq : op.2 + 1 ≤ rp.2 := hbq.2 rp.1 rp.2 rfl
          rw [bind_ok]
          cases hgr : g op.1 rp.1 with
          | fault e =>
            have := hg op.1 rp.1
            rw [hgr] at this
            rw [bind_fault]
            exact ⟨fun h => this (by cases h; rfl), by intro v q h; cases h⟩
          | ok v =>
            rw [bind_ok]
            refine ⟨by simp, ?_⟩
            intro v1 q h
            have : rp.2 = q := by
              simp only [Res.ok.injEq, Prod.mk.injEq] at h
              exact h.2
            omega
      by_cases h1 : rd B op.2 = u
      · rw [if_pos h1]; exact key s hs
      · rw [if_neg h1]
        by_cases h2 : rd B op.2 = c
        · rw [if_pos h2]; exact key a ha
        · rw [if_neg h2]
          refine ⟨by simp, ?_⟩
          intro v q h
          have : op.2 = q := by
            simp only [Res.ok.injEq, Prod.mk.injEq] at h
            exact h.2
          omega

theorem cdiv_ne_fuel (o r : Int) : cdiv o r ≠ .fault .fuel := by
  unfold cdiv
  split
  · simp
  · split <;> simp

/-- With `6 * (R - p)` levels and one more for each tier below it, no tier
function runs out of depth, and none moves the cursor backwards. -/
theorem tiers_sound (B : Text) (P : Nat → Int) : ∀ (n p : Nat),
    (6 * (R - p) + 1 ≤ n → Sound (Y B P n p) p) ∧
    (6 * (R - p) + 2 ≤ n → Sound (W B P n p) p) ∧
    (6 * (R - p) + 3 ≤ n → Sound (V B P n p) p) ∧
    (6 * (R - p) + 4 ≤ n → Sound (K B P n p) p) ∧
    (6 * (R - p) + 5 ≤ n → Sound (J B P n p) p) ∧
    (6 * (R - p) + 6 ≤ n → Sound (S B P n p) p) := by
  intro n
  induction n with
  | zero =>
    intro p
    exact ⟨fun h => by omega, fun h => by omega, fun h => by omega, fun h => by omega,
      fun h => by omega, fun h => by omega⟩
  | succ n ih =>
    intro p
    have up : ∀ q, p < q → q ≤ R → 6 * (R - q) + 6 ≤ 6 * (R - p) := by
      intro q h1 h2; omega
    refine ⟨?_, ?_, ?_, ?_, ?_, ?_⟩
    · intro h
      rw [Y]
      by_cases hR : R ≤ p
      · rw [if_pos hR]; exact ⟨by simp, by intro v q e; cases e⟩
      · rw [if_neg hR]
        by_cases h1 : rd B p = '-'
        · rw [if_pos h1]
          have hy := (ih (p + 1)).1 (by omega)
          cases hr : Y B P n (p + 1) with
          | fault e =>
            rw [hr] at hy
            rw [bind_fault]
            exact ⟨hy.1, by intro v q e1; cases e1⟩
          | ok vp =>
            rw [hr] at hy
            have := hy.2 vp.1 vp.2 rfl
            rw [bind_ok]
            refine ⟨by simp, ?_⟩
            intro v q e1
            have : vp.2 = q := by
              simp only [Res.ok.injEq, Prod.mk.injEq] at e1
              exact e1.2
            omega
        · rw [if_neg h1]
          by_cases h2 : 48 ≤ (rd B p).toNat ∧ (rd B p).toNat ≤ 57
          · rw [if_pos h2]
            refine ⟨by simp, ?_⟩
            intro v q e1
            have : p + (strtol (List.drop p B)).2 = q := by
              simp only [Res.ok.injEq, Prod.mk.injEq] at e1
              exact e1.2
            omega
          · rw [if_neg h2]
            by_cases h3 : rd B p = '('
            · rw [if_pos h3]
              have hy := (ih (p + 1)).2.2.2.2.2 (by omega)
              cases hr : S B P n (p + 1) with
              | fault e =>
                rw [hr] at hy
                rw [bind_fault]
                exact ⟨hy.1, by intro v q e1; cases e1⟩
              | ok vp =>
                rw [hr] at hy
                have := hy.2 vp.1 vp.2 rfl
                rw [bind_ok]
                refine ⟨by simp, ?_⟩
                intro v q e1
                have : vp.2 + 1 = q := by
                  simp only [Res.ok.injEq, Prod.mk.injEq] at e1
                  exact e1.2
                omega
            · rw [if_neg h3]
              split
              · refine ⟨by simp, ?_⟩
                intro v q e1
                have : p + 1 = q := by
                  simp only [Res.ok.injEq, Prod.mk.injEq] at e1
                  exact e1.2
                omega
              · exact ⟨by simp, by intro v q e1; cases e1⟩
    · intro h
      rw [W]
      exact O_sound _ _ _ _ _ _ _ _ (fun _ _ => by simp) cdiv_ne_fuel
        ((ih p).1 (by omega))
        (fun q h1 h2 => (ih q).2.1 (by have := up q h1 h2; omega))
    · intro h
      rw [V]
      exact O_sound _ _ _ _ _ _ _ _ (fun _ _ => by simp) (fun _ _ => by simp)
        ((ih p).2.1 (by omega))
        (fun q h1 h2 => (ih q).2.2.1 (by have := up q h1 h2; omega))
    · intro h
      rw [K]
      exact O_sound _ _ _ _ _ _ _ _ (fun _ _ => by simp) (fun _ _ => by simp)
        ((ih p).2.2.1 (by omega))
        (fun q h1 h2 => (ih q).2.2.2.1 (by have := up q h1 h2; omega))
    · intro h
      rw [J]
      exact O_sound _ _ _ _ _ _ _ _ (fun _ _ => by simp) (fun _ _ => by simp)
        ((ih p).2.2.2.1 (by omega))
        (fun q h1 h2 => (ih q).2.2.2.2.1 (by have := up q h1 h2; omega))
    · intro h
      rw [S]
      exact O_sound _ _ _ _ _ _ _ _ (fun _ _ => by simp) (fun _ _ => by simp)
        ((ih p).2.2.2.2.1 (by omega))
        (fun q h1 h2 => (ih q).2.2.2.2.2 (by have := up q h1 h2; omega))

/-- The evaluator is total: `eval` never yields the fault of the depth bound,
and it never moves the cursor backwards. -/
theorem eval_sound (B : Text) (P : Nat → Int) (p : Nat) : Sound (eval B P p) p :=
  (tiers_sound B P _ p).2.2.2.2.2 (le_refl _)

/-! ### Decimal numerals -/

theorem natDecAux_eq : ∀ (n f : Nat) (acc : Text), n < f →
    natDecAux f n acc = natDecAux (n + 1) n [] ++ acc := by
  intro n
  induction n using Nat.strong_induction_on with
  | _ n ih =>
    intro f acc hf
    obtain ⟨f, rfl⟩ : ∃ g, f = g + 1 := ⟨f - 1, by omega⟩
    by_cases h : n < 10
    · simp [natDecAux, h]
    · have h1 : n / 10 < n := Nat.div_lt_self (by omega) (by omega)
      have h2 : n / 10 < f := by omega
      simp only [natDecAux, h, if_false]
      rw [ih (n / 10) h1 f _ h2, ih (n / 10) h1 n _ h1]
      simp

theorem natDec_lt (n : Nat) (h : n < 10) : natDec n = [Char.ofNat (48 + n)] := by
  simp [natDec, natDecAux, h]

theorem natDec_ge (n : Nat) (h : 10 ≤ n) :
    natDec n = natDec (n / 10) ++ [Char.ofNat (48 + n % 10)] := by
  have h1 : n / 10 < n := Nat.div_lt_self (by omega) (by omega)
  have h0 : ¬ n < 10 := by omega
  have e : natDecAux (n + 1) n [] = natDecAux n (n / 10) [Char.ofNat (48 + n % 10)] := by
    simp only [natDecAux, h0, if_false]
  unfold natDec
  rw [e, natDecAux_eq (n / 10) n _ h1]

theorem toNat_digit (d : Nat) (h : d < 10) : (Char.ofNat (48 + d)).toNat = 48 + d := by
  interval_cases d <;> rfl

theorem digitVal_digit (d : Nat) (h : d < 10) : digitVal (Char.ofNat (48 + d)) = some d := by
  interval_cases d <;> rfl

/-- Every character of a decimal numeral is a decimal digit. -/
theorem natDec_digits (n : Nat) : ∀ c ∈ natDec n, 48 ≤ c.toNat ∧ c.toNat ≤ 57 := by
  induction n using Nat.strong_induction_on with
  | _ n ih =>
    intro c hc
    by_cases h : n < 10
    · rw [natDec_lt n h] at hc
      simp at hc
      subst hc
      rw [toNat_digit n h]; omega
    · rw [natDec_ge n (by omega)] at hc
      rcases List.mem_append.1 hc with hc | hc
      · exact ih (n / 10) (Nat.div_lt_self (by omega) (by omega)) c hc
      · simp at hc
        subst hc
        rw [toNat_digit _ (Nat.mod_lt _ (by omega))]
        have := Nat.mod_lt n (show 0 < 10 by omega)
        omega

theorem natDec_ne_nil (n : Nat) : natDec n ≠ [] := by
  by_cases h : n < 10
  · rw [natDec_lt n h]; simp
  · rw [natDec_ge n (by omega)]; simp

/-- A positive number's numeral starts with a digit from 1 to 9. -/
theorem natDec_head (n : Nat) (hn : 0 < n) :
    ∃ d r, 1 ≤ d ∧ d < 10 ∧ natDec n = Char.ofNat (48 + d) :: r := by
  induction n using Nat.strong_induction_on with
  | _ n ih =>
    by_cases h : n < 10
    · exact ⟨n, [], hn, h, natDec_lt n h⟩
    · obtain ⟨d, r, h1, h2, h3⟩ := ih (n / 10) (Nat.div_lt_self (by omega) (by omega))
        (Nat.div_pos (by omega) (by omega))
      exact ⟨d, r ++ [Char.ofNat (48 + n % 10)], h1, h2, by rw [natDec_ge n (by omega), h3]; rfl⟩

/-- The digit loop of `strtol` reads a decimal numeral back. -/
theorem scan_natDec (n : Nat) : ∀ rest : Text,
    scanDigits 10 (natDec n ++ rest) 0 0 = scanDigits 10 rest n (natDec n).length := by
  induction n using Nat.strong_induction_on with
  | _ n ih =>
    intro rest
    by_cases h : n < 10
    · rw [natDec_lt n h]
      simp [scanDigits, digitVal_digit n h, h]
    · rw [natDec_ge n (by omega), List.append_assoc,
        ih (n / 10) (Nat.div_lt_self (by omega) (by omega))]
      have hm := Nat.mod_lt n (show 0 < 10 by omega)
      simp only [List.singleton_append, scanDigits, digitVal_digit _ hm, hm, if_true,
        List.length_append, List.length_singleton]
      congr 1
      omega

theorem base0_of_ne (c : Char) (s : Text) (h : c ≠ '0') : base0 (c :: s) = (10, 0) := by
  unfold base0
  split <;> simp_all

theorem base0_zero (c : Char) (s : Text) (h : digitVal c = none) :
    base0 ('0' :: c :: s) = (8, 0) := by
  have hx : c ≠ 'x' := by rintro rfl; exact absurd h (by decide)
  have hX : c ≠ 'X' := by rintro rfl; exact absurd h (by decide)
  cases s with
  | nil => rfl
  | cons e t => simp [base0, hx, hX]

/-- The call `strtol(p, &p, 0)` reads a decimal numeral without leading zeros
back, when a character that is no digit follows. -/
theorem strtol_natDec (n : Nat) (hn : n ≤ LONG_MAX) (c : Char) (tail : Text)
    (hc : digitVal c = none) :
    strtol (natDec n ++ c :: tail) = (Int.ofNat n, (natDec n).length) := by
  rcases Nat.eq_zero_or_pos n with h0 | hpos
  · subst h0
    have e : natDec 0 = ['0'] := rfl
    rw [e]
    simp only [strtol, List.singleton_append, base0_zero c tail hc, List.drop_zero]
    have d0 : digitVal '0' = some 0 := rfl
    simp [scanDigits, d0, hc]
  · obtain ⟨d, r, h1, h2, h3⟩ := natDec_head n hpos
    have hne : Char.ofNat (48 + d) ≠ '0' := by
      intro h
      have := congrArg Char.toNat h
      rw [toNat_digit d h2] at this
      have e0 : ('0' : Char).toNat = 48 := rfl
      omega
    have hb : base0 (natDec n ++ c :: tail) = (10, 0) := by
      rw [h3]; exact base0_of_ne _ _ hne
    simp only [strtol, hb, List.drop_zero, scan_natDec, scanDigits, hc, Nat.zero_add]
    rw [Nat.min_eq_left hn]

theorem rd_of_drop {B : Text} {p : Nat} {c : Char} {r : Text} (h : B.drop p = c :: r) :
    rd B p = c := by
  have : (B.drop p)[0]? = some c := by rw [h]; simp
  rw [List.getElem?_drop] at this
  simp only [Nat.add_zero] at this
  simp [rd, List.getD_eq_getElem?_getD, this]

theorem drop_succ_of_drop {B : Text} {p : Nat} {c : Char} {r : Text} (h : B.drop p = c :: r) :
    B.drop (p + 1) = r := by
  rw [← List.drop_drop, h]; rfl

theorem drop_add_of_drop {B : Text} {p : Nat} (s t : Text) (h : B.drop p = s ++ t) :
    B.drop (p + s.length) = t := by
  rw [← List.drop_drop, h]; simp

theorem rd_add_of_drop {B : Text} {p : Nat} (s : Text) (c : Char) (t : Text)
    (h : B.drop p = s ++ c :: t) : rd B (p + s.length) = c :=
  rd_of_drop (drop_add_of_drop s (c :: t) h)

theorem wrap_of_range (a : Int) (h1 : -2147483648 ≤ a) (h2 : a ≤ 2147483647) : wrap a = a := by
  unfold wrap; omega

theorem fmtInt_length_pos (a : Int) : 0 < (fmtInt a).length := by
  unfold fmtInt
  split
  · simp
  · exact List.length_pos.2 (natDec_ne_nil _)

theorem digitVal_NUL : digitVal NUL = none := rfl

/-- The primary tier reads a numeral written by `%d` back. -/
theorem Y_fmtInt (B : Text) (P : Nat → Int) (p : Nat) (a : Int) (tail : Text) (n : Nat)
    (hB : B.drop p = fmtInt a ++ NUL :: tail) (hp : p + (fmtInt a).length < R)
    (h1 : -2147483648 ≤ a) (h2 : a ≤ 2147483647) :
    Y B P (n + 2) p = .ok (a, p + (fmtInt a).length) := by
  have key : ∀ (q m : Nat) (k : Nat), B.drop q = natDec k ++ NUL :: tail → q < R →
      k ≤ 2147483648 →
      Y B P (m + 1) q = .ok (wrap (Int.ofNat k), q + (natDec k).length) := by
    intro q m k hq hqR hk
    obtain ⟨c, r, hcr⟩ : ∃ c r, natDec k = c :: r := by
      cases hh : natDec k with
      | nil => exact absurd hh (natDec_ne_nil k)
      | cons c r => exact ⟨c, r, rfl⟩
    have hc := natDec_digits k c (by rw [hcr]; simp)
    have hrd : rd B q = c := rd_of_drop (by rw [hq, hcr]; rfl)
    have hm : c ≠ '-' := by
      rintro rfl
      have e : ('-' : Char).toNat = 45 := rfl
      omega
    have hst := strtol_natDec k (by unfold LONG_MAX; omega) NUL tail digitVal_NUL
    simp only [Y, hrd, hm, hc, not_le.2 hqR, if_false, if_true, and_self, hq, hst]
  unfold fmtInt at hB hp ⊢
  by_cases hneg : a < 0
  · simp only [hneg, if_true] at hB hp ⊢
    have hrd : rd B p = '-' := rd_of_drop hB
    have hq := drop_succ_of_drop hB
    simp only [List.length_cons] at hp ⊢
    have hk := key (p + 1) n a.natAbs hq (by omega) (by omega)
    have e : wrap (-wrap (Int.ofNat a.natAbs)) = a := by
      simp only [Int.ofNat_eq_coe]
      unfold wrap; omega
    rw [Y]
    simp only [hrd, not_le.2 (show p < R by omega), if_false, if_true, hk, Res.bind, e]
    rw [show p + 1 + (natDec a.natAbs).length = p + ((natDec a.natAbs).length + 1) by omega]
  · simp only [hneg, if_false] at hB hp ⊢
    have hk := key p (n + 1) a.toNat hB (by omega) (by omega)
    rw [hk]
    have e : wrap (Int.ofNat a.toNat) = a := by
      simp only [Int.ofNat_eq_coe]
      unfold wrap; omega
    rw [e]

theorem O_pass (B : Text) (b f : Nat → Ev) (u : Char) (s : Int → Int → Res Int)
    (c : Char) (a : Int → Int → Res Int) (p : Nat) (o : Int) (p1 : Nat)
    (hf : f p = .ok (o, p1)) (hR : p1 < R) (hu : rd B p1 ≠ u) (hc : rd B p1 ≠ c) :
    O B b f u s c a p = .ok (o, p1) := by
  simp [O, Res.bind, hf, hu, hc, not_le.2 hR]

/-- The evaluator reads a numeral written by `%d` back, when the string ends
behind it. -/
theorem S_fmtInt (B : Text) (P : Nat → Int) (p : Nat) (a : Int) (tail : Text) (n : Nat)
    (hB : B.drop p = fmtInt a ++ NUL :: tail) (hp : p + (fmtInt a).length < R)
    (h1 : -2147483648 ≤ a) (h2 : a ≤ 2147483647) :
    S B P (n + 7) p = .ok (a, p + (fmtInt a).length) := by
  have hrd : rd B (p + (fmtInt a).length) = NUL := rd_add_of_drop _ _ _ hB
  have hY := Y_fmtInt B P p a tail n hB hp h1 h2
  have hW : W B P (n + 3) p = .ok (a, p + (fmtInt a).length) := by
    rw [W]; exact O_pass _ _ _ _ _ _ _ _ _ _ hY hp (by rw [hrd]; decide) (by rw [hrd]; decide)
  have hV : V B P (n + 4) p = .ok (a, p + (fmtInt a).length) := by
    rw [V]; exact O_pass _ _ _ _ _ _ _ _ _ _ hW hp (by rw [hrd]; decide) (by rw [hrd]; decide)
  have hK : K B P (n + 5) p = .ok (a, p + (fmtInt a).length) := by
    rw [K]; exact O_pass _ _ _ _ _ _ _ _ _ _ hV hp (by rw [hrd]; decide) (by rw [hrd]; decide)
  have hJ : J B P (n + 6) p = .ok (a, p + (fmtInt a).length) := by
    rw [J]; exact O_pass _ _ _ _ _ _ _ _ _ _ hK hp (by rw [hrd]; decide) (by rw [hrd]; decide)
  rw [S]; exact O_pass _ _ _ _ _ _ _ _ _ _ hJ hp (by rw [hrd]; decide) (by rw [hrd]; decide)

theorem eval_fmtInt (B : Text) (P : Nat → Int) (p : Nat) (a : Int) (tail : Text)
    (hB : B.drop p = fmtInt a ++ NUL :: tail) (hp : p + (fmtInt a).length < R)
    (h1 : -2147483648 ≤ a) (h2 : a ≤ 2147483647) :
    eval B P p = .ok (a, p + (fmtInt a).length) := by
  unfold eval
  have e : 6 * (R - p) + 6 = (6 * (R - p) - 1) + 7 := by omega
  rw [e]
  exact S_fmtInt B P p a tail _ hB hp h1 h2

/-! ### Texts and buffers -/

theorem takeWhile_append_nul (s t : Text) (hs : ∀ c ∈ s, c ≠ NUL) :
    (s ++ NUL :: t).takeWhile (fun c => c != NUL) = s := by
  induction s with
  | nil => simp [List.takeWhile]
  | cons c s ih =>
    have hc : (c != NUL) = true := by simpa using hs c (by simp)
    rw [List.cons_append, List.takeWhile_cons, hc]
    simp only [if_true]
    rw [ih (fun d hd => hs d (by simp [hd]))]

theorem cstr_append_nul (s t : Text) (hs : ∀ c ∈ s, c ≠ NUL) (k : Nat) (hk : k ≤ s.length) :
    cstr (s ++ NUL :: t) k = s.drop k := by
  unfold cstr
  rw [List.drop_append_of_le_length hk]
  exact takeWhile_append_nul _ _ (fun c hc => hs c (List.mem_of_mem_drop hc))

theorem cstr_put (B s : Text) (hs : ∀ c ∈ s, c ≠ NUL) (k : Nat) (hk : k ≤ s.length) :
    cstr (put B s) k = s.drop k :=
  cstr_append_nul s _ hs k hk

theorem drop_put (B s : Text) (k : Nat) (hk : k ≤ s.length) :
    (put B s).drop k = s.drop k ++ NUL :: B.drop (s.length + 1) := by
  unfold put
  rw [List.drop_append_of_le_length hk]

theorem Q_none_of_not_mem (s : Text) (y0 : Char) (y : Text) (h : y0 ∉ s) :
    Q s (y0 :: y) = none := by
  induction s with
  | nil => rfl
  | cons c s ih =>
    have hc : y0 ≠ c := fun e => h (by simp [e])
    have hs : y0 ∉ s := fun e => h (by simp [e])
    simp [Q, List.isPrefixOf, hc, ih hs]

theorem Q_first (a : Text) (y0 : Char) (y t : Text) (h : y0 ∉ a) :
    Q (a ++ (y0 :: y ++ t)) (y0 :: y) = some a.length := by
  induction a with
  | nil =>
    have : (y0 :: y).isPrefixOf (y0 :: y ++ t) = true := by
      rw [List.isPrefixOf_iff_prefix]; exact List.prefix_append _ _
    simp only [List.nil_append, List.length_nil]
    simp only [List.cons_append] at this ⊢
    simp [Q, this]
  | cons c s ih =>
    have hc : y0 ≠ c := fun e => h (by simp [e])
    have hs : y0 ∉ s := fun e => h (by simp [e])
    have ih2 := ih hs
    simp only [List.cons_append] at ih2
    simp [Q, List.isPrefixOf, hc, ih2]

theorem Uloop_of_none (n : Nat) (s y : Text) (z : Char) (h : Q s y = none) :
    Uloop n s y z = s := by
  cases n <;> simp [Uloop, h]

theorem sentinels_id (s : Text) (h1 : '<' ∉ s) (h2 : '>' ∉ s) : sentinels s = s := by
  unfold sentinels U
  split
  · rw [Uloop_of_none _ s _ _ (Q_none_of_not_mem s '<' _ h1),
      Uloop_of_none _ s _ _ (Q_none_of_not_mem s '<' _ h1),
      Uloop_of_none _ s _ _ (Q_none_of_not_mem s '>' _ h2)]
  · rfl

theorem strip_filter (s : Text) (h : '"' ∉ s) :
    strip s 0 = s.filter (fun c => !(c == ' ' || c == '\t')) := by
  induction s with
  | nil => rfl
  | cons c s ih =>
    have hc : c ≠ '"' := fun e => h (by simp [e])
    have hs : '"' ∉ s := fun e => h (by simp [e])
    by_cases h1 : c = ' '
    · subst h1; simp [strip, Q, List.isPrefixOf, ih hs]
    · by_cases h2 : c = '\t'
      · subst h2; simp [strip, Q, List.isPrefixOf, ih hs]
      · have e1 : ' ' ≠ c := fun e => h1 e.symm
        have e2 : '\t' ≠ c := fun e => h2 e.symm
        simp [strip, Q, List.isPrefixOf, ih hs, hc, h1, h2, e1, e2]

/-- The loop `while(!(s=m[l]))l++` stops at the first stored line. -/
theorem skip_eq (m : Nat → Option Text) (k : Nat) (hk : (m k).isSome = true) :
    ∀ (f l : Nat), l ≤ k → k - l < f → (∀ j, l ≤ j → j < k → m j = none) →
      skip m f l = .ok k := by
  intro f
  induction f with
  | zero => intro l _ h; omega
  | succ f ih =>
    intro l hl hf hnone
    rcases Nat.eq_or_lt_of_le hl with e | hlt
    · subst e; simp [skip, hk]
    · have : m l = none := hnone l (le_refl _) hlt
      simp only [skip, this, Option.isSome_none, Bool.false_eq_true, if_false]
      exact ih (l + 1) hlt (by omega) (fun j h1 h2 => hnone j (by omega) h2)

/-- The characters `%d` writes: a minus sign or a decimal digit. -/
theorem fmtInt_chars (a : Int) : ∀ c ∈ fmtInt a, c = '-' ∨ (48 ≤ c.toNat ∧ c.toNat ≤ 57) := by
  intro c hc
  unfold fmtInt at hc
  split at hc
  · rcases List.mem_cons.1 hc with h | h
    · exact Or.inl h
    · exact Or.inr (natDec_digits _ c h)
  · exact Or.inr (natDec_digits _ c hc)

theorem fmtInt_not_mem (a : Int) (x : Char) (h1 : x ≠ '-') (h2 : ¬ (48 ≤ x.toNat ∧ x.toNat ≤ 57)) :
    x ∉ fmtInt a := by
  intro hx
  rcases fmtInt_chars a x hx with h | h
  · exact h1 h
  · exact h2 h

theorem natDec_length_le (k : Nat) : ∀ n, n < 10 ^ (k + 1) → (natDec n).length ≤ k + 1 := by
  induction k with
  | zero => intro n hn; rw [natDec_lt n (by omega)]; simp
  | succ k ih =>
    intro n hn
    by_cases h : n < 10
    · rw [natDec_lt n h]; simp
    · rw [natDec_ge n (by omega)]
      have : n / 10 < 10 ^ (k + 1) := by
        rw [Nat.div_lt_iff_lt_mul (by omega)]
        calc n < 10 ^ (k + 1 + 1) := hn
          _ = 10 ^ (k + 1) * 10 := by ring
      have := ih (n / 10) this
      simp; omega

theorem fmtInt_length_le (a : Int) (h1 : -2147483648 ≤ a) (h2 : a ≤ 2147483647) :
    (fmtInt a).length ≤ 11 := by
  unfold fmtInt
  split
  · have := natDec_length_le 9 a.natAbs (by norm_num; omega)
    simp; omega
  · have := natDec_length_le 9 a.toNat (by norm_num; omega)
    omega

/-! ### The loop of the macro `U` runs to its end -/

theorem Q_some_spec (y0 : Char) (y : Text) : ∀ (s : Text) (i : Nat),
    Q s (y0 :: y) = some i → ∃ hi : i < s.length, s[i] = y0 := by
  intro s
  induction s with
  | nil => intro i h; simp [Q] at h
  | cons c s ih =>
    intro i h
    unfold Q at h
    split at h
    · rename_i hc
      have hi : 0 = i := by simpa using h
      subst hi
      have : (y0 == c) = true := by
        have := hc.2
        simp only [List.isPrefixOf, Bool.and_eq_true] at this
        exact this.1
      exact ⟨by simp, by simpa using (beq_iff_eq.1 this).symm⟩
    · cases hq : Q s (y0 :: y) with
      | none => rw [hq] at h; simp at h
      | some j =>
        rw [hq] at h
        have hi : j + 1 = i := by simpa using h
        subst hi
        obtain ⟨hj, e⟩ := ih j hq
        exact ⟨by simpa using hj, by simpa using e⟩

theorem count_set_le (s : Text) (i : Nat) (a b : Char) (hab : a ≠ b) :
    (s.set i a).count b ≤ s.count b := by
  by_cases hi : i < s.length
  · rw [List.count_set a b s i hi]
    have : (a == b) = false := by simpa using hab
    simp only [this, Bool.false_eq_true, if_false]
    omega
  · rw [List.set_eq_of_length_le (by omega)]

theorem Uloop_done (y0 y1 z : Char) (hz : z ≠ y0) (hsp : ' ' ≠ y0) : ∀ (n : Nat) (s : Text),
    s.count y0 ≤ n → Q (Uloop n s [y0, y1] z) [y0, y1] = none := by
  intro n
  induction n with
  | zero =>
    intro s h
    have : y0 ∉ s := by
      intro hm
      have := List.count_pos_iff.2 hm
      omega
    simp only [Uloop]
    exact Q_none_of_not_mem s y0 _ this
  | succ n ih =>
    intro s h
    unfold Uloop
    cases hq : Q s [y0, y1] with
    | none => exact hq
    | some i =>
      obtain ⟨hi, e⟩ := Q_some_spec y0 [y1] s i hq
      apply ih
      have h1 : (s.set i z).count y0 + 1 ≤ s.count y0 := by
        rw [List.count_set z y0 s i hi]
        have e1 : (s[i] == y0) = true := by simpa using e
        have e2 : (z == y0) = false := by simpa using hz
        simp only [e1, e2, if_true, Bool.false_eq_true, if_false]
        have : 0 < s.count y0 := List.count_pos_iff.2 (by rw [← e]; exact List.getElem_mem hi)
        omega
      have h2 := count_set_le (s.set i z) (i + 1) ' ' y0 hsp
      omega

/-- The loop of `U` ends because no occurrence is left, not because of the
bound on its rounds. -/
theorem U_done (s : Text) (y0 y1 z : Char) (hz : z ≠ y0) (hsp : ' ' ≠ y0) :
    Q (U s [y0, y1] z) [y0, y1] = none :=
  Uloop_done y0 y1 z hz hsp s.length s (List.count_le_length _ _)

/-! ### The load loop runs to the end of the file -/

theorem takeLine_pos (n : Nat) (rest : Text) (h : rest ≠ []) :
    0 < (takeLine (n + 1) rest).length := by
  cases rest with
  | nil => exact absurd rfl h
  | cons c s =>
    unfold takeLine
    split <;> simp

theorem G_ne_fuel (st : State) : G st ≠ .fault .fuel := by
  unfold G
  simp only
  split
  · simp
  · split
    · simp
    · split <;> simp

/-- The loop of the load command ends at the end of the file, not because of
the bound on its rounds. -/
theorem load_ne_fuel : ∀ (n : Nat) (st : State) (rest : Text), rest.length ≤ n →
    load n st rest ≠ .fault .fuel := by
  intro n
  induction n with
  | zero =>
    intro st rest h
    have : rest = [] := List.length_eq_zero.1 (by omega)
    simp [load, this]
  | succ n ih =>
    intro st rest h
    unfold load
    split
    · simp
    · rename_i hne
      split
      · simp
      · rename_i q hq
        cases hg : G { st with B := (put st.B (takeLine (R - 1) rest)).set q NUL } with
        | fault e =>
          rw [bind_fault]
          intro he
          exact G_ne_fuel _ (by rw [hg]; cases he; rfl)
        | ok st1 =>
          rw [bind_ok]
          apply ih
          have := takeLine_pos 997 rest hne
          have e : R - 1 = 997 + 1 := rfl
          rw [e, List.length_drop]
          omega

/-! ### Statements -/

theorem prepared_eq (st : State) (k : Nat) (s : Text) (hs : sentinels s = s)
    (hm : st.m k = some s) :
    prepared st k s = { st with B := put st.B (strip s 0) } := by
  unfold prepared
  rw [hs, ← hm, Function.update_eq_self]

/-- One round of the run loop executes the first stored line from `l` on and
then advances the counter. -/
theorem step_at (st : State) (l : Int) (E : List Int) (j : Nat) (s : Text)
    (h0 : 0 ≤ l) (hl : l.toNat ≤ j) (hj : j < 12 * R) (hs : st.m j = some s)
    (hnone : ∀ i, l.toNat ≤ i → i < j → st.m i = none) :
    step st l E = (stmt st j s E).bind fun c => .ok (c.1, wrap (c.2.1 + 1), c.2.2) := by
  unfold step
  rw [if_neg (not_lt.2 h0),
    skip_eq st.m j (by rw [hs]; rfl) (12 * R - l.toNat) l.toNat hl (by omega) hnone]
  simp only [Res.bind, hs]

theorem loop_succ (n : Nat) (st : State) (l : Int) (E : List Int) (hl : l ≠ 0) :
    loop (n + 1) st l E = (step st l E).bind fun c => loop n c.1 c.2.1 c.2.2 := by
  simp [loop, hl]

theorem stmt_print_I (st : State) (k : Nat) (E : List Int) :
    stmt st k "PRINT I".data E
      = .ok ({ prepared st k "PRINT I".data with out := st.out ++ [fmtInt (st.P 73)] },
          Int.ofNat k, E) := rfl

theorem stmt_next_I (st : State) (k : Nat) (E : List Int) :
    stmt st k "NEXT I".data E
      = .ok ({ prepared st k "NEXT I".data with
                P := Function.update st.P 73 (wrap (st.P 73 + 1)) },
          if wrap (st.P 73 + 1) ≤ st.M 73 then st.L 73 else Int.ofNat k, E) := by
  by_cases h : wrap (st.P 73 + 1) ≤ st.M 73
  · rw [if_pos h]
    have : stmt st k "NEXT I".data E
        = if wrap (st.P 73 + 1) ≤ st.M 73 then
            .ok ({ prepared st k "NEXT I".data with
                P := Function.update st.P 73 (wrap (st.P 73 + 1)) }, st.L 73, E)
          else .ok ({ prepared st k "NEXT I".data with
                P := Function.update st.P 73 (wrap (st.P 73 + 1)) }, Int.ofNat k, E) := rfl
    rw [this, if_pos h]
  · rw [if_neg h]
    have : stmt st k "NEXT I".data E
        = if wrap (st.P 73 + 1) ≤ st.M 73 then
            .ok ({ prepared st k "NEXT I".data with
                P := Function.update st.P 73 (wrap (st.P 73 + 1)) }, st.L 73, E)
          else .ok ({ prepared st k "NEXT I".data with
                P := Function.update st.P 73 (wrap (st.P 73 + 1)) }, Int.ofNat k, E) := rfl
    rw [this, if_neg h]

theorem stmt_sentinel (st : State) (k : Nat) (E : List Int) :
    stmt st k ['E'] E = .ok (prepared st k ['E'], -1, E) := rfl

theorem set_length_append (pre post : Text) (x y : Char) :
    (pre ++ x :: post).set pre.length y = pre ++ y :: post := by
  induction pre with
  | nil => rfl
  | cons c pre ih => simp [List.set, ih]

theorem fmtInt_ne_NUL (a : Int) : ∀ c ∈ fmtInt a, c ≠ NUL := by
  intro c hc e
  subst e
  exact fmtInt_not_mem a NUL (by decide) (by decide) hc

theorem filter_fmtInt (a : Int) :
    (fmtInt a).filter (fun c => !(c == ' ' || c == '\t')) = fmtInt a := by
  rw [List.filter_eq_self]
  intro c hc
  have h1 : c ≠ ' ' := by
    rintro rfl; exact fmtInt_not_mem a ' ' (by decide) (by decide) hc
  have h2 : c ≠ '\t' := by
    rintro rfl; exact fmtInt_not_mem a '\t' (by decide) (by decide) hc
  simp [h1, h2]

theorem sentinels_for_I (a b : Int) :
    sentinels ("FOR I=".data ++ fmtInt a ++ " TO ".data ++ fmtInt b)
      = "FOR I=".data ++ fmtInt a ++ " TO ".data ++ fmtInt b := by
  apply sentinels_id
  · intro h
    rcases List.mem_append.1 h with h | h
    · rcases List.mem_append.1 h with h | h
      · rcases List.mem_append.1 h with h | h
        · exact absurd h (by decide)
        · exact fmtInt_not_mem a _ (by decide) (by decide) h
      · exact absurd h (by decide)
    · exact fmtInt_not_mem b _ (by decide) (by decide) h
  · intro h
    rcases List.mem_append.1 h with h | h
    · rcases List.mem_append.1 h with h | h
      · rcases List.mem_append.1 h with h | h
        · exact absurd h (by decide)
        · exact fmtInt_not_mem a _ (by decide) (by decide) h
      · exact absurd h (by decide)
    · exact fmtInt_not_mem b _ (by decide) (by decide) h

/-- The statement `FOR I=<a> TO <b>` of slot `k`: it stores `a` in `I`, `b` as
the limit and `k` as the line of the loop. -/
theorem stmt_for_I (st : State) (k : Nat) (E : List Int) (a b : Int)
    (ha1 : -2147483648 ≤ a) (ha2 : a ≤ 2147483647)
    (hb1 : -2147483648 ≤ b) (hb2 : b ≤ 2147483647) :
    ∃ B1, stmt st k ("FOR I=".data ++ fmtInt a ++ " TO ".data ++ fmtInt b) E
      = .ok ({ prepared st k ("FOR I=".data ++ fmtInt a ++ " TO ".data ++ fmtInt b) with
                B := B1,
                P := Function.update st.P 73 a,
                M := Function.update st.M 73 b,
                L := Function.update st.L 73 (Int.ofNat k) }, Int.ofNat k, E) := by
  have hla := fmtInt_length_le a ha1 ha2
  have hlb := fmtInt_length_le b hb1 hb2
  have e0 : "FOR I=".data ++ fmtInt a ++ " TO ".data ++ fmtInt b
      = 'F' :: 'O' :: 'R' :: ' ' :: 'I' :: '=' :: (fmtInt a ++ ' ' :: 'T' :: 'O' :: ' ' :: fmtInt b) := by
    simp
  rw [e0]
  generalize hs : 'F' :: 'O' :: 'R' :: ' ' :: 'I' :: '=' :: (fmtInt a ++ ' ' :: 'T' :: 'O' :: ' ' :: fmtInt b) = s
  have hlt : '<' ∉ s := by
    rw [← hs]
    simp only [List.mem_cons, List.mem_append, not_or]
    refine ⟨by decide, by decide, by decide, by decide, by decide, by decide,
      fmtInt_not_mem a _ (by decide) (by decide), by decide, by decide, by decide, by decide,
      fmtInt_not_mem b _ (by decide) (by decide)⟩
  have hgt : '>' ∉ s := by
    rw [← hs]
    simp only [List.mem_cons, List.mem_append, not_or]
    refine ⟨by decide, by decide, by decide, by decide, by decide, by decide,
      fmtInt_not_mem a _ (by decide) (by decide), by decide, by decide, by decide, by decide,
      fmtInt_not_mem b _ (by decide) (by decide)⟩
  have hq : '"' ∉ s := by
    rw [← hs]
    simp only [List.mem_cons, List.mem_append, not_or]
    refine ⟨by decide, by decide, by decide, by decide, by decide, by decide,
      fmtInt_not_mem a _ (by decide) (by decide), by decide, by decide, by decide, by decide,
      fmtInt_not_mem b _ (by decide) (by decide)⟩
  have hsen : sentinels s = s := sentinels_id s hlt hgt
  have hstrip : strip s 0
      = ['F', 'O', 'R', 'I', '='] ++ (fmtInt a ++ ('T' :: ['O'] ++ fmtInt b)) := by
    have e1 : s = ['F', 'O', 'R', ' ', 'I', '='] ++ (fmtInt a ++ ([' ', 'T', 'O', ' '] ++ fmtInt b)) := by
      rw [← hs]; rfl
    rw [strip_filter s hq, e1, List.filter_append, List.filter_append, List.filter_append,
      filter_fmtInt, filter_fmtInt]
    rfl
  have hT : 'T' ∉ ['F', 'O', 'R', 'I', '='] ++ fmtInt a := by
    simp only [List.mem_cons, List.mem_append, not_or]
    exact ⟨⟨by decide, by decide, by decide, by decide, by decide, by simp⟩,
      fmtInt_not_mem a _ (by decide) (by decide)⟩
  have hnul : ∀ c ∈ ['F', 'O', 'R', 'I', '='] ++ (fmtInt a ++ ('T' :: ['O'] ++ fmtInt b)), c ≠ NUL := by
    intro c hc e
    subst e
    rcases List.mem_append.1 hc with h | h
    · exact absurd h (by decide)
    · rcases List.mem_append.1 h with h | h
      · exact fmtInt_not_mem a _ (by decide) (by decide) h
      · rcases List.mem_append.1 h with h | h
        · exact absurd h (by decide)
        · exact fmtInt_not_mem b _ (by decide) (by decide) h
  refine ⟨(['F', 'O', 'R', 'I', '='] ++ fmtInt a) ++ NUL :: ('O' :: (fmtInt b ++ NUL :: st.B.drop
    ((['F', 'O', 'R', 'I', '='] ++ (fmtInt a ++ ('T' :: ['O'] ++ fmtInt b))).length + 1))), ?_⟩
  unfold stmt prepared
  rw [hsen, hstrip]
  generalize hrest : st.B.drop
    ((['F', 'O', 'R', 'I', '='] ++ (fmtInt a ++ ('T' :: ['O'] ++ fmtInt b))).length + 1) = rest
  have hlen : ¬ R ≤ (['F', 'O', 'R', 'I', '='] ++ (fmtInt a ++ ('T' :: ['O'] ++ fmtInt b))).length := by
    simp [R]; omega
  rw [if_neg hlen]
  have hput : put st.B (['F', 'O', 'R', 'I', '='] ++ (fmtInt a ++ ('T' :: ['O'] ++ fmtInt b)))
      = (['F', 'O', 'R', 'I', '='] ++ fmtInt a) ++ 'T' :: ('O' :: (fmtInt b ++ NUL :: rest)) := by
    unfold put; rw [hrest]; simp
  have hcstr : cstr (put st.B (['F', 'O', 'R', 'I', '='] ++ (fmtInt a ++ ('T' :: ['O'] ++ fmtInt b)))) 0
      = (['F', 'O', 'R', 'I', '='] ++ fmtInt a) ++ ('T' :: ['O'] ++ fmtInt b) := by
    rw [cstr_put _ _ hnul 0 (Nat.zero_le _)]; simp
  have hQ := Q_first (['F', 'O', 'R', 'I', '='] ++ fmtInt a) 'T' ['O'] (fmtInt b) hT
  have hset : (put st.B (['F', 'O', 'R', 'I', '='] ++ (fmtInt a ++ ('T' :: ['O'] ++ fmtInt b)))).set
      (['F', 'O', 'R', 'I', '='] ++ fmtInt a).length NUL
      = (['F', 'O', 'R', 'I', '='] ++ fmtInt a) ++ NUL :: ('O' :: (fmtInt b ++ NUL :: rest)) := by
    rw [hput, set_length_append]
  have hd5 : ((['F', 'O', 'R', 'I', '='] ++ fmtInt a) ++ NUL :: ('O' :: (fmtInt b ++ NUL :: rest))).drop 5
      = fmtInt a ++ NUL :: ('O' :: (fmtInt b ++ NUL :: rest)) := by
    simp
  have hdq : ((['F', 'O', 'R', 'I', '='] ++ fmtInt a) ++ NUL :: ('O' :: (fmtInt b ++ NUL :: rest))).drop
      ((['F', 'O', 'R', 'I', '='] ++ fmtInt a).length + 2) = fmtInt b ++ NUL :: rest := by
    rw [← List.drop_drop, List.drop_left]; rfl
  have hev1 := fun P => eval_fmtInt _ P 5 a _ hd5 (by unfold R; omega) ha1 ha2
  have hev2 := fun P => eval_fmtInt _ P _ b _ hdq (by simp [R]; omega) hb1 hb2
  generalize hB1 : (['F', 'O', 'R', 'I', '='] ++ fmtInt a) ++ NUL :: ('O' :: (fmtInt b ++ NUL :: rest))
    = B1 at hset hd5 hdq hev1 hev2
  have hexec : ∀ (B : Text) (m : Nat → Option Text) (d : Nat),
      B = (['F', 'O', 'R', 'I', '='] ++ fmtInt a) ++ 'T' :: ('O' :: (fmtInt b ++ NUL :: rest)) →
      cstr B 0 = (['F', 'O', 'R', 'I', '='] ++ fmtInt a) ++ ('T' :: ['O'] ++ fmtInt b) →
      exec { st with m := m, B := B } (Int.ofNat k) E d
        = .ok ({ st with
                m := m, B := B1,
                P := Function.update st.P 73 a,
                M := Function.update st.M 73 b,
                L := Function.update st.L 73 (Int.ofNat k) }, Int.ofNat k, E) := by
    intro B m d hB hc
    have r0 : rd B 0 = 'F' := by rw [hB]; rfl
    have r1 : rd B 1 = 'O' := by rw [hB]; rfl
    have hsetB : B.set (['F', 'O', 'R', 'I', '='] ++ fmtInt a).length NUL = B1 := by
      rw [hB, set_length_append, hB1]
    have r3 : rd B1 3 = 'I' := by rw [← hB1]; rfl
    unfold exec
    simp only [r0, r1, hc, hQ, hsetB, hev1, hev2, Res.bind, r3, idx]
    rfl
  rw [hexec _ _ _ hput hcstr]

/-! ### The run of a three-line program -/

theorem prepared_m (st : State) (k : Nat) (s : Text) (hs : sentinels s = s)
    (hm : st.m k = some s) : (prepared st k s).m = st.m := by
  rw [prepared_eq st k s hs hm]

theorem step10 (st : State) (E : List Int) (s1 s2 s3 : Text) (h : Holds3 st.m s1 s2 s3)
    (l : Int) (h1 : 1 ≤ l) (h2 : l ≤ 10) :
    step st l E = (stmt st 10 s1 E).bind fun c => .ok (c.1, wrap (c.2.1 + 1), c.2.2) :=
  step_at st l E 10 s1 (by omega) (by omega) (by unfold R; omega) h.1
    (fun i hi1 hi2 => h.2.2.2.2 i (by omega) (by omega) (by omega) (by unfold R; omega))

theorem step20 (st : State) (E : List Int) (s1 s2 s3 : Text) (h : Holds3 st.m s1 s2 s3)
    (l : Int) (h1 : 11 ≤ l) (h2 : l ≤ 20) :
    step st l E = (stmt st 20 s2 E).bind fun c => .ok (c.1, wrap (c.2.1 + 1), c.2.2) :=
  step_at st l E 20 s2 (by omega) (by omega) (by unfold R; omega) h.2.1
    (fun i hi1 hi2 => h.2.2.2.2 i (by omega) (by omega) (by omega) (by unfold R; omega))

theorem step30 (st : State) (E : List Int) (s1 s2 s3 : Text) (h : Holds3 st.m s1 s2 s3)
    (l : Int) (h1 : 21 ≤ l) (h2 : l ≤ 30) :
    step st l E = (stmt st 30 s3 E).bind fun c => .ok (c.1, wrap (c.2.1 + 1), c.2.2) :=
  step_at st l E 30 s3 (by omega) (by omega) (by unfold R; omega) h.2.2.1
    (fun i hi1 hi2 => h.2.2.2.2 i (by omega) (by omega) (by omega) (by unfold R; omega))

theorem step_end (st : State) (E : List Int) (s1 s2 s3 : Text) (h : Holds3 st.m s1 s2 s3)
    (l : Int) (h1 : 31 ≤ l) (h2 : l ≤ 10989) :
    step st l E = .ok (prepared st (11 * R) ['E'], 0, E) := by
  rw [step_at st l E (11 * R) ['E'] (by omega) (by unfold R; omega) (by unfold R; omega)
    h.2.2.2.1
    (fun i hi1 hi2 => h.2.2.2.2 i (by omega) (by omega) (by omega) (by omega)),
    stmt_sentinel]
  rfl

/-- From line 31 on nothing is stored but the end marker: the run ends, and
only the buffer has changed. -/
theorem loop_end (n : Nat) (st : State) (E : List Int) (s1 s2 s3 : Text)
    (h : Holds3 st.m s1 s2 s3) (l : Int) (h1 : 31 ≤ l) (h2 : l ≤ 10989) :
    ∃ st1, loop (n + 2) st l E = .ok st1 ∧ st1.P = st.P ∧ st1.out = st.out ∧
      st1.inp = st.inp := by
  rw [loop_succ _ _ _ _ (by omega), step_end st E s1 s2 s3 h l h1 h2]
  exact ⟨_, rfl, rfl, rfl, rfl⟩

/-- The round of the run loop that executes `20 PRINT I`. -/
theorem step_print_I (st : State) (E : List Int) (s1 s3 : Text)
    (h : Holds3 st.m s1 "PRINT I".data s3) (l : Int) (h1 : 11 ≤ l) (h2 : l ≤ 20) :
    ∃ st1, step st l E = .ok (st1, 21, E) ∧ st1.m = st.m ∧ st1.P = st.P ∧ st1.M = st.M ∧
      st1.L = st.L ∧ st1.out = st.out ++ [fmtInt (st.P 73)] ∧ st1.inp = st.inp := by
  rw [step20 st E _ _ _ h l h1 h2, stmt_print_I]
  exact ⟨_, rfl, prepared_m st 20 _ rfl h.2.1, rfl, rfl, rfl, rfl, rfl⟩

/-- The round of the run loop that executes `30 NEXT I`. -/
theorem step_next_I (st : State) (E : List Int) (s1 s2 : Text)
    (h : Holds3 st.m s1 s2 "NEXT I".data) (l : Int) (h1 : 21 ≤ l) (h2 : l ≤ 30) :
    ∃ st1, step st l E
        = .ok (st1, wrap ((if wrap (st.P 73 + 1) ≤ st.M 73 then st.L 73 else 30) + 1), E) ∧
      st1.m = st.m ∧ st1.P = Function.update st.P 73 (wrap (st.P 73 + 1)) ∧ st1.M = st.M ∧
      st1.L = st.L ∧ st1.out = st.out ∧ st1.inp = st.inp := by
  rw [step30 st E _ _ _ h l h1 h2, stmt_next_I]
  exact ⟨_, rfl, prepared_m st 30 _ rfl h.2.2.1, rfl, rfl, rfl, rfl, rfl⟩

theorem range_shift (f : Int → Text) (i : Int) (d : Nat) :
    f i :: (List.range (d + 1)).map (fun j => f (i + 1 + (j : Nat)))
      = (List.range (d + 1 + 1)).map (fun j => f (i + (j : Nat))) := by
  rw [List.range_succ_eq_map (d + 1)]
  simp only [List.map_cons, List.map_map, Nat.cast_zero, add_zero]
  congr 1
  apply List.map_congr_left
  intro j _
  simp only [Function.comp, Nat.succ_eq_add_one, Nat.cast_add, Nat.cast_one]
  congr 1
  ring

/-- The body `20 PRINT I` / `30 NEXT I` of a loop whose line is 10 and whose
limit is `b`, entered with `I = i ≤ b`: it prints `i, ..., b` and the run ends
with `I = b + 1`. -/
theorem loop_body (sF : Text) (b : Int) (hb : b < 2147483647) :
    ∀ (d : Nat) (st : State) (i : Int) (n : Nat) (E : List Int),
      Holds3 st.m sF "PRINT I".data "NEXT I".data →
      st.P 73 = i → st.M 73 = b → st.L 73 = 10 → -2147483648 ≤ i → i + d = b →
      ∃ st1, loop (n + 2 * d + 4) st 11 E = .ok st1 ∧
        st1.out = st.out ++ (List.range (d + 1)).map (fun j => fmtInt (i + (j : Nat))) ∧
        st1.P 73 = b + 1 ∧ st1.inp = st.inp := by
  intro d
  induction d with
  | zero =>
    intro st i n E hm hP hM hL hi hd
    have hib : i = b := by simpa using hd
    obtain ⟨st1, e1, m1, P1, M1, L1, o1, i1⟩ := step_print_I st E _ _ hm 11 (by decide) (by decide)
    obtain ⟨st2, e2, m2, P2, M2, L2, o2, i2⟩ :=
      step_next_I st1 E _ _ (by rw [m1]; exact hm) 21 (by decide) (by decide)
    have hw : wrap (st.P 73 + 1) = b + 1 := by rw [hP, hib]; unfold wrap; omega
    rw [P1, M1, hw, hM, if_neg (by omega)] at e2
    rw [P1, hw] at P2
    obtain ⟨st3, e3, P3, o3, i3⟩ :=
      loop_end n st2 E _ _ _ (by rw [m2, m1]; exact hm) 31 (by decide) (by decide)
    refine ⟨st3, ?_, ?_, ?_, ?_⟩
    · rw [show n + 2 * 0 + 4 = (n + 3) + 1 by omega, loop_succ _ _ _ _ (by decide), e1]
      simp only [Res.bind]
      rw [loop_succ _ _ _ _ (by decide), e2]
      simp only [Res.bind]
      exact e3
    · rw [o3, o2, o1, hP]; simp [List.range_succ]
    · rw [P3, P2]; simp
    · rw [i3, i2, i1]
  | succ d ih =>
    intro st i n E hm hP hM hL hi hd
    have hib : i + 1 + (d : Nat) = b := by push_cast at hd; omega
    obtain ⟨st1, e1, m1, P1, M1, L1, o1, i1⟩ := step_print_I st E _ _ hm 11 (by decide) (by decide)
    obtain ⟨st2, e2, m2, P2, M2, L2, o2, i2⟩ :=
      step_next_I st1 E _ _ (by rw [m1]; exact hm) 21 (by decide) (by decide)
    have hw : wrap (st.P 73 + 1) = i + 1 := by rw [hP]; unfold wrap; omega
    rw [P1, M1, L1, hw, hM, hL, if_pos (by omega)] at e2
    rw [P1, hw] at P2
    obtain ⟨st3, e3, o3, P3, i3⟩ := ih st2 (i + 1) n E (by rw [m2, m1]; exact hm)
      (by rw [P2]; simp) (by rw [M2, M1, hM]) (by rw [L2, L1, hL]) (by omega) hib
    refine ⟨st3, ?_, ?_, P3, ?_⟩
    · rw [show n + 2 * (d + 1) + 4 = (n + 2 * d + 4 + 1) + 1 by omega,
        loop_succ _ _ _ _ (by decide), e1]
      simp only [Res.bind]
      rw [loop_succ _ _ _ _ (by decide), e2]
      simp only [Res.bind]
      exact e3
    · rw [o3, o2, o1, hP, List.append_assoc, List.singleton_append, range_shift fmtInt i d]
    · rw [i3, i2, i1]

/-! ### Definitions of lines -/

theorem scanDigits_stop (rest : Text) (a k : Nat)
    (h : ∀ c r, rest = c :: r → digitVal c = none) : scanDigits 10 rest a k = (a, k) := by
  cases rest with
  | nil => rfl
  | cons c r => simp [scanDigits, h c r rfl]

/-- The function `atoi` reads a decimal numeral back, when no digit follows. -/
theorem atoi_natDec (k : Nat) (rest : Text) (h : ∀ c r, rest = c :: r → digitVal c = none)
    (hk : k ≤ 2147483647) : atoi (natDec k ++ rest) = Int.ofNat k := by
  obtain ⟨c, r, hcr⟩ : ∃ c r, natDec k = c :: r := by
    cases hh : natDec k with
    | nil => exact absurd hh (natDec_ne_nil k)
    | cons c r => exact ⟨c, r, rfl⟩
  have hc := natDec_digits k c (by rw [hcr]; simp)
  have hsp : ¬ (c = ' ' ∨ (9 ≤ c.toNat ∧ c.toNat ≤ 13)) := by
    rintro (h1 | h1)
    · subst h1
      have e : (' ' : Char).toNat = 32 := rfl
      omega
    · omega
  have hminus : c ≠ '-' := by
    rintro rfl
    have e : ('-' : Char).toNat = 45 := rfl
    omega
  have hplus : c ≠ '+' := by
    rintro rfl
    have e : ('+' : Char).toNat = 43 := rfl
    omega
  have hscan : scanDigits 10 (c :: (r ++ rest)) 0 0 = (k, (natDec k).length) := by
    have := scan_natDec k rest
    rw [hcr] at this
    rw [List.cons_append] at this
    rw [this, scanDigits_stop rest _ _ h, hcr]
  have hdw : List.dropWhile (fun c => decide (c = ' ' ∨ (9 ≤ c.toNat ∧ c.toNat ≤ 13)))
      (c :: (r ++ rest)) = c :: (r ++ rest) := by
    rw [List.dropWhile_cons]
    simp only [hsp, decide_False, Bool.false_eq_true, if_false]
  unfold atoi
  rw [hcr, List.cons_append]
  simp only [hdw]
  split
  · rename_i u hu
    exact absurd (List.cons.inj hu).1 hminus
  · rename_i u hu
    exact absurd (List.cons.inj hu).1 hplus
  · rw [hscan]
    have : min k LONG_MAX = k := Nat.min_eq_left (by unfold LONG_MAX; omega)
    simp only [this, Int.ofNat_eq_coe]
    unfold wrap; omega

theorem natDec_ne_NUL (k : Nat) : ∀ c ∈ natDec k, c ≠ NUL := by
  intro c hc e
  subst e
  have := natDec_digits k NUL hc
  have e : NUL.toNat = 0 := rfl
  omega

theorem natDec_no_space (k : Nat) : ' ' ∉ natDec k := by
  intro hc
  have := natDec_digits k ' ' hc
  have e : (' ' : Char).toNat = 32 := rfl
  omega

theorem digitVal_space : digitVal ' ' = none := rfl

/-- The function `G()` on a buffer that holds `<k> <text>`: slot `k` receives
the text, every other slot stays. -/
theorem G_define (st : State) (k : Nat) (t tail : Text) (hk : k < 12 * R) (hk2 : k ≠ 11 * R)
    (ht : ∀ c ∈ t, c ≠ NUL) (hB : st.B = (natDec k ++ ' ' :: t) ++ NUL :: tail) :
    G st = .ok { st with m := Function.update st.m k (some t) } := by
  have hnul : ∀ c ∈ natDec k ++ ' ' :: t, c ≠ NUL := by
    intro c hc
    rcases List.mem_append.1 hc with h | h
    · exact natDec_ne_NUL k c h
    · rcases List.mem_cons.1 h with h | h
      · subst h; decide
      · exact ht c h
  have hc0 : cstr st.B 0 = natDec k ++ ' ' :: t := by
    rw [hB, cstr_append_nul _ _ hnul 0 (Nat.zero_le _)]; rfl
  have hc1 : cstr st.B ((natDec k).length + 1) = t := by
    rw [hB, cstr_append_nul _ _ hnul _ (by simp)]
    rw [← List.drop_drop, List.drop_left]; rfl
  have hat : atoi (natDec k ++ ' ' :: t) = Int.ofNat k :=
    atoi_natDec k _ (fun c r h => by rw [(List.cons.inj h).1.symm]; rfl) (by unfold R at hk; omega)
  have hQ : Q (natDec k ++ ' ' :: t) [' '] = some (natDec k).length :=
    Q_first (natDec k) ' ' [] t (natDec_no_space k)
  unfold G
  simp only [hc0, hat, hQ, hc1, Int.ofNat_eq_coe, Int.toNat_ofNat]
  rw [if_neg (by unfold R at hk ⊢; omega), if_neg (fun h => hk2 h.1)]

/-- The function `G()` on a buffer that holds the bare number `<k>`: slot `k`
is emptied, every other slot stays. -/
theorem G_delete (st : State) (k : Nat) (tail : Text) (hk : k < 12 * R) (hk2 : k ≠ 11 * R)
    (hB : st.B = natDec k ++ NUL :: tail) :
    G st = .ok { st with m := Function.update st.m k none } := by
  have hc0 : cstr st.B 0 = natDec k := by
    rw [hB, cstr_append_nul _ _ (natDec_ne_NUL k) 0 (Nat.zero_le _)]; rfl
  have hat : atoi (natDec k) = Int.ofNat k := by
    have := atoi_natDec k [] (fun c r h => by cases h) (by unfold R at hk; omega)
    rwa [List.append_nil] at this
  have hQ : Q (natDec k) [' '] = none := Q_none_of_not_mem _ _ _ (natDec_no_space k)
  unfold G
  simp only [hc0, hat, hQ, Int.ofNat_eq_coe, Int.toNat_ofNat]
  rw [if_neg (by unfold R at hk ⊢; omega), if_neg (fun h => hk2 h.1)]

theorem rd_natDec (k : Nat) (rest : Text) :
    48 ≤ (rd (natDec k ++ rest) 0).toNat ∧ (rd (natDec k ++ rest) 0).toNat ≤ 57 := by
  obtain ⟨c, r, hcr⟩ : ∃ c r, natDec k = c :: r := by
    cases hh : natDec k with
    | nil => exact absurd hh (natDec_ne_nil k)
    | cons c r => exact ⟨c, r, rfl⟩
  have hc := natDec_digits k c (by rw [hcr]; simp)
  rw [hcr]
  exact hc

/-- A buffer that starts with a digit holds none of the commands
`R L N B S O`: the line goes to `G()`. -/
theorem command_digit (n : Nat) (st : State)
    (h : 48 ≤ (rd st.B 0).toNat ∧ (rd st.B 0).toNat ≤ 57) :
    command n st = (G st).bind fun s1 => .ok (s1, false) := by
  have ne : ∀ x : Char, ¬ (48 ≤ x.toNat ∧ x.toNat ≤ 57) → rd st.B 0 ≠ x := by
    intro x hx e; rw [e] at h; exact hx h
  unfold command
  rw [if_neg (ne 'R' (by decide)), if_neg (ne 'L' (by decide)), if_neg (ne 'N' (by decide)),
    if_neg (ne 'B' (by decide)), if_neg (ne 'S' (by decide)), if_neg (ne 'O' (by decide))]

/-- Typing `<k> <text>` at the prompt stores the text in slot `k`. -/
theorem prompt_define (n : Nat) (st : State) (k : Nat) (t : Text) (rest : List Text)
    (hk : k < 12 * R) (hk2 : k ≠ 11 * R) (ht : ∀ c ∈ t, c ≠ NUL)
    (hlen : (natDec k ++ ' ' :: t).length < R)
    (hinp : st.inp = (natDec k ++ ' ' :: t) :: rest) :
    prompt n st = .ok ({ st with
        m := Function.update st.m k (some t),
        B := put st.B (natDec k ++ ' ' :: t),
        out := st.out ++ ["Ok".data],
        inp := rest }, false) := by
  unfold prompt gets
  simp only [hinp, if_neg (not_le.2 hlen), Res.bind]
  rw [if_neg (by decide), command_digit _ _ (by
    show 48 ≤ (rd (put st.B (natDec k ++ ' ' :: t)) 0).toNat ∧ _
    unfold put; rw [List.append_assoc]; exact rd_natDec k _)]
  rw [G_define _ k t (st.B.drop ((natDec k ++ ' ' :: t).length + 1)) hk hk2 ht rfl]
  rfl

/-- Typing the bare number `<k>` at the prompt empties slot `k`. -/
theorem prompt_delete (n : Nat) (st : State) (k : Nat) (rest : List Text)
    (hk : k < 12 * R) (hk2 : k ≠ 11 * R) (hinp : st.inp = natDec k :: rest) :
    prompt n st = .ok ({ st with
        m := Function.update st.m k none,
        B := put st.B (natDec k),
        out := st.out ++ ["Ok".data],
        inp := rest }, false) := by
  have hlen : (natDec k).length < R := by
    have := natDec_length_le 4 k (by unfold R at hk; norm_num; omega)
    unfold R; omega
  unfold prompt gets
  simp only [hinp, if_neg (not_le.2 hlen), Res.bind]
  rw [if_neg (by decide), command_digit _ _ (by
    show 48 ≤ (rd (put st.B (natDec k)) 0).toNat ∧ _
    unfold put; exact rd_natDec k _)]
  rw [G_delete _ k (st.B.drop ((natDec k).length + 1)) hk hk2 rfl]
  rfl

/-- Typing `RUN` at the prompt runs the stored program. -/
theorem prompt_run (n : Nat) (st : State) (rest : List Text) (hinp : st.inp = "RUN".data :: rest) :
    prompt n st = (run n { st with
        B := put st.B "RUN".data, out := st.out ++ ["Ok".data], inp := rest }).bind
      fun s1 => .ok (s1, false) := by
  unfold prompt gets
  simp only [hinp, Res.bind]
  rfl

/-- At the end of the input the prompt is printed and `basic()` returns. -/
theorem prompt_eof (n : Nat) (st : State) (hinp : st.inp = []) :
    prompt n st = .ok ({ st with out := st.out ++ ["Ok".data] }, true) := by
  unfold prompt gets
  simp only [hinp, Res.bind]
  rfl

/-- The statement `<v>=<a>` for a capital letter `v` and a numeral `a` stores
`a` in the variable. -/
theorem stmt_assign (st : State) (k : Nat) (E : List Int) (v : Char) (a : Int)
    (hv : 65 ≤ v.toNat ∧ v.toNat ≤ 90) (ha1 : -2147483648 ≤ a) (ha2 : a ≤ 2147483647) :
    sentinels (v :: '=' :: fmtInt a) = v :: '=' :: fmtInt a ∧
    ∃ B1, stmt st k (v :: '=' :: fmtInt a) E
      = .ok ({ prepared st k (v :: '=' :: fmtInt a) with
                B := B1, P := Function.update st.P v.toNat a }, Int.ofNat k, E) := by
  have hla := fmtInt_length_le a ha1 ha2
  have nv : ∀ x : Char, ¬ (65 ≤ x.toNat ∧ x.toNat ≤ 90) → x ≠ v := by
    intro x hx e; rw [e] at hx; exact hx hv
  have nmem : ∀ x : Char, ¬ (65 ≤ x.toNat ∧ x.toNat ≤ 90) → x ≠ '=' → x ≠ '-' →
      ¬ (48 ≤ x.toNat ∧ x.toNat ≤ 57) → x ∉ v :: '=' :: fmtInt a := by
    intro x h1 h2 h3 h4 hx
    rcases List.mem_cons.1 hx with h | h
    · exact nv x h1 h
    · rcases List.mem_cons.1 h with h | h
      · exact h2 h
      · exact fmtInt_not_mem a x h3 h4 h
  have hsen : sentinels (v :: '=' :: fmtInt a) = v :: '=' :: fmtInt a :=
    sentinels_id _ (nmem _ (by decide) (by decide) (by decide) (by decide))
      (nmem _ (by decide) (by decide) (by decide) (by decide))
  have hstrip : strip (v :: '=' :: fmtInt a) 0 = v :: '=' :: fmtInt a := by
    rw [strip_filter _ (nmem _ (by decide) (by decide) (by decide) (by decide)),
      List.filter_eq_self]
    intro c hc
    have h1 : c ≠ ' ' := by
      rintro rfl
      exact nmem _ (by decide) (by decide) (by decide) (by decide) hc
    have h2 : c ≠ '\t' := by
      rintro rfl
      exact nmem _ (by decide) (by decide) (by decide) (by decide) hc
    simp [h1, h2]
  refine ⟨hsen, fmtInt a ++ NUL :: st.B.drop ((v :: '=' :: fmtInt a).length + 1) |>.cons '=' |>.cons v, ?_⟩
  unfold stmt prepared
  rw [hsen, hstrip, if_neg (by simp [R]; omega)]
  generalize hrest : st.B.drop ((v :: '=' :: fmtInt a).length + 1) = rest
  have hput : put st.B (v :: '=' :: fmtInt a) = v :: '=' :: (fmtInt a ++ NUL :: rest) := by
    unfold put; rw [hrest]; rfl
  rw [hput]
  have hev := eval_fmtInt (v :: '=' :: (fmtInt a ++ NUL :: rest)) st.P 2 a rest rfl
    (by unfold R; omega) ha1 ha2
  have r1 : rd (v :: '=' :: (fmtInt a ++ NUL :: rest)) 1 = '=' := rfl
  have r0 : rd (v :: '=' :: (fmtInt a ++ NUL :: rest)) 0 = v := rfl
  unfold exec
  simp only [r1, r0, if_true, hev, Res.bind, idx, if_pos (show v.toNat < 128 by omega)]

theorem stmt_print_sum (st : State) (k : Nat) (E : List Int) :
    stmt st k "PRINT A+B".data E
      = .ok ({ prepared st k "PRINT A+B".data with
                out := st.out ++ [fmtInt (wrap (st.P 65 + st.P 66))] }, Int.ofNat k, E) := rfl

/-- The run of `10 A=<a>` / `20 B=<b>` / `30 PRINT A+B`. -/
theorem run_sum (a b : Int) (ha1 : -2147483648 ≤ a) (ha2 : a ≤ 2147483647)
    (hb1 : -2147483648 ≤ b) (hb2 : b ≤ 2147483647) (n : Nat) (st : State)
    (hm : Holds3 st.m ('A' :: '=' :: fmtInt a) ('B' :: '=' :: fmtInt b) "PRINT A+B".data) :
    ∃ s4, run (n + 5) st = .ok s4 ∧ s4.out = st.out ++ [fmtInt (wrap (a + b))] ∧
      s4.inp = st.inp := by
  unfold run
  generalize hst0 : ({ st with P := fun _ => 0 } : State) = st0
  have hm0 : Holds3 st0.m ('A' :: '=' :: fmtInt a) ('B' :: '=' :: fmtInt b) "PRINT A+B".data := by
    rw [← hst0]; exact hm
  have ho0 : st0.out = st.out := by rw [← hst0]
  have hi0 : st0.inp = st.inp := by rw [← hst0]
  obtain ⟨hs1, B1, e1⟩ := stmt_assign st0 10 [] 'A' a (by decide) ha1 ha2
  have hstep1 := step10 st0 [] _ _ _ hm0 1 (by decide) (by decide)
  rw [e1] at hstep1
  generalize hst1 : ({ prepared st0 10 ('A' :: '=' :: fmtInt a) with
      B := B1, P := Function.update st0.P ('A' : Char).toNat a } : State) = st1 at hstep1
  have hm1 : st1.m = st0.m := by rw [← hst1]; exact prepared_m st0 10 _ hs1 hm0.1
  have hP1 : st1.P 65 = a := by rw [← hst1]; show Function.update st0.P 65 a 65 = a; simp
  have ho1 : st1.out = st0.out := by rw [← hst1]; rfl
  have hi1 : st1.inp = st0.inp := by rw [← hst1]; rfl
  obtain ⟨hs2, B2, e2⟩ := stmt_assign st1 20 [] 'B' b (by decide) hb1 hb2
  have hstep2 := step20 st1 [] _ _ _ (by rw [hm1]; exact hm0) 11 (by decide) (by decide)
  rw [e2] at hstep2
  generalize hst2 : ({ prepared st1 20 ('B' :: '=' :: fmtInt b) with
      B := B2, P := Function.update st1.P ('B' : Char).toNat b } : State) = st2 at hstep2
  have hm2 : st2.m = st1.m := by
    rw [← hst2]; exact prepared_m st1 20 _ hs2 (by rw [hm1]; exact hm0.2.1)
  have hP2a : st2.P 65 = a := by
    rw [← hst2]; show Function.update st1.P 66 b 65 = a; simp [hP1]
  have hP2b : st2.P 66 = b := by
    rw [← hst2]; show Function.update st1.P 66 b 66 = b; simp
  have ho2 : st2.out = st1.out := by rw [← hst2]; rfl
  have hi2 : st2.inp = st1.inp := by rw [← hst2]; rfl
  have hstep3 := step30 st2 [] _ _ _ (by rw [hm2, hm1]; exact hm0) 21 (by decide) (by decide)
  rw [stmt_print_sum] at hstep3
  generalize hst3 : ({ prepared st2 30 "PRINT A+B".data with
      out := st2.out ++ [fmtInt (wrap (st2.P 65 + st2.P 66))] } : State) = st3 at hstep3
  have hm3 : st3.m = st2.m := by
    rw [← hst3]; exact prepared_m st2 30 _ rfl (by rw [hm2, hm1]; exact hm0.2.2.1)
  have ho3 : st3.out = st.out ++ [fmtInt (wrap (a + b))] := by
    rw [← hst3]; show st2.out ++ _ = _; rw [ho2, ho1, ho0, hP2a, hP2b]
  have hi3 : st3.inp = st2.inp := by rw [← hst3]; rfl
  obtain ⟨s4, e4, _, o4, i4⟩ :=
    loop_end n st3 [] _ _ _ (by rw [hm3, hm2, hm1]; exact hm0) 31 (by decide) (by decide)
  refine ⟨s4, ?_, by rw [o4, ho3], by rw [i4, hi3, hi2, hi1, hi0]⟩
  rw [show n + 5 = (n + 2 + 2) + 1 by omega, loop_succ _ _ _ _ (by decide), hstep1]
  simp only [Res.bind]
  rw [show wrap (Int.ofNat 10 + 1) = 11 from rfl, loop_succ _ _ _ _ (by decide), hstep2]
  simp only [Res.bind]
  rw [show wrap (Int.ofNat 20 + 1) = 21 from rfl, loop_succ _ _ _ _ (by decide), hstep3]
  simp only [Res.bind]
  exact e4

theorem session_succ (n : Nat) (st : State) :
    session (n + 1) st
      = (prompt n st).bind fun c => if c.2 = true then .ok c.1 else session n c.1 := rfl

/-- A session in which three lines are typed for the slots 10, 20, 30 of a
fresh interpreter, followed by `RUN` and the end of the input: the run starts
from a store that holds the three lines, and the session ends with the prompt
that follows the run. -/
theorem typed3 (n : Nat) (s1 s2 s3 : Text)
    (h1 : ∀ c ∈ s1, c ≠ NUL) (h2 : ∀ c ∈ s2, c ≠ NUL) (h3 : ∀ c ∈ s3, c ≠ NUL)
    (l1 : s1.length < 900) (l2 : s2.length < 900) (l3 : s3.length < 900) :
    ∃ st3, Holds3 st3.m s1 s2 s3 ∧ st3.out = ["Ok".data, "Ok".data, "Ok".data, "Ok".data] ∧
      st3.inp = [] ∧
      ∀ s4, run (n + 1) st3 = .ok s4 → s4.inp = [] →
        typed (n + 5) [natDec 10 ++ ' ' :: s1, natDec 20 ++ ' ' :: s2, natDec 30 ++ ' ' :: s3,
            "RUN".data]
          = .ok { s4 with out := s4.out ++ ["Ok".data] } := by
  have d10 : (natDec 10).length = 2 := rfl
  have d20 : (natDec 20).length = 2 := rfl
  have d30 : (natDec 30).length = 2 := rfl
  have e1 := prompt_define (n + 4)
    (init [natDec 10 ++ ' ' :: s1, natDec 20 ++ ' ' :: s2, natDec 30 ++ ' ' :: s3, "RUN".data]
      (fun _ => none)) 10 s1 _ (by decide) (by decide) h1
    (by simp only [List.length_append, List.length_cons, d10]; unfold R; omega) rfl
  generalize hst1 : ({ init [natDec 10 ++ ' ' :: s1, natDec 20 ++ ' ' :: s2,
        natDec 30 ++ ' ' :: s3, "RUN".data] (fun _ => none) with
      m := Function.update (init [natDec 10 ++ ' ' :: s1, natDec 20 ++ ' ' :: s2,
        natDec 30 ++ ' ' :: s3, "RUN".data] (fun _ => none)).m 10 (some s1),
      B := put (init [natDec 10 ++ ' ' :: s1, natDec 20 ++ ' ' :: s2,
        natDec 30 ++ ' ' :: s3, "RUN".data] (fun _ => none)).B (natDec 10 ++ ' ' :: s1),
      out := (init [natDec 10 ++ ' ' :: s1, natDec 20 ++ ' ' :: s2,
        natDec 30 ++ ' ' :: s3, "RUN".data] (fun _ => none)).out ++ ["Ok".data],
      inp := [natDec 20 ++ ' ' :: s2, natDec 30 ++ ' ' :: s3, "RUN".data] } : State) = st1 at e1
  have m1 : st1.m = Function.update (fun k => if k = 11 * R then some ['E'] else none) 10 (some s1) := by
    rw [← hst1]; rfl
  have o1 : st1.out = ["Ok".data] := by rw [← hst1]; rfl
  have i1 : st1.inp = [natDec 20 ++ ' ' :: s2, natDec 30 ++ ' ' :: s3, "RUN".data] := by
    rw [← hst1]
  have e2 := prompt_define (n + 3) st1 20 s2 _ (by decide) (by decide) h2
    (by simp only [List.length_append, List.length_cons, d20]; unfold R; omega) i1
  generalize hst2 : ({ st1 with
      m := Function.update st1.m 20 (some s2),
      B := put st1.B (natDec 20 ++ ' ' :: s2),
      out := st1.out ++ ["Ok".data],
      inp := [natDec 30 ++ ' ' :: s3, "RUN".data] } : State) = st2 at e2
  have m2 : st2.m = Function.update st1.m 20 (some s2) := by rw [← hst2]
  have o2 : st2.out = ["Ok".data, "Ok".data] := by rw [← hst2]; show st1.out ++ _ = _; rw [o1]; rfl
  have i2 : st2.inp = [natDec 30 ++ ' ' :: s3, "RUN".data] := by rw [← hst2]
  have e3 := prompt_define (n + 2) st2 30 s3 _ (by decide) (by decide) h3
    (by simp only [List.length_append, List.length_cons, d30]; unfold R; omega) i2
  generalize hst3 : ({ st2 with
      m := Function.update st2.m 30 (some s3),
      B := put st2.B (natDec 30 ++ ' ' :: s3),
      out := st2.out ++ ["Ok".data],
      inp := ["RUN".data] } : State) = st3 at e3
  have m3 : st3.m = Function.update st2.m 30 (some s3) := by rw [← hst3]
  have o3 : st3.out = ["Ok".data, "Ok".data, "Ok".data] := by
    rw [← hst3]; show st2.out ++ _ = _; rw [o2]; rfl
  have i3 : st3.inp = ["RUN".data] := by rw [← hst3]
  have e4 := prompt_run (n + 1) st3 [] i3
  refine ⟨{ st3 with B := put st3.B "RUN".data, out := st3.out ++ ["Ok".data], inp := [] },
    ?_, ?_, rfl, ?_⟩
  · show Holds3 st3.m _ _ _
    rw [m3, m2, m1]
    refine ⟨by simp [Function.update], by simp [Function.update], by simp [Function.update],
      by simp [Function.update, R], ?_⟩
    intro i a1 a2 a3 a4
    simp [Function.update, a1, a2, a3, a4]
  · show st3.out ++ _ = _
    rw [o3]; rfl
  · intro s4 hrun hinp
    unfold typed basic
    rw [session_succ, e1]
    simp only [Res.bind, Bool.false_eq_true, if_false]
    rw [session_succ, e2]
    simp only [Res.bind, Bool.false_eq_true, if_false]
    rw [session_succ, e3]
    simp only [Res.bind, Bool.false_eq_true, if_false]
    rw [session_succ, e4, hrun]
    simp only [Res.bind, Bool.false_eq_true, if_false]
    rw [session_succ, prompt_eof n s4 hinp]
    rfl

/-- The run of `10 FOR I=<a> TO <b>` / `20 PRINT I` / `30 NEXT I` for `a ≤ b`. -/
theorem run_for (a b : Int) (ha1 : -2147483648 ≤ a) (hb2 : b < 2147483647) (d : Nat)
    (hd : a + d = b) (n : Nat) (st : State)
    (hm : Holds3 st.m ("FOR I=".data ++ fmtInt a ++ " TO ".data ++ fmtInt b)
      "PRINT I".data "NEXT I".data) :
    ∃ s4, run (n + 2 * d + 5) st = .ok s4 ∧
      s4.out = st.out ++ (List.range (d + 1)).map (fun j => fmtInt (a + (j : Nat))) ∧
      s4.P 73 = b + 1 ∧ s4.inp = st.inp := by
  unfold run
  generalize hst0 : ({ st with P := fun _ => 0 } : State) = st0
  have hm0 : Holds3 st0.m ("FOR I=".data ++ fmtInt a ++ " TO ".data ++ fmtInt b)
      "PRINT I".data "NEXT I".data := by
    rw [← hst0]; exact hm
  have ho0 : st0.out = st.out := by rw [← hst0]
  have hi0 : st0.inp = st.inp := by rw [← hst0]
  obtain ⟨B1, e1⟩ := stmt_for_I st0 10 [] a b ha1 (by omega) (by omega) (by omega)
  have hstep1 := step10 st0 [] _ _ _ hm0 1 (by decide) (by decide)
  rw [e1] at hstep1
  generalize hst1 : ({ prepared st0 10 ("FOR I=".data ++ fmtInt a ++ " TO ".data ++ fmtInt b) with
      B := B1,
      P := Function.update st0.P 73 a,
      M := Function.update st0.M 73 b,
      L := Function.update st0.L 73 (Int.ofNat 10) } : State) = st1 at hstep1
  have hm1 : st1.m = st0.m := by
    rw [← hst1]; exact prepared_m st0 10 _ (sentinels_for_I a b) hm0.1
  have hP1 : st1.P 73 = a := by rw [← hst1]; show Function.update st0.P 73 a 73 = a; simp
  have hM1 : st1.M 73 = b := by rw [← hst1]; show Function.update st0.M 73 b 73 = b; simp
  have hL1 : st1.L 73 = 10 := by
    rw [← hst1]; show Function.update st0.L 73 (Int.ofNat 10) 73 = 10; simp
  have ho1 : st1.out = st0.out := by rw [← hst1]; rfl
  have hi1 : st1.inp = st0.inp := by rw [← hst1]; rfl
  obtain ⟨s4, e4, o4, P4, i4⟩ := loop_body _ b hb2 d st1 a n []
    (by rw [hm1]; exact hm0) hP1 hM1 hL1 ha1 hd
  refine ⟨s4, ?_, by rw [o4, ho1, ho0], P4, by rw [i4, hi1, hi0]⟩
  rw [show n + 2 * d + 5 = (n + 2 * d + 4) + 1 by omega, loop_succ _ _ _ _ (by decide), hstep1]
  simp only [Res.bind]
  exact e4

/-! ### Subroutines and jumps -/

/-- The statement `GOSUB <t>` of slot `k` pushes `k` and sets the counter to
`t - 1`, which the `l++` of the loop makes `t`. -/
theorem stmt_gosub (st : State) (k : Nat) (E : List Int) (t : Int)
    (ht1 : -2147483648 ≤ t) (ht2 : t ≤ 2147483647) (hE : E.length < R) :
    stmt st k ("GOSUB ".data ++ fmtInt t) E
      = .ok (prepared st k ("GOSUB ".data ++ fmtInt t), wrap (t - 1), Int.ofNat k :: E) := by
  have hlt := fmtInt_length_le t ht1 ht2
  have e0 : "GOSUB ".data ++ fmtInt t = ['G', 'O', 'S', 'U', 'B', ' '] ++ fmtInt t := rfl
  have nmem : ∀ x : Char, x ∉ ['G', 'O', 'S', 'U', 'B', ' '] → x ≠ '-' →
      ¬ (48 ≤ x.toNat ∧ x.toNat ≤ 57) → x ∉ "GOSUB ".data ++ fmtInt t := by
    intro x h1 h2 h3 hx
    rcases List.mem_append.1 hx with h | h
    · exact h1 h
    · exact fmtInt_not_mem t x h2 h3 h
  have hsen : sentinels ("GOSUB ".data ++ fmtInt t) = "GOSUB ".data ++ fmtInt t :=
    sentinels_id _ (nmem _ (by decide) (by decide) (by decide))
      (nmem _ (by decide) (by decide) (by decide))
  have hstrip : strip ("GOSUB ".data ++ fmtInt t) 0 = ['G', 'O', 'S', 'U', 'B'] ++ fmtInt t := by
    rw [strip_filter _ (nmem _ (by decide) (by decide) (by decide)), e0, List.filter_append,
      filter_fmtInt]
    rfl
  unfold stmt prepared
  rw [hsen, hstrip, if_neg (by simp [R]; omega)]
  generalize hrest : st.B.drop ((['G', 'O', 'S', 'U', 'B'] ++ fmtInt t).length + 1) = rest
  have hput : put st.B (['G', 'O', 'S', 'U', 'B'] ++ fmtInt t)
      = 'G' :: 'O' :: 'S' :: 'U' :: 'B' :: (fmtInt t ++ NUL :: rest) := by
    unfold put; rw [hrest]; rfl
  rw [hput]
  have hev := eval_fmtInt ('G' :: 'O' :: 'S' :: 'U' :: 'B' :: (fmtInt t ++ NUL :: rest)) st.P 5 t
    rest rfl (by unfold R; omega) ht1 ht2
  have r0 : rd ('G' :: 'O' :: 'S' :: 'U' :: 'B' :: (fmtInt t ++ NUL :: rest)) 0 = 'G' := rfl
  have r1 : rd ('G' :: 'O' :: 'S' :: 'U' :: 'B' :: (fmtInt t ++ NUL :: rest)) 1 = 'O' := rfl
  have r2 : rd ('G' :: 'O' :: 'S' :: 'U' :: 'B' :: (fmtInt t ++ NUL :: rest)) 2 = 'S' := rfl
  unfold exec
  simp only [r0, r1, r2, hev, Res.bind, if_neg (not_le.2 hE)]
  rfl

theorem stmt_return (st : State) (k : Nat) (r : Int) (E : List Int) :
    stmt st k "RETURN".data (r :: E) = .ok (prepared st k "RETURN".data, r, E) := rfl

/-- With no line stored from `l` up to the end marker of slot `11 * R`, the
run ends at the marker. -/
theorem loop_marker (n : Nat) (st : State) (E : List Int) (l : Int) (h0 : 0 ≤ l)
    (h1 : l ≤ 10989) (hE : st.m (11 * R) = some ['E'])
    (hnone : ∀ i, l.toNat ≤ i → i < 11 * R → st.m i = none) (hl : l ≠ 0) :
    loop (n + 2) st l E = .ok (prepared st (11 * R) ['E']) := by
  rw [loop_succ _ _ _ _ hl,
    step_at st l E (11 * R) ['E'] h0 (by unfold R; omega) (by unfold R; omega) hE hnone,
    stmt_sentinel]
  rfl

theorem skip_isSome (m : Nat → Option Text) (k : Nat) :
    ∀ (f l : Nat), skip m f l = .ok k → (m k).isSome = true := by
  intro f
  induction f with
  | zero => intro l h; simp [skip] at h
  | succ f ih =>
    intro l h
    unfold skip at h
    split at h
    · rename_i hs
      have : l = k := by simpa using h
      rw [← this]; exact hs
    · exact ih _ h

theorem fmtInt_ofNat (i : Nat) : fmtInt (Int.ofNat i) = natDec i := by
  unfold fmtInt
  rw [if_neg (by simp)]
  rfl

theorem mem_listing (m : Nat → Option Text) (ln : Text) :
    ln ∈ listing m ↔ ∃ i, i < 11 * R ∧ ∃ s, m i = some s ∧ ln = natDec i ++ ' ' :: s := by
  unfold listing
  rw [List.mem_filterMap]
  constructor
  · rintro ⟨i, hi, h⟩
    refine ⟨i, List.mem_range.1 hi, ?_⟩
    cases hm : m i with
    | none => rw [hm] at h; simp at h
    | some s =>
      rw [hm] at h
      refine ⟨s, rfl, ?_⟩
      rw [← fmtInt_ofNat]
      simpa using h.symm
  · rintro ⟨i, hi, s, hs, rfl⟩
    refine ⟨i, List.mem_range.2 hi, ?_⟩
    rw [hs, ← fmtInt_ofNat]
    rfl

/-- The number in front of a listed line determines the slot. -/
theorem natDec_space_inj (i k : Nat) (s t : Text)
    (h : natDec i ++ ' ' :: s = natDec k ++ ' ' :: t) : i = k := by
  have h1 := scan_natDec i (' ' :: s)
  have h2 := scan_natDec k (' ' :: t)
  rw [h, h2] at h1
  rw [scanDigits_stop _ _ _ (fun c r e => by rw [(List.cons.inj e).1.symm]; rfl),
    scanDigits_stop _ _ _ (fun c r e => by rw [(List.cons.inj e).1.symm]; rfl)] at h1
  exact (Prod.mk.inj h1).1.symm

/-! ### Saving and loading -/

theorem takeLine_line : ∀ (line rest : Text) (n : Nat), '\n' ∉ line → line.length < n →
    takeLine n (line ++ '\n' :: rest) = line ++ ['\n'] := by
  intro line
  induction line with
  | nil =>
    intro rest n _ hn
    obtain ⟨k, rfl⟩ : ∃ k, n = k + 1 := ⟨n - 1, by simp at hn; omega⟩
    simp [takeLine]
  | cons c line ih =>
    intro rest n hc hn
    obtain ⟨k, rfl⟩ : ∃ k, n = k + 1 := ⟨n - 1, by simp at hn; omega⟩
    have h1 : c ≠ '\n' := fun e => hc (by simp [e])
    have h2 : '\n' ∉ line := fun e => hc (by simp [e])
    have := ih rest k h2 (by simp at hn; omega)
    simp [takeLine, h1, this]

/-- One round of the load loop on a file that starts with the saved line of
the entry `e`: the store receives the entry, the rest of the file remains. -/
theorem load_line (n : Nat) (st : State) (e : Nat × Text) (rest : Text) (he : Fits e) :
    load (n + 1) st (natDec e.1 ++ ' ' :: e.2 ++ '\n' :: rest)
      = load n { st with
          m := Function.update st.m e.1 (some e.2),
          B := (put st.B (natDec e.1 ++ ' ' :: e.2 ++ ['\n'])).set
            (natDec e.1 ++ ' ' :: e.2).length NUL } rest := by
  obtain ⟨hi, hs, hlen⟩ := he
  unfold R at hi hlen
  have hnl : '\n' ∉ natDec e.1 ++ ' ' :: e.2 := by
    intro h
    rcases List.mem_append.1 h with h | h
    · have := natDec_digits e.1 _ h
      have e1 : ('\n' : Char).toNat = 10 := rfl
      omega
    · rcases List.mem_cons.1 h with h | h
      · exact absurd h (by decide)
      · exact (hs _ h).2 rfl
  have hnul : ∀ c ∈ natDec e.1 ++ ' ' :: e.2 ++ ['\n'], c ≠ NUL := by
    intro c hc
    rcases List.mem_append.1 hc with h | h
    · rcases List.mem_append.1 h with h | h
      · exact natDec_ne_NUL _ c h
      · rcases List.mem_cons.1 h with h | h
        · rw [h]; decide
        · exact (hs c h).1
    · rw [List.mem_singleton.1 h]; decide
  have hnul2 : ∀ c ∈ e.2, c ≠ NUL := fun c hc => (hs c hc).1
  have htl : takeLine (R - 1) (natDec e.1 ++ ' ' :: e.2 ++ '\n' :: rest)
      = natDec e.1 ++ ' ' :: e.2 ++ ['\n'] := by
    have := takeLine_line (natDec e.1 ++ ' ' :: e.2) rest (R - 1) hnl
      (by simp only [List.length_append, List.length_cons]; unfold R; omega)
    simpa using this
  have hne : natDec e.1 ++ ' ' :: e.2 ++ '\n' :: rest ≠ [] := by
    intro h
    have := congrArg List.length h
    simp at this
  have hc0 : cstr (put st.B (natDec e.1 ++ ' ' :: e.2 ++ ['\n'])) 0
      = natDec e.1 ++ ' ' :: e.2 ++ ['\n'] := by
    rw [cstr_put _ _ hnul 0 (Nat.zero_le _)]; rfl
  have hQ : Q (natDec e.1 ++ ' ' :: e.2 ++ ['\n']) ['\n'] = some (natDec e.1 ++ ' ' :: e.2).length := by
    have := Q_first (natDec e.1 ++ ' ' :: e.2) '\n' [] [] hnl
    simpa using this
  have hset : (put st.B (natDec e.1 ++ ' ' :: e.2 ++ ['\n'])).set
        (natDec e.1 ++ ' ' :: e.2).length NUL
      = (natDec e.1 ++ ' ' :: e.2) ++ NUL :: (NUL :: st.B.drop
          ((natDec e.1 ++ ' ' :: e.2 ++ ['\n']).length + 1)) := by
    unfold put
    have : natDec e.1 ++ ' ' :: e.2 ++ ['\n'] ++ NUL :: st.B.drop
          ((natDec e.1 ++ ' ' :: e.2 ++ ['\n']).length + 1)
        = (natDec e.1 ++ ' ' :: e.2) ++ '\n' :: (NUL :: st.B.drop
          ((natDec e.1 ++ ' ' :: e.2 ++ ['\n']).length + 1)) := by
      simp
    rw [this, set_length_append]
  have hdrop : (natDec e.1 ++ ' ' :: e.2 ++ '\n' :: rest).drop
      (natDec e.1 ++ ' ' :: e.2 ++ ['\n']).length = rest := by
    have : natDec e.1 ++ ' ' :: e.2 ++ '\n' :: rest
        = (natDec e.1 ++ ' ' :: e.2 ++ ['\n']) ++ rest := by simp
    rw [this, List.drop_left]
  generalize hB1 : (put st.B (natDec e.1 ++ ' ' :: e.2 ++ ['\n'])).set
      (natDec e.1 ++ ' ' :: e.2).length NUL = B1 at hset
  have hG := G_define { st with B := B1 } e.1 e.2 _ (by unfold R; omega) (by unfold R; omega)
    hnul2 hset
  rw [load, if_neg hne, htl, hc0, hQ]
  simp only [hB1, hG, bind_ok, hdrop]

/-- The load loop on the saved lines of a list of entries stores them one
after the other. -/
theorem load_entries : ∀ (es : List (Nat × Text)), (∀ e ∈ es, Fits e) →
    ∀ (n : Nat) (st : State),
      (es.flatMap fun e => natDec e.1 ++ ' ' :: e.2 ++ ['\n']).length ≤ n →
      ∃ st1, load n st (es.flatMap fun e => natDec e.1 ++ ' ' :: e.2 ++ ['\n']) = .ok st1 ∧
        st1.m = es.foldl (fun (m : Nat → Option Text) (e : Nat × Text) => Function.update m e.1 (some e.2)) st.m ∧
        st1.P = st.P ∧ st1.M = st.M ∧ st1.L = st.L ∧ st1.out = st.out ∧ st1.inp = st.inp ∧
        st1.fs = st.fs := by
  intro es
  induction es with
  | nil =>
    intro _ n st _
    refine ⟨st, ?_, rfl, rfl, rfl, rfl, rfl, rfl, rfl⟩
    cases n <;> simp [load]
  | cons e es ih =>
    intro hfit n st hn
    have hcons : ((e :: es).flatMap fun e => natDec e.1 ++ ' ' :: e.2 ++ ['\n'])
        = natDec e.1 ++ ' ' :: e.2 ++ '\n' ::
          (es.flatMap fun e => natDec e.1 ++ ' ' :: e.2 ++ ['\n']) := by
      simp [List.flatMap_cons]
    rw [hcons] at hn ⊢
    obtain ⟨k, rfl⟩ : ∃ k, n = k + 1 := ⟨n - 1, by simp at hn; omega⟩
    rw [load_line k st e _ (hfit e (by simp))]
    obtain ⟨st1, h1, h2, h3, h4, h5, h6, h7, h8⟩ := ih (fun x hx => hfit x (by simp [hx])) k
      { st with
          m := Function.update st.m e.1 (some e.2),
          B := (put st.B (natDec e.1 ++ ' ' :: e.2 ++ ['\n'])).set
            (natDec e.1 ++ ' ' :: e.2).length NUL } (by simp at hn ⊢; omega)
    exact ⟨st1, h1, h2, h3, h4, h5, h6, h7, h8⟩

theorem entries_succ (m : Nat → Option Text) (N : Nat) :
    entries m (N + 1) = entries m N ++ (match m N with | some s => [(N, s)] | none => []) := by
  unfold entries
  rw [List.range_succ, List.filterMap_append]
  congr 1
  cases hm : m N <;> simp [hm]

/-- Storing the entries below `N` one after the other into a store that is
empty below `N` gives the entries below `N` back. -/
theorem foldl_entries (m base : Nat → Option Text) : ∀ N, (∀ j, j < N → base j = none) →
    (entries m N).foldl (fun (m : Nat → Option Text) (e : Nat × Text) => Function.update m e.1 (some e.2)) base
      = fun j => if j < N then m j else base j := by
  intro N
  induction N with
  | zero => intro _; funext j; simp [entries]
  | succ N ih =>
    intro hb
    rw [entries_succ, List.foldl_append, ih (fun j hj => hb j (by omega))]
    funext j
    cases hm : m N with
    | none =>
      simp only [List.foldl_nil]
      by_cases h1 : j < N
      · simp [h1, show j < N + 1 by omega]
      · by_cases h2 : j = N
        · subst h2; simp [hm, hb j (by omega)]
        · simp [h1, show ¬ j < N + 1 by omega]
    | some s =>
      simp only [List.foldl_cons, List.foldl_nil]
      by_cases h2 : j = N
      · subst h2; simp [hm]
      · rw [Function.update_noteq h2]
        by_cases h1 : j < N
        · simp [h1, show j < N + 1 by omega]
        · simp [h1, show ¬ j < N + 1 by omega]

theorem saved_entries (m : Nat → Option Text) :
    saved m = (entries m (11 * R)).flatMap fun e => natDec e.1 ++ ' ' :: e.2 ++ ['\n'] := by
  unfold saved listing entries
  simp only [fmtInt_ofNat]
  generalize List.range (11 * R) = r
  induction r with
  | nil => rfl
  | cons i r ih =>
    cases hm : m i with
    | none => simp only [List.filterMap_cons, hm, Option.map_none']; exact ih
    | some s =>
      simp only [List.filterMap_cons, hm, Option.map_some', List.flatMap_cons, ih]

theorem mem_entries (m : Nat → Option Text) (N : Nat) (e : Nat × Text) :
    e ∈ entries m N ↔ e.1 < N ∧ m e.1 = some e.2 := by
  unfold entries
  rw [List.mem_filterMap]
  constructor
  · rintro ⟨i, hi, h⟩
    cases hm : m i with
    | none => rw [hm] at h; simp at h
    | some s =>
      rw [hm] at h
      have : (i, s) = e := by simpa using h
      subst this
      exact ⟨List.mem_range.1 hi, hm⟩
  · rintro ⟨h1, h2⟩
    exact ⟨e.1, List.mem_range.2 h1, by rw [h2]; rfl⟩

/-- The store comes back from its saved lines: when the saved line of every
listed entry, with its newline, fits a read of `fgets(B,R,f)`, loading what
SAVE writes into the store that NEW leaves yields the same store, hence the
same listing. -/
theorem reload_restores (st : State)
    (hfit : ∀ i s, i < 11 * R → st.m i = some s → Fits (i, s)) :
    ∃ st1, load (saved st.m).length { st with m := clear st.m } (saved st.m) = .ok st1 ∧
      st1.m = st.m ∧ listing st1.m = listing st.m := by
  rw [saved_entries]
  obtain ⟨st1, h1, h2, _⟩ := load_entries (entries st.m (11 * R))
    (fun e he => by
      have := (mem_entries st.m _ e).1 he
      exact hfit e.1 e.2 this.1 this.2)
    _ { st with m := clear st.m } (le_refl _)
  have hm : st1.m = st.m := by
    rw [h2]
    show (entries st.m (11 * R)).foldl _ (clear st.m) = st.m
    rw [foldl_entries st.m (clear st.m) (11 * R) (fun j hj => by simp [clear, hj])]
    funext j
    by_cases h : j < 11 * R
    · simp [h]
    · simp [h, clear]
  exact ⟨st1, h1, hm, by rw [hm]⟩

/-! ### Runs, faults and quotients -/

theorem bind_eq_ok {α β : Type} {r : Res α} {k : α → Res β} {b : β} (h : r.bind k = .ok b) :
    ∃ a, r = .ok a ∧ k a = .ok b := by
  cases r with
  | ok a => exact ⟨a, rfl, h⟩
  | fault e => cases h

/-- The run loop from a counter `l ≥ 1` goes on with the first stored line from
`l` on. -/
theorem loop_at (n : Nat) (st : State) (l : Int) (E : List Int) (j : Nat) (s : Text)
    (h0 : 1 ≤ l) (hl : l.toNat ≤ j) (hj : j < 12 * R) (hs : st.m j = some s)
    (hnone : ∀ i, l.toNat ≤ i → i < j → st.m i = none) :
    loop (n + 1) st l E
      = (stmt st j s E).bind fun c => loop n c.1 (wrap (c.2.1 + 1)) c.2.2 := by
  rw [loop_succ _ _ _ _ (by omega), step_at st l E j s (by omega) hl hj hs hnone]
  cases stmt st j s E <;> rfl

/-- The command `RUN` starts with the lowest stored line from 1 on, all
variables cleared. -/
theorem run_first (n : Nat) (st : State) (k : Nat) (s : Text)
    (hk : k < 12 * R) (hk1 : 1 ≤ k) (hs : st.m k = some s)
    (hlow : ∀ i, 1 ≤ i → i < k → st.m i = none) :
    run (n + 1) st
      = (stmt { st with P := fun _ => 0 } k s []).bind
          fun c => loop n c.1 (wrap (c.2.1 + 1)) c.2.2 := by
  unfold run
  exact loop_at n _ 1 [] k s (by omega) (by simpa using hk1) hk hs
    (fun i h1 h2 => hlow i (by simpa using h1) h2)

/-- A fault of the first statement of a run is the result of the whole
session: no later command is read. -/
theorem session_run_fault (n : Nat) (st : State) (k : Nat) (s : Text) (rest : List Text)
    (e : Fault) (hk : k < 12 * R) (hk1 : 1 ≤ k) (hs : st.m k = some s)
    (hlow : ∀ i, 1 ≤ i → i < k → st.m i = none) (hinp : st.inp = "RUN".data :: rest)
    (hf : ∀ st1 : State, stmt st1 k s [] = .fault e) :
    session (n + 2) st = .fault e := by
  rw [session_succ, prompt_run _ _ rest hinp,
    run_first n { st with B := put st.B "RUN".data, out := st.out ++ ["Ok".data], inp := rest }
      k s hk hk1 hs hlow, hf]
  rfl

theorem tdiv_truncates (a b : Int) :
    (Int.tdiv a b).natAbs = a.natAbs / b.natAbs ∧
    ((0 ≤ a ∧ 0 < b) ∨ (a ≤ 0 ∧ b < 0) → 0 ≤ Int.tdiv a b) ∧
    ((0 ≤ a ∧ b < 0) ∨ (a ≤ 0 ∧ 0 < b) → Int.tdiv a b ≤ 0) := by
  refine ⟨Int.natAbs_tdiv a b, ?_, ?_⟩
  · rintro (⟨h1, h2⟩ | ⟨h1, h2⟩)
    · exact Int.tdiv_nonneg h1 (by omega)
    · rw [← Int.neg_tdiv_neg]
      exact Int.tdiv_nonneg (by omega) (by omega)
  · rintro (⟨h1, h2⟩ | ⟨h1, h2⟩)
    · exact Int.tdiv_nonpos h1 (by omega)
    · have := Int.tdiv_nonneg (show 0 ≤ -a by omega) (show 0 ≤ b by omega)
      rw [Int.neg_tdiv] at this
      omega

/-- The quotient of `A/B` in the buffer is the one of `cdiv`. -/
theorem eval_quotient (P : Nat → Int) (tail : Text) (q : Int)
    (hq : cdiv (P 65) (P 66) = .ok q) :
    eval ("PRINTA/B".data ++ NUL :: tail) P 5 = .ok (q, 8) := by
  have hW : W ("PRINTA/B".data ++ NUL :: tail) P (5965 + 1) 5 = .ok (q, 8) := by
    have h1 : W ("PRINTA/B".data ++ NUL :: tail) P (5965 + 1) 5
        = (cdiv (P 65) (P 66)).bind fun v => .ok (v, 8) := rfl
    rw [h1, hq]; rfl
  have hrd : rd ("PRINTA/B".data ++ NUL :: tail) 8 = NUL := rfl
  have hV : V ("PRINTA/B".data ++ NUL :: tail) P (5966 + 1) 5 = .ok (q, 8) := by
    rw [V]; exact O_pass _ _ _ _ _ _ _ _ _ _ hW (by decide) (by rw [hrd]; decide)
      (by rw [hrd]; decide)
  have hK : K ("PRINTA/B".data ++ NUL :: tail) P (5967 + 1) 5 = .ok (q, 8) := by
    rw [K]; exact O_pass _ _ _ _ _ _ _ _ _ _ hV (by decide) (by rw [hrd]; decide)
      (by rw [hrd]; decide)
  have hJ : J ("PRINTA/B".data ++ NUL :: tail) P (5968 + 1) 5 = .ok (q, 8) := by
    rw [J]; exact O_pass _ _ _ _ _ _ _ _ _ _ hK (by decide) (by rw [hrd]; decide)
      (by rw [hrd]; decide)
  show S ("PRINTA/B".data ++ NUL :: tail) P (5969 + 1) 5 = .ok (q, 8)
  rw [S]; exact O_pass _ _ _ _ _ _ _ _ _ _ hJ (by decide) (by rw [hrd]; decide)
    (by rw [hrd]; decide)

/-- The primary tier reads a decimal numeral without leading zeros, followed by
a character that is neither a digit nor a letter, in base ten. -/
theorem Y_numeral (B : Text) (P : Nat → Int) (p m n : Nat) (c : Char) (tail : Text)
    (hB : B.drop p = natDec n ++ c :: tail) (hc : digitVal c = none) (hp : p < R)
    (hn : n ≤ 2147483647) :
    Y B P (m + 1) p = .ok (Int.ofNat n, p + (natDec n).length) := by
  obtain ⟨d, r, hdr⟩ : ∃ d r, natDec n = d :: r := by
    cases hh : natDec n with
    | nil => exact absurd hh (natDec_ne_nil n)
    | cons d r => exact ⟨d, r, rfl⟩
  have hd := natDec_digits n d (by rw [hdr]; simp)
  have hrd : rd B p = d := rd_of_drop (by rw [hB, hdr]; rfl)
  have hm : d ≠ '-' := by
    rintro rfl
    have e : ('-' : Char).toNat = 45 := rfl
    omega
  have hst := strtol_natDec n (by unfold LONG_MAX; omega) c tail hc
  have hw : wrap (Int.ofNat n) = Int.ofNat n := by
    simp only [Int.ofNat_eq_coe]
    unfold wrap; omega
  simp only [Y, hrd, hm, hd, not_le.2 hp, if_false, if_true, and_self, hB, hst, hw]

theorem O_fault (B : Text) (b f : Nat → Ev) (u : Char) (s : Int → Int → Res Int)
    (c : Char) (a : Int → Int → Res Int) (p : Nat) (e : Fault) (hf : f p = .fault e) :
    O B b f u s c a p = .fault e := by
  simp [O, Res.bind, hf]

/-- The quotient `1/0` in the buffer: the division faults. -/
theorem eval_one_by_zero (P : Nat → Int) (tail : Text) :
    eval ("PRINT1/0".data ++ NUL :: tail) P 5 = .fault .divide := by
  have h1 : ∀ m, Y ("PRINT1/0".data ++ NUL :: tail) P (m + 1) 5 = .ok (1, 6) := fun m =>
    Y_numeral _ P 5 m 1 '/' ('0' :: NUL :: tail) rfl (by decide) (by decide) (by decide)
  have h0 : ∀ m, Y ("PRINT1/0".data ++ NUL :: tail) P (m + 1) 7 = .ok (0, 8) := fun m =>
    Y_numeral _ P 7 m 0 NUL tail rfl (by decide) (by decide) (by decide)
  have hrd : rd ("PRINT1/0".data ++ NUL :: tail) 8 = NUL := rfl
  have hrd6 : rd ("PRINT1/0".data ++ NUL :: tail) 6 = '/' := rfl
  have hW0 : W ("PRINT1/0".data ++ NUL :: tail) P (5964 + 1) 7 = .ok (0, 8) := by
    rw [W]; exact O_pass _ _ _ _ _ _ _ _ _ _ (h0 _) (by decide) (by rw [hrd]; decide)
      (by rw [hrd]; decide)
  have hW : W ("PRINT1/0".data ++ NUL :: tail) P (5965 + 1) 5 = .fault .divide := by
    rw [W]
    simp only [O, h1, hW0, bind_ok, hrd6]
    rfl
  have hV : V ("PRINT1/0".data ++ NUL :: tail) P (5966 + 1) 5 = .fault .divide := by
    rw [V]; exact O_fault _ _ _ _ _ _ _ _ _ hW
  have hK : K ("PRINT1/0".data ++ NUL :: tail) P (5967 + 1) 5 = .fault .divide := by
    rw [K]; exact O_fault _ _ _ _ _ _ _ _ _ hV
  have hJ : J ("PRINT1/0".data ++ NUL :: tail) P (5968 + 1) 5 = .fault .divide := by
    rw [J]; exact O_fault _ _ _ _ _ _ _ _ _ hK
  show S ("PRINT1/0".data ++ NUL :: tail) P (5969 + 1) 5 = .fault .divide
  rw [S]; exact O_fault _ _ _ _ _ _ _ _ _ hJ

/-- The statement `PRINT 1/0` faults in every state. -/
theorem stmt_one_by_zero (st : State) (k : Nat) (E : List Int) :
    stmt st k "PRINT 1/0".data E = .fault .divide := by
  have e : stmt st k "PRINT 1/0".data E
      = (eval ("PRINT1/0".data ++ NUL :: st.B.drop 9) st.P 5).bind fun vp =>
          .ok ({ prepared st k "PRINT 1/0".data with out := st.out ++ [fmtInt vp.1] },
            Int.ofNat k, E) := rfl
  rw [e, eval_one_by_zero]
  rfl

/-! ### Literal texts -/

/-- Inside a quoted part (an odd count of quotes so far) the copy loop keeps
every character. -/
theorem strip_quoted (t rest : Text) (h : '"' ∉ t) :
    strip (t ++ rest) 1 = t ++ strip rest 1 := by
  induction t with
  | nil => rfl
  | cons c t ih =>
    have hc : c ≠ '"' := fun e => h (by simp [e])
    have ht : '"' ∉ t := fun e => h (by simp [e])
    simp [strip, hc, ih ht]

/-- The statement `PRINT "<t>"` prints `t` and leaves the variables, the
counter and the stack alone. -/
theorem stmt_print_literal (st : State) (k : Nat) (E : List Int) (t : Text)
    (hq : '"' ∉ t) (hnul : ∀ c ∈ t, c ≠ NUL) (hlen : t.length + 7 < R) :
    sentinels (['P', 'R', 'I', 'N', 'T', ' ', '"'] ++ t ++ ['"'])
      = ['P', 'R', 'I', 'N', 'T', ' ', '"'] ++ t ++ ['"'] ∧
    ∃ B1, stmt st k (['P', 'R', 'I', 'N', 'T', ' ', '"'] ++ t ++ ['"']) E
      = .ok ({ st with
                m := Function.update st.m k
                  (some (['P', 'R', 'I', 'N', 'T', ' ', '"'] ++ t ++ ['"']))
                B := B1
                out := st.out ++ [t] }, Int.ofNat k, E) := by
  have hsen : sentinels (['P', 'R', 'I', 'N', 'T', ' ', '"'] ++ t ++ ['"'])
      = ['P', 'R', 'I', 'N', 'T', ' ', '"'] ++ t ++ ['"'] := by
    unfold sentinels
    have hQ := Q_first ['P', 'R', 'I', 'N', 'T', ' '] '"' [] (t ++ ['"']) (by decide)
    have e : ['P', 'R', 'I', 'N', 'T', ' ', '"'] ++ t ++ ['"']
        = ['P', 'R', 'I', 'N', 'T', ' '] ++ ('"' :: [] ++ (t ++ ['"'])) := by simp
    rw [if_neg (by rw [e, hQ]; simp)]
  refine ⟨hsen, ?_⟩
  have hstrip : strip (['P', 'R', 'I', 'N', 'T', ' ', '"'] ++ t ++ ['"']) 0
      = 'P' :: 'R' :: 'I' :: 'N' :: 'T' :: '"' :: (t ++ ['"']) := by
    have e1 : strip (['P', 'R', 'I', 'N', 'T', ' ', '"'] ++ t ++ ['"']) 0
        = 'P' :: 'R' :: 'I' :: 'N' :: 'T' :: '"' :: strip (t ++ ['"']) 1 := by
      simp [strip, Q, List.isPrefixOf]
    rw [e1, strip_quoted t _ hq]
    rfl
  have hd : ('P' :: 'R' :: 'I' :: 'N' :: 'T' :: '"' :: (t ++ ['"'])).length = t.length + 7 := by
    simp only [List.length_cons, List.length_append, List.length_nil]
  unfold stmt prepared
  rw [hsen, hstrip, hd, if_neg (by omega)]
  generalize hrest : st.B.drop (t.length + 7 + 1) = rest
  have hput : put st.B ('P' :: 'R' :: 'I' :: 'N' :: 'T' :: '"' :: (t ++ ['"']))
      = 'P' :: 'R' :: 'I' :: 'N' :: 'T' :: '"' :: (t ++ '"' :: NUL :: rest) := by
    unfold put; rw [hd, hrest]; simp
  rw [hput, show t.length + 7 - 1 = t.length + 6 by omega]
  have hset : ('P' :: 'R' :: 'I' :: 'N' :: 'T' :: '"' :: (t ++ '"' :: NUL :: rest)).set
      (t.length + 6) NUL
      = 'P' :: 'R' :: 'I' :: 'N' :: 'T' :: '"' :: (t ++ NUL :: NUL :: rest) := by
    simp only [List.set_cons_succ, set_length_append]
  have hcstr : cstr ('P' :: 'R' :: 'I' :: 'N' :: 'T' :: '"' :: (t ++ NUL :: NUL :: rest)) 6
      = t := by
    have := cstr_append_nul t (NUL :: rest) hnul 0 (Nat.zero_le _)
    simpa [cstr] using this
  refine ⟨'P' :: 'R' :: 'I' :: 'N' :: 'T' :: '"' :: (t ++ NUL :: NUL :: rest), ?_⟩
  unfold exec
  have r0 : rd ('P' :: 'R' :: 'I' :: 'N' :: 'T' :: '"' :: (t ++ '"' :: NUL :: rest)) 0 = 'P' := rfl
  have r1 : rd ('P' :: 'R' :: 'I' :: 'N' :: 'T' :: '"' :: (t ++ '"' :: NUL :: rest)) 1 = 'R' := rfl
  have r5 : rd ('P' :: 'R' :: 'I' :: 'N' :: 'T' :: '"' :: (t ++ '"' :: NUL :: rest)) 5 = '"' := rfl
  simp only [r0, r1, r5, hset, hcstr]
  rfl

/-! ### The commands `OLD` and `LOAD` -/

/-- The function `G()` prints nothing. -/
theorem G_out (st s1 : State) (h : G st = .ok s1) : s1.out = st.out := by
  unfold G at h
  simp only at h
  split at h
  · cases h
  · split at h
    · cases h
    · split at h <;> · cases h; rfl

/-- The load loop prints nothing. -/
theorem load_out : ∀ (n : Nat) (st : State) (rest : Text) (s1 : State),
    load n st rest = .ok s1 → s1.out = st.out := by
  intro n
  induction n with
  | zero =>
    intro st rest s1 h
    unfold load at h
    split at h
    · cases h; rfl
    · cases h
  | succ n ih =>
    intro st rest s1 h
    unfold load at h
    split at h
    · cases h; rfl
    · split at h
      · cases h
      · obtain ⟨s2, h2, h3⟩ := bind_eq_ok h
        rw [ih _ _ _ h3, G_out _ _ h2]

/-- Typing `OLD <path>` at the prompt runs the load loop over the file. -/
theorem prompt_old (n : Nat) (st : State) (path content : Text) (rest : List Text)
    (hnul : ∀ c ∈ path, c ≠ NUL) (hlen : path.length + 4 < R)
    (hfile : st.fs path = some content) (hinp : st.inp = ("OLD ".data ++ path) :: rest) :
    prompt n st
      = (load content.length { st with
            B := put st.B ("OLD ".data ++ path)
            out := st.out ++ ["Ok".data]
            inp := rest } content).bind fun s1 => .ok (s1, false) := by
  have hl : ¬ R ≤ ("OLD ".data ++ path).length := by
    show ¬ R ≤ (['O', 'L', 'D', ' '] ++ path).length
    simp only [List.length_append, List.length_cons, List.length_nil]
    omega
  have hn : ∀ c ∈ "OLD ".data ++ path, c ≠ NUL := by
    intro c hc
    rcases List.mem_append.1 hc with h | h
    · intro e; subst e; exact absurd h (by decide)
    · exact hnul c h
  unfold prompt gets
  simp only [hinp, if_neg hl, Res.bind]
  rw [if_neg (by decide)]
  have r0 : rd (put st.B ("OLD ".data ++ path)) 0 = 'O' := rfl
  have hc : cstr (put st.B ("OLD ".data ++ path)) 4 = path :=
    cstr_put st.B _ hn 4 (by simp only [List.length_append]; exact Nat.le_add_right _ _)
  unfold command
  simp only [r0, hc, hfile]
  rw [if_neg (by decide), if_neg (by decide), if_neg (by decide), if_neg (by decide),
    if_neg (by decide), if_pos trivial]
  rfl

/-- Typing `LOAD <path>` at the prompt lists the stored program: the line
starts with `L`. -/
theorem prompt_load (n : Nat) (st : State) (path : Text) (rest : List Text)
    (hlen : path.length + 5 < R) (hinp : st.inp = ("LOAD ".data ++ path) :: rest) :
    prompt n st
      = .ok ({ st with
            B := put st.B ("LOAD ".data ++ path)
            out := st.out ++ ["Ok".data] ++ listing st.m
            inp := rest }, false) := by
  have hl : ¬ R ≤ ("LOAD ".data ++ path).length := by
    show ¬ R ≤ (['L', 'O', 'A', 'D', ' '] ++ path).length
    simp only [List.length_append, List.length_cons, List.length_nil]
    omega
  unfold prompt gets
  simp only [hinp, if_neg hl, Res.bind]
  rw [if_neg (by decide)]
  have r0 : rd (put st.B ("LOAD ".data ++ path)) 0 = 'L' := rfl
  unfold command
  simp only [r0]
  rw [if_neg (by decide), if_pos trivial]

/-! ### Jumps and conditions -/

/-- A statement of slot `k` that leaves the counter at `t - 1` makes the loop
go on from the counter `t`. -/
theorem loop_jump (n : Nat) (st st1 : State) (k : Nat) (s0 : Text) (E E1 : List Int) (t : Int)
    (hk1 : 1 ≤ k) (hk : k < 12 * R) (hs : st.m k = some s0)
    (hst : stmt st k s0 E = .ok (st1, wrap (t - 1), E1))
    (ht0 : 0 ≤ t) (ht2 : t ≤ 2147483647) :
    loop (n + 1) st (Int.ofNat k) E = loop n st1 t E1 := by
  rw [loop_at n st (Int.ofNat k) E k s0 (by simp only [Int.ofNat_eq_coe]; omega) (by simp) hk hs
    (fun i h1 h2 => by simp only [Int.ofNat_eq_coe, Int.toNat_ofNat] at h1; omega), hst, bind_ok]
  have : wrap (wrap (t - 1) + 1) = t := by unfold wrap; omega
  simp only [this]

/-- A statement of slot `k` that leaves the counter alone makes the loop go on
from the counter `k + 1`. -/
theorem loop_next (n : Nat) (st st1 : State) (k : Nat) (s0 : Text) (E E1 : List Int)
    (hk1 : 1 ≤ k) (hk : k < 12 * R) (hs : st.m k = some s0)
    (hst : stmt st k s0 E = .ok (st1, Int.ofNat k, E1)) :
    loop (n + 1) st (Int.ofNat k) E = loop n st1 (Int.ofNat k + 1) E1 := by
  rw [loop_at n st (Int.ofNat k) E k s0 (by simp only [Int.ofNat_eq_coe]; omega) (by simp) hk hs
    (fun i h1 h2 => by simp only [Int.ofNat_eq_coe, Int.toNat_ofNat] at h1; omega), hst, bind_ok]
  have : wrap (Int.ofNat k + 1) = Int.ofNat k + 1 := by
    simp only [Int.ofNat_eq_coe]
    unfold R at hk
    unfold wrap; omega
  simp only [this]

/-- The statement `IF <c> THEN <e>`, given as what the line reads after the
rewriting of the operators and the removal of the blanks, with the keyword
`THEN` at the first `TH` of the line: the condition is evaluated in the buffer
cut at the keyword, the target only if the condition is not zero. -/
theorem stmt_if (st : State) (k : Nat) (s c e : Text) (E : List Int)
    (hb : strip (sentinels s) 0 = 'I' :: 'F' :: (c ++ 'T' :: 'H' :: 'E' :: 'N' :: e))
    (hnul : ∀ x ∈ strip (sentinels s) 0, x ≠ NUL)
    (hlen : (strip (sentinels s) 0).length < R)
    (hQ : Q (strip (sentinels s) 0) ['T', 'H'] = some (c.length + 2)) :
    stmt st k s E
      = (eval ((prepared st k s).B.set (c.length + 2) NUL) st.P 2).bind fun cp =>
          if cp.1 ≠ 0 then
            (eval ((prepared st k s).B.set (c.length + 2) NUL) st.P (c.length + 2 + 4)).bind
              fun tp => .ok ({ prepared st k s with
                  B := (prepared st k s).B.set (c.length + 2) NUL }, wrap (tp.1 - 1), E)
          else .ok ({ prepared st k s with
                  B := (prepared st k s).B.set (c.length + 2) NUL }, Int.ofNat k, E) := by
  have hcs : cstr (prepared st k s).B 0 = strip (sentinels s) 0 :=
    cstr_put st.B _ hnul 0 (Nat.zero_le _)
  have hB : (prepared st k s).B
      = 'I' :: 'F' :: ((c ++ 'T' :: 'H' :: 'E' :: 'N' :: e)
          ++ NUL :: st.B.drop ((strip (sentinels s) 0).length + 1)) := by
    show put st.B (strip (sentinels s) 0) = _
    unfold put
    rw [hb]
    rfl
  have r0 : rd (prepared st k s).B 0 = 'I' := by rw [hB]; rfl
  have r1 : rd (prepared st k s).B 1 = 'F' := by rw [hB]; rfl
  unfold stmt
  rw [if_neg (not_le.2 hlen)]
  unfold exec
  simp only [r0, r1, hcs, hQ]
  rw [if_neg (by decide), if_neg (by decide), if_neg (by decide), if_pos trivial,
    if_neg (by decide)]
  rfl

theorem isPrefixOf_set (z : Char) : ∀ (y s : Text) (i : Nat), z ∉ y →
    y.isPrefixOf (s.set i z) = true → y.isPrefixOf s = true := by
  intro y
  induction y with
  | nil => intro s i _ _; simp [List.isPrefixOf]
  | cons a y ih =>
    intro s i hz h
    have ha : a ≠ z := fun e => hz (by simp [e])
    have hy : z ∉ y := fun e => hz (by simp [e])
    cases s with
    | nil => simp [List.isPrefixOf] at h
    | cons b s =>
      cases i with
      | zero =>
        simp only [List.set_cons_zero, List.isPrefixOf, Bool.and_eq_true, beq_iff_eq] at h
        exact absurd h.1 ha
      | succ i =>
        simp only [List.set_cons_succ, List.isPrefixOf, Bool.and_eq_true, beq_iff_eq] at h ⊢
        exact ⟨h.1, ih s i hy h.2⟩

theorem Q_cons_none (c : Char) (s y : Text) :
    Q (c :: s) y = none ↔ ¬ (y ≠ [] ∧ y.isPrefixOf (c :: s) = true) ∧ Q s y = none := by
  have e : Q (c :: s) y = if y ≠ [] ∧ y.isPrefixOf (c :: s) = true then some 0
      else (Q s y).map (fun i => i + 1) := rfl
  rw [e]
  split
  · rename_i h; simp [h]
  · rename_i h
    constructor
    · intro hq
      refine ⟨h, ?_⟩
      cases hs : Q s y with
      | none => rfl
      | some j => rw [hs] at hq; simp at hq
    · intro hq
      rw [hq.2]; rfl

/-- Writing a character that is not in `y` into `s` makes no occurrence of
`y`. -/
theorem Q_set_none (y : Text) (z : Char) (hz : z ∉ y) : ∀ (s : Text) (i : Nat),
    Q s y = none → Q (s.set i z) y = none := by
  intro s
  induction s with
  | nil => intro i h; simpa using h
  | cons c s ih =>
    intro i h
    obtain ⟨h1, h2⟩ := (Q_cons_none c s y).1 h
    cases i with
    | zero =>
      rw [List.set_cons_zero]
      refine (Q_cons_none z s y).2 ⟨?_, h2⟩
      rintro ⟨hne, hp⟩
      have := isPrefixOf_set z y (c :: s) 0 hz (by rw [List.set_cons_zero]; exact hp)
      exact h1 ⟨hne, this⟩
    | succ i =>
      rw [List.set_cons_succ]
      refine (Q_cons_none c _ y).2 ⟨?_, ih i h2⟩
      rintro ⟨hne, hp⟩
      have := isPrefixOf_set z y (c :: s) (i + 1) hz (by rw [List.set_cons_succ]; exact hp)
      exact h1 ⟨hne, this⟩

/-- The macro `U(y,z)` makes no occurrence of another string that holds
neither `z` nor a blank. -/
theorem Uloop_none (y y1 : Text) (z : Char) (hz : z ∉ y1) (hsp : ' ' ∉ y1) :
    ∀ (n : Nat) (s : Text), Q s y1 = none → Q (Uloop n s y z) y1 = none := by
  intro n
  induction n with
  | zero => intro s h; exact h
  | succ n ih =>
    intro s h
    unfold Uloop
    split
    · exact h
    · exact ih _ (Q_set_none y1 ' ' hsp _ _ (Q_set_none y1 z hz _ _ h))

/-- The rewriting of the operators changes nothing in a line it has
rewritten. -/
theorem sentinels_idem (s : Text) : sentinels (sentinels s) = sentinels s := by
  by_cases hq : Q s ['"'] = none
  · have e : sentinels s = U (U (U s ['<', '>'] '#') ['<', '='] '$') ['>', '='] '!' := by
      unfold sentinels; rw [if_pos hq]
    have h1 : Q (sentinels s) ['<', '>'] = none := by
      rw [e]
      exact Uloop_none _ _ '!' (by decide) (by decide) _ _
        (Uloop_none _ _ '$' (by decide) (by decide) _ _
          (U_done s '<' '>' '#' (by decide) (by decide)))
    have h2 : Q (sentinels s) ['<', '='] = none := by
      rw [e]
      exact Uloop_none _ _ '!' (by decide) (by decide) _ _
        (U_done _ '<' '=' '$' (by decide) (by decide))
    have h3 : Q (sentinels s) ['>', '='] = none := by
      rw [e]
      exact U_done _ '>' '=' '!' (by decide) (by decide)
    generalize sentinels s = r at h1 h2 h3
    unfold sentinels
    split
    · unfold U
      rw [Uloop_of_none _ r _ _ h1, Uloop_of_none _ r _ _ h2, Uloop_of_none _ r _ _ h3]
    · rfl
  · have e : sentinels s = s := by
      unfold sentinels; rw [if_neg hq]
    rw [e, e]

theorem gets_m (st : State) (sg : State × Bool) (h : gets st = .ok sg) : sg.1.m = st.m := by
  unfold gets at h
  split at h
  · cases h; rfl
  · split at h
    · cases h
    · cases h; rfl

/-- A statement executed in the buffer leaves the stored lines alone. -/
theorem exec_m (st : State) (l : Int) (E : List Int) (d : Nat) (c : Ctl)
    (h : exec st l E d = .ok c) : c.1.m = st.m := by
  unfold exec at h
  by_cases h1 : rd st.B 1 = '='
  · rw [if_pos h1] at h
    obtain ⟨vp, _, h2⟩ := bind_eq_ok h
    obtain ⟨i, _, h3⟩ := bind_eq_ok h2
    cases h3; rfl
  rw [if_neg h1] at h
  by_cases hE : rd st.B 0 = 'E'
  · rw [if_pos hE] at h; cases h; rfl
  rw [if_neg hE] at h
  by_cases hR : rd st.B 0 = 'R'
  · rw [if_pos hR] at h
    by_cases hM : rd st.B 2 ≠ 'M'
    · rw [if_pos hM] at h
      cases E with
      | nil => cases h
      | cons r E1 => cases h; rfl
    · rw [if_neg hM] at h; cases h; rfl
  rw [if_neg hR] at h
  by_cases hI : rd st.B 0 = 'I'
  · rw [if_pos hI] at h
    by_cases hN : rd st.B 1 = 'N'
    · rw [if_pos hN] at h
      obtain ⟨sg, hg, h2⟩ := bind_eq_ok h
      obtain ⟨vp, _, h3⟩ := bind_eq_ok h2
      obtain ⟨i, _, h4⟩ := bind_eq_ok h3
      cases h4
      exact gets_m _ _ hg
    · rw [if_neg hN] at h
      cases hq : Q (cstr st.B 0) ['T', 'H'] with
      | none => rw [hq] at h; cases h
      | some q =>
        rw [hq] at h
        obtain ⟨cp, _, h2⟩ := bind_eq_ok h
        by_cases hc : cp.1 ≠ 0
        · rw [if_pos hc] at h2
          obtain ⟨tp, _, h3⟩ := bind_eq_ok h2
          cases h3; rfl
        · rw [if_neg hc] at h2
          cases h2; rfl
  rw [if_neg hI] at h
  by_cases hP : rd st.B 0 = 'P'
  · rw [if_pos hP] at h
    by_cases hq : rd st.B 5 = '"'
    · rw [if_pos hq] at h; cases h; rfl
    · rw [if_neg hq] at h
      obtain ⟨vp, _, h2⟩ := bind_eq_ok h
      cases h2; rfl
  rw [if_neg hP] at h
  by_cases hG : rd st.B 0 = 'G'
  · rw [if_pos hG] at h
    by_cases hS : rd st.B 2 = 'S'
    · rw [if_pos hS] at h
      by_cases hl : R ≤ E.length
      · rw [if_pos hl] at h; cases h
      · rw [if_neg hl] at h
        obtain ⟨vp, _, h2⟩ := bind_eq_ok h
        cases h2; rfl
    · rw [if_neg hS] at h
      obtain ⟨vp, _, h2⟩ := bind_eq_ok h
      cases h2; rfl
  rw [if_neg hG] at h
  by_cases hF : rd st.B 0 = 'F'
  · rw [if_pos hF] at h
    cases hq : Q (cstr st.B 0) ['T', 'O'] with
    | none => rw [hq] at h; cases h
    | some q =>
      rw [hq] at h
      obtain ⟨vp, _, h2⟩ := bind_eq_ok h
      obtain ⟨i, _, h3⟩ := bind_eq_ok h2
      obtain ⟨wp, _, h4⟩ := bind_eq_ok h3
      cases h4; rfl
  rw [if_neg hF] at h
  by_cases hN : rd st.B 0 = 'N'
  · rw [if_pos hN] at h
    obtain ⟨i, _, h2⟩ := bind_eq_ok h
    by_cases hc : wrap (st.P i + 1) ≤ st.M i
    · rw [if_pos hc] at h2; cases h2; rfl
    · rw [if_neg hc] at h2; cases h2; rfl
  rw [if_neg hN] at h
  cases h; rfl

/-- The only stored line a statement changes is its own, by the rewriting of
its operators. -/
theorem stmt_m (st : State) (k : Nat) (s : Text) (E : List Int) (c : Ctl)
    (h : stmt st k s E = .ok c) : c.1.m = Function.update st.m k (some (sentinels s)) := by
  unfold stmt at h
  split at h
  · cases h
  · exact exec_m _ _ _ _ _ h

theorem step_m (st : State) (l : Int) (E : List Int) (c : Ctl) (h : step st l E = .ok c) :
    ∃ k s, st.m k = some s ∧ c.1.m = Function.update st.m k (some (sentinels s)) := by
  unfold step at h
  split at h
  · cases h
  · obtain ⟨k, _, h2⟩ := bind_eq_ok h
    split at h2
    · cases h2
    · rename_i s hs
      obtain ⟨c1, h3, h4⟩ := bind_eq_ok h2
      cases h4
      exact ⟨k, s, hs, stmt_m _ _ _ _ c1 h3⟩

/-- Whatever the run loop executes, a slot of the store holds afterwards what
it held before, or the rewriting of that. -/
theorem loop_m : ∀ (n : Nat) (st : State) (l : Int) (E : List Int) (st1 : State),
    loop n st l E = .ok st1 →
    ∀ k, st1.m k = st.m k ∨ ∃ s, st.m k = some s ∧ st1.m k = some (sentinels s) := by
  intro n
  induction n with
  | zero => intro st l E st1 h; cases h
  | succ n ih =>
    intro st l E st1 h k
    unfold loop at h
    split at h
    · cases h; exact Or.inl rfl
    · obtain ⟨c, h1, h2⟩ := bind_eq_ok h
      obtain ⟨k0, s0, hs0, hm⟩ := step_m _ _ _ _ h1
      have hi := ih _ _ _ _ h2 k
      rw [hm] at hi
      by_cases hk : k = k0
      · subst hk
        rw [Function.update_same] at hi
        rcases hi with hi | ⟨s, e1, e2⟩
        · exact Or.inr ⟨s0, hs0, hi⟩
        · cases e1
          rw [sentinels_idem] at e2
          exact Or.inr ⟨s0, hs0, e2⟩
      · rw [Function.update_noteq hk] at hi
        exact hi

/-! ### Lines without a number -/

/-- The function `atoi` on a text that does not start with white space, a sign
or a digit. -/
theorem atoi_word (c : Char) (r : Text) (hd : ¬ (48 ≤ c.toNat ∧ c.toNat ≤ 57))
    (hsp : ¬ (c = ' ' ∨ (9 ≤ c.toNat ∧ c.toNat ≤ 13))) (hm : c ≠ '-') (hp : c ≠ '+') :
    atoi (c :: r) = 0 := by
  have hscan : (scanDigits 10 (c :: r) 0 0).1 = 0 := by
    unfold scanDigits digitVal
    rw [if_neg hd]
    by_cases h1 : 97 ≤ c.toNat ∧ c.toNat ≤ 122
    · rw [if_pos h1]
      simp only
      rw [if_neg (by omega)]
    · rw [if_neg h1]
      by_cases h2 : 65 ≤ c.toNat ∧ c.toNat ≤ 90
      · rw [if_pos h2]
        simp only
        rw [if_neg (by omega)]
      · rw [if_neg h2]
  have hdw : List.dropWhile (fun c => decide (c = ' ' ∨ (9 ≤ c.toNat ∧ c.toNat ≤ 13)))
      (c :: r) = c :: r := by
    rw [List.dropWhile_cons]
    simp only [hsp, decide_False, Bool.false_eq_true, if_false]
  unfold atoi
  simp only [hdw]
  split
  · rename_i u hu
    exact absurd (List.cons.inj hu).1 hm
  · rename_i u hu
    exact absurd (List.cons.inj hu).1 hp
  · rw [hscan]
    rfl

/-- The function `G()` on a buffer that holds `<word> <text>`, the word not
starting like a number: slot 0 receives the text. -/
theorem G_word (st : State) (c : Char) (w t tail : Text)
    (hd : ¬ (48 ≤ c.toNat ∧ c.toNat ≤ 57))
    (hsp : ¬ (c = ' ' ∨ (9 ≤ c.toNat ∧ c.toNat ≤ 13))) (hm : c ≠ '-') (hp : c ≠ '+')
    (hw : ' ' ∉ w) (hnul : ∀ x ∈ c :: w ++ ' ' :: t, x ≠ NUL)
    (hB : st.B = (c :: w ++ ' ' :: t) ++ NUL :: tail) :
    G st = .ok { st with m := Function.update st.m 0 (some t) } := by
  have hc0 : cstr st.B 0 = c :: w ++ ' ' :: t := by
    rw [hB, cstr_append_nul _ _ hnul 0 (Nat.zero_le _)]; rfl
  have hc1 : cstr st.B ((c :: w).length + 1) = t := by
    rw [hB, cstr_append_nul _ _ hnul _ (by simp)]
    rw [← List.drop_drop, List.drop_left]; rfl
  have hat : atoi (c :: w ++ ' ' :: t) = 0 := atoi_word c _ hd hsp hm hp
  have hQ : Q (c :: w ++ ' ' :: t) [' '] = some (c :: w).length :=
    Q_first (c :: w) ' ' [] t (by
      intro h
      rcases List.mem_cons.1 h with h | h
      · exact hsp (Or.inl h.symm)
      · exact hw h)
  unfold G
  simp only [hc0, hat, hQ, hc1]
  rw [if_neg (by unfold R; omega), if_neg (by unfold R; simp)]
  rfl

/-- The function `G()` on a buffer that holds a word without a blank, not
starting like a number: slot 0 is emptied. -/
theorem G_bare_word (st : State) (c : Char) (w tail : Text)
    (hd : ¬ (48 ≤ c.toNat ∧ c.toNat ≤ 57))
    (hsp : ¬ (c = ' ' ∨ (9 ≤ c.toNat ∧ c.toNat ≤ 13))) (hm : c ≠ '-') (hp : c ≠ '+')
    (hw : ' ' ∉ w) (hnul : ∀ x ∈ c :: w, x ≠ NUL)
    (hB : st.B = (c :: w) ++ NUL :: tail) :
    G st = .ok { st with m := Function.update st.m 0 none } := by
  have hc0 : cstr st.B 0 = c :: w := by
    rw [hB, cstr_append_nul _ _ hnul 0 (Nat.zero_le _)]; rfl
  have hat : atoi (c :: w) = 0 := atoi_word c _ hd hsp hm hp
  have hQ : Q (c :: w) [' '] = none :=
    Q_none_of_not_mem _ _ _ (by
      intro h
      rcases List.mem_cons.1 h with h | h
      · exact hsp (Or.inl h.symm)
      · exact hw h)
  unfold G
  simp only [hc0, hat, hQ]
  rw [if_neg (by unfold R; omega), if_neg (by unfold R; simp)]
  rfl

/-- A line whose first character is none of the command letters goes to
`G()`. -/
theorem command_other (n : Nat) (st : State)
    (h : rd st.B 0 ≠ 'R' ∧ rd st.B 0 ≠ 'L' ∧ rd st.B 0 ≠ 'N' ∧ rd st.B 0 ≠ 'B' ∧
      rd st.B 0 ≠ 'S' ∧ rd st.B 0 ≠ 'O') :
    command n st = (G st).bind fun s1 => .ok (s1, false) := by
  unfold command
  rw [if_neg h.1, if_neg h.2.1, if_neg h.2.2.1, if_neg h.2.2.2.1, if_neg h.2.2.2.2.1,
    if_neg h.2.2.2.2.2]

/-- Typing `<word> <text>` at the prompt, the word starting neither like a
number nor with a command letter, stores the text in slot 0. -/
theorem prompt_word (n : Nat) (st : State) (c : Char) (w t : Text) (rest : List Text)
    (hd : ¬ (48 ≤ c.toNat ∧ c.toNat ≤ 57))
    (hsp : ¬ (c = ' ' ∨ (9 ≤ c.toNat ∧ c.toNat ≤ 13))) (hm : c ≠ '-') (hp : c ≠ '+')
    (hcmd : c ∉ ['R', 'L', 'N', 'B', 'S', 'O']) (hw : ' ' ∉ w)
    (hnul : ∀ x ∈ c :: w ++ ' ' :: t, x ≠ NUL) (hlen : (c :: w ++ ' ' :: t).length < R)
    (hinp : st.inp = (c :: w ++ ' ' :: t) :: rest) :
    prompt n st = .ok ({ st with
        m := Function.update st.m 0 (some t)
        B := put st.B (c :: w ++ ' ' :: t)
        out := st.out ++ ["Ok".data]
        inp := rest }, false) := by
  have hc : ∀ x ∈ ['R', 'L', 'N', 'B', 'S', 'O'], c ≠ x := fun x hx e => hcmd (e ▸ hx)
  unfold prompt gets
  simp only [hinp, if_neg (not_le.2 hlen), Res.bind]
  rw [if_neg (by decide), command_other _ _ (by
    show rd (put st.B (c :: w ++ ' ' :: t)) 0 ≠ 'R' ∧ _
    have r0 : rd (put st.B (c :: w ++ ' ' :: t)) 0 = c := rfl
    rw [r0]
    exact ⟨hc _ (by decide), hc _ (by decide), hc _ (by decide), hc _ (by decide),
      hc _ (by decide), hc _ (by decide)⟩)]
  rw [G_word _ c w t (st.B.drop ((c :: w ++ ' ' :: t).length + 1)) hd hsp hm hp hw hnul rfl]
  rfl

/-- Typing a word without a blank at the prompt, the word starting neither
like a number nor with a command letter, empties slot 0. -/
theorem prompt_bare_word (n : Nat) (st : State) (c : Char) (w : Text) (rest : List Text)
    (hd : ¬ (48 ≤ c.toNat ∧ c.toNat ≤ 57))
    (hsp : ¬ (c = ' ' ∨ (9 ≤ c.toNat ∧ c.toNat ≤ 13))) (hm : c ≠ '-') (hp : c ≠ '+')
    (hcmd : c ∉ ['R', 'L', 'N', 'B', 'S', 'O']) (hw : ' ' ∉ w)
    (hnul : ∀ x ∈ c :: w, x ≠ NUL) (hlen : (c :: w).length < R)
    (hinp : st.inp = (c :: w) :: rest) :
    prompt n st = .ok ({ st with
        m := Function.update st.m 0 none
        B := put st.B (c :: w)
        out := st.out ++ ["Ok".data]
        inp := rest }, false) := by
  have hc : ∀ x ∈ ['R', 'L', 'N', 'B', 'S', 'O'], c ≠ x := fun x hx e => hcmd (e ▸ hx)
  unfold prompt gets
  simp only [hinp, if_neg (not_le.2 hlen), Res.bind]
  rw [if_neg (by decide), command_other _ _ (by
    show rd (put st.B (c :: w)) 0 ≠ 'R' ∧ _
    have r0 : rd (put st.B (c :: w)) 0 = c := rfl
    rw [r0]
    exact ⟨hc _ (by decide), hc _ (by decide), hc _ (by decide), hc _ (by decide),
      hc _ (by decide), hc _ (by decide)⟩)]
  rw [G_bare_word _ c w (st.B.drop ((c :: w).length + 1)) hd hsp hm hp hw hnul rfl]
  rfl

/-! ### The lines a session stores -/

/-- Typing `NEW` at the prompt empties the slots below `11 * R`. -/
theorem prompt_new (n : Nat) (st : State) (rest : List Text)
    (hinp : st.inp = "NEW".data :: rest) :
    prompt n st = .ok ({ st with
        m := clear st.m,
        B := put st.B "NEW".data,
        out := st.out ++ ["Ok".data],
        inp := rest }, false) := by
  unfold prompt gets
  simp only [hinp, Res.bind]
  rfl

/-- An entry of a store into which entries were written one after the other
was there before or is one of them. -/
theorem foldl_update_mem : ∀ (es : List (Nat × Text)) (m : Nat → Option Text) (k : Nat)
    (s : Text),
    es.foldl (fun (m : Nat → Option Text) (e : Nat × Text) =>
        Function.update m e.1 (some e.2)) m k = some s →
      m k = some s ∨ (k, s) ∈ es := by
  intro es
  induction es with
  | nil => intro m k s h; exact Or.inl h
  | cons e es ih =>
    intro m k s h
    rw [List.foldl_cons] at h
    rcases ih _ k s h with h1 | h1
    · by_cases hk : k = e.1
      · subst hk
        rw [Function.update_same] at h1
        right
        have : e.2 = s := Option.some.inj h1
        rw [← this]
        exact List.mem_cons_self _ _
      · rw [Function.update_noteq hk] at h1
        exact Or.inl h1
    · exact Or.inr (List.mem_cons_of_mem _ h1)

/-- The loop `while(!(s=m[l]))l++` from a counter not above a stored line `k`
ends at a stored line not above `k`. -/
theorem skip_finds (m : Nat → Option Text) (k : Nat) (hk : (m k).isSome = true) :
    ∀ (f l : Nat), l ≤ k → k - l < f →
      ∃ j, skip m f l = .ok j ∧ l ≤ j ∧ j ≤ k ∧ (m j).isSome = true := by
  intro f
  induction f with
  | zero => intro l _ h; omega
  | succ f ih =>
    intro l hl hf
    by_cases h : (m l).isSome = true
    · exact ⟨l, by simp [skip, h], le_refl _, hl, h⟩
    · have hlt : l < k := by
        rcases Nat.eq_or_lt_of_le hl with e | e
        · subst e; exact absurd hk h
        · exact e
      obtain ⟨j, h1, h2, h3, h4⟩ := ih (l + 1) hlt (by omega)
      refine ⟨j, ?_, by omega, h3, h4⟩
      simp only [skip, h, if_false]
      exact h1

/-- A line definition starts with a digit: it is neither the command `NEW`
nor a load. -/
theorem Defines_digit (ln : Text) (k : Nat) (t : Text) (h : Defines ln k t) :
    48 ≤ (rd ln 0).toNat ∧ (rd ln 0).toNat ≤ 57 := by
  rw [h.1]
  exact rd_natDec k _

/-- An entry that has its origin in accepted lines has a number that is a slot
of the array `m`. -/
theorem Origin_lt (fs : Text → Option Text) (A : List Text) (k : Nat) (s : Text)
    (h : Origin fs A k s) : k < 12 * R := by
  rcases h with ⟨h, _⟩ | ⟨ln, _, h⟩ | ⟨ln, _, es, ⟨_, _, _, _, _, _, hf⟩, he⟩
  · rw [h]; unfold R; omega
  · exact h.2.1
  · have := (hf _ he).1
    unfold R at this ⊢
    exact lt_trans this (by omega)

/-- One accepted line typed at the prompt: the prompt gets through, the rest
of the input and the files stay, every entry of the store has its origin in
the lines typed, and a line definition leaves its line in the store. -/
theorem prompt_accepted (fs : Text → Option Text) (A : List Text) (n : Nat) (st : State)
    (a : Text) (rest : List Text) (hinp : st.inp = a :: rest) (hfs : st.fs = fs)
    (ha : Accepted fs a) (hA : a ∈ A)
    (hm : ∀ k s, st.m k = some s → Origin fs A k s) :
    ∃ st1, prompt n st = .ok (st1, false) ∧ st1.inp = rest ∧ st1.fs = fs ∧
      (∀ k s, st1.m k = some s → Origin fs A k s) ∧
      (∀ k t, Defines a k t → st1.m k = some t) := by
  have hdef : ∀ k t, Defines a k t →
      prompt n st = .ok ({ st with
        m := Function.update st.m k (some t),
        B := put st.B a,
        out := st.out ++ ["Ok".data],
        inp := rest }, false) := by
    intro k t h
    obtain ⟨e, hk, hk2, ht, hlen⟩ := h
    subst e
    exact prompt_define n st k t rest hk hk2 ht hlen hinp
  rcases ha with ha | ⟨k, t, ha⟩ | ⟨es, path, hp, hne, hnul, hlen, hfile, hfit⟩
  · subst ha
    refine ⟨_, prompt_new n st rest hinp, rfl, hfs, ?_, ?_⟩
    · intro k s h
      have h' : clear st.m k = some s := h
      unfold clear at h'
      by_cases hk : k < 11 * R
      · rw [if_pos hk] at h'; cases h'
      · rw [if_neg hk] at h'; exact hm k s h'
    · intro k t h
      have := Defines_digit _ k t h
      exact absurd this (by decide)
  · refine ⟨_, hdef k t ha, rfl, hfs, ?_, ?_⟩
    · intro j s h
      have h' : Function.update st.m k (some t) j = some s := h
      by_cases hj : j = k
      · subst hj
        rw [Function.update_same] at h'
        have e : t = s := Option.some.inj h'
        subst e
        exact Or.inr (Or.inl ⟨a, hA, ha⟩)
      · rw [Function.update_noteq hj] at h'
        exact hm j s h'
    · intro k1 t1 h1
      have e := hdef k1 t1 h1
      rw [hdef k t ha] at e
      have e2 := congrArg (fun r => match r with
        | Res.ok c => c.1.m k1
        | Res.fault _ => none) e
      simp only [Function.update_same] at e2
      exact e2
  · subst hp
    have hfile2 : st.fs path
        = some (es.flatMap fun e => natDec e.1 ++ ' ' :: e.2 ++ ['\n']) := by
      rw [hfs]; exact hfile
    obtain ⟨st1, h1, h2, _, _, _, _, h7, h8⟩ := load_entries es hfit
      (es.flatMap fun e => natDec e.1 ++ ' ' :: e.2 ++ ['\n']).length
      { st with B := put st.B ("OLD ".data ++ path)
                out := st.out ++ ["Ok".data]
                inp := rest } (le_refl _)
    refine ⟨st1, ?_, h7, by rw [h8]; exact hfs, ?_, ?_⟩
    · rw [prompt_old n st path _ rest hnul hlen hfile2 hinp, h1]
      rfl
    · intro k s h
      rw [h2] at h
      rcases foldl_update_mem es _ k s h with h3 | h3
      · exact hm k s h3
      · exact Or.inr (Or.inr ⟨_, hA, es, ⟨path, rfl, hne, hnul, hlen, hfile, hfit⟩, h3⟩)
    · intro k t h
      have := Defines_digit _ k t h
      have r0 : rd ("OLD ".data ++ path) 0 = 'O' := rfl
      rw [r0] at this
      exact absurd this (by decide)

/-- A session of accepted lines gets through to the end of the input; every
entry of the store it leaves has its origin in the lines typed, and a line
definition typed last has left its line. -/
theorem session_accepted (fs : Text → Option Text) (A : List Text) :
    ∀ (inp : List Text) (n : Nat) (st : State), st.inp = inp → st.fs = fs →
      inp.length < n → (∀ ln ∈ inp, Accepted fs ln) → (∀ ln ∈ inp, ln ∈ A) →
      (∀ k s, st.m k = some s → Origin fs A k s) →
      ∃ st1, session n st = .ok st1 ∧
        (∀ k s, st1.m k = some s → Origin fs A k s) ∧
        (inp = [] → st1.m = st.m) ∧
        (∀ pre ln k t, inp = pre ++ [ln] → Defines ln k t → st1.m k = some t) := by
  intro inp
  induction inp with
  | nil =>
    intro n st hinp _ hn _ _ hm
    obtain ⟨j, rfl⟩ : ∃ j, n = j + 1 := ⟨n - 1, by simp at hn; omega⟩
    refine ⟨{ st with out := st.out ++ ["Ok".data] }, ?_, hm, fun _ => rfl, ?_⟩
    · rw [session_succ, prompt_eof j st hinp]
      rfl
    · intro pre ln k t h
      cases pre <;> cases h
  | cons a rest ih =>
    intro n st hinp hfs hn hacc hA hm
    obtain ⟨j, rfl⟩ : ∃ j, n = j + 1 := ⟨n - 1, by simp at hn; omega⟩
    obtain ⟨st1, h1, h2, h3, h4, h5⟩ := prompt_accepted fs A j st a rest hinp hfs
      (hacc a (List.mem_cons_self _ _)) (hA a (List.mem_cons_self _ _)) hm
    obtain ⟨st2, g1, g2, g3, g4⟩ := ih j st1 h2 h3 (by simp at hn ⊢; omega)
      (fun ln h => hacc ln (List.mem_cons_of_mem _ h))
      (fun ln h => hA ln (List.mem_cons_of_mem _ h)) h4
    refine ⟨st2, ?_, g2, (fun h => by cases h), ?_⟩
    · rw [session_succ, h1]
      exact g1
    · intro pre ln k t h hd
      cases pre with
      | nil =>
        have e1 : a = ln := (List.cons.inj h).1
        have e2 : rest = [] := (List.cons.inj h).2
        rw [g3 e2]
        exact h5 k t (e1 ▸ hd)
      | cons b pre1 =>
        exact g4 pre1 ln k t (List.cons.inj h).2 hd

/-- The function `G()` on a buffer that holds `<k> <text>` for a number from
`12 * R` on: the store `m[l]=...` is behind the last slot of the array. -/
theorem G_behind (st : State) (k : Nat) (t tail : Text) (hk : 12 * R ≤ k)
    (hk2 : k ≤ 2147483647) (ht : ∀ c ∈ t, c ≠ NUL)
    (hB : st.B = (natDec k ++ ' ' :: t) ++ NUL :: tail) :
    G st = .fault .bounds := by
  have hnul : ∀ c ∈ natDec k ++ ' ' :: t, c ≠ NUL := by
    intro c hc
    rcases List.mem_append.1 hc with h | h
    · exact natDec_ne_NUL k c h
    · rcases List.mem_cons.1 h with h | h
      · subst h; decide
      · exact ht c h
  have hc0 : cstr st.B 0 = natDec k ++ ' ' :: t := by
    rw [hB, cstr_append_nul _ _ hnul 0 (Nat.zero_le _)]; rfl
  have hat : atoi (natDec k ++ ' ' :: t) = Int.ofNat k :=
    atoi_natDec k _ (fun c r h => by rw [(List.cons.inj h).1.symm]; rfl) hk2
  unfold G
  simp only [hc0, hat]
  rw [if_pos (Or.inr (by unfold R at hk ⊢; simp only [Int.ofNat_eq_coe]; omega))]

/-! ### The expansion of tabs -/

theorem advance_eq : ∀ (k : Nat) (col : Int), 0 ≤ col → col + k ≤ 2147483647 →
    advance k col = col + k := by
  intro k
  induction k with
  | zero => intro col _ _; simp [advance]
  | succ k ih =>
    intro col h0 h1
    have hw : wrap (col + 1) = col + 1 := by
      push_cast at h1
      unfold wrap; omega
    rw [advance, hw, ih (col + 1) (by omega) (by push_cast at h1 ⊢; omega)]
    push_cast
    ring

theorem reach_ge (c : Nat) : ∀ (inp : Text) (col : Nat), col ≤ reach c col inp := by
  intro inp
  cases inp with
  | nil => intro col; exact le_refl _
  | cons ch rest => intro col; exact le_max_left _ _

/-- The next multiple of `c` above `col`. -/
theorem next_multiple (c col : Nat) (hc : 1 ≤ c) :
    col < (col / c + 1) * c ∧ (col / c + 1) * c ≤ col + c ∧ c ∣ (col / c + 1) * c ∧
      ∀ m, col < m → c ∣ m → (col / c + 1) * c ≤ m := by
  have h1 : col / c * c ≤ col := Nat.div_mul_le_self col c
  have h2 : col < col / c * c + c := Nat.lt_div_mul_add (by omega)
  have e : (col / c + 1) * c = col / c * c + c := by ring
  refine ⟨by omega, by omega, Dvd.intro_left _ rfl, ?_⟩
  rintro m hm ⟨j, rfl⟩
  have hj : col / c < j := by
    by_contra hle
    have : c * j ≤ c * (col / c) := Nat.mul_le_mul_left c (by omega)
    have e2 : c * (col / c) = col / c * c := Nat.mul_comm _ _
    omega
  calc (col / c + 1) * c ≤ j * c := Nat.mul_le_mul_right c hj
    _ = c * j := Nat.mul_comm _ _

/-- While the column stays within an `int`, the loop of `main` writes the
expansion the usage text describes. -/
theorem expand_expanded (c : Nat) (hc : 1 ≤ c) : ∀ (inp : Text) (col : Nat),
    reach c col inp + c ≤ 2147483647 →
    expand (Int.ofNat c) (Int.ofNat col) inp = .ok (expanded c col inp) := by
  intro inp
  induction inp with
  | nil => intro col _; rfl
  | cons ch rest ih =>
    intro col hfit
    have hr : reach c col (ch :: rest) = max col (reach c (nextColumn c col ch) rest) := rfl
    have hcol : col + c ≤ 2147483647 := by
      have := le_max_left col (reach c (nextColumn c col ch) rest)
      omega
    have hrest : reach c (nextColumn c col ch) rest + c ≤ 2147483647 := by
      have := le_max_right col (reach c (nextColumn c col ch) rest)
      omega
    have hnext := reach_ge c rest (nextColumn c col ch)
    by_cases ht : ch = '\t'
    · subst ht
      obtain ⟨n1, n2, _, _⟩ := next_multiple c col hc
      have hN : nextColumn c col '\t' = (col / c + 1) * c := rfl
      rw [hN] at hrest hnext
      have hq : cdiv (Int.ofNat col) (Int.ofNat c) = .ok (Int.ofNat (col / c)) := by
        unfold cdiv
        rw [if_neg (by simp only [Int.ofNat_eq_coe]; omega),
          if_neg (by simp only [Int.ofNat_eq_coe]; omega)]
        rfl
      have hmul : (Int.ofNat (col / c) + 1) * Int.ofNat c = Int.ofNat ((col / c + 1) * c) := by
        simp only [Int.ofNat_eq_coe]
        push_cast
        ring
      generalize hNv : (col / c + 1) * c = N at n1 n2 hrest hnext hmul
      have hw1 : wrap (Int.ofNat (col / c) + 1) = Int.ofNat (col / c) + 1 := by
        have hle : col / c ≤ col := Nat.div_le_self _ _
        generalize col / c = q at hle
        simp only [Int.ofNat_eq_coe]
        unfold wrap; omega
      have hw2 : wrap (Int.ofNat N) = Int.ofNat N := by
        simp only [Int.ofNat_eq_coe]
        unfold wrap; omega
      have hw3 : wrap (Int.ofNat N - Int.ofNat col) = Int.ofNat (N - col) := by
        simp only [Int.ofNat_eq_coe]
        unfold wrap; omega
      have hadv : advance (N - col) (Int.ofNat col) = Int.ofNat N := by
        rw [advance_eq _ _ (by simp) (by simp only [Int.ofNat_eq_coe]; omega)]
        simp only [Int.ofNat_eq_coe]
        omega
      have e1 : expand (Int.ofNat c) (Int.ofNat col) ('\t' :: rest)
          = (cdiv (Int.ofNat col) (Int.ofNat c)).bind fun q =>
            (expand (Int.ofNat c)
                (advance (wrap (wrap (wrap (q + 1) * Int.ofNat c) - Int.ofNat col)).toNat
                  (Int.ofNat col)) rest).bind
              fun out =>
                .ok (List.replicate
                  (wrap (wrap (wrap (q + 1) * Int.ofNat c) - Int.ofNat col)).toNat ' ' ++ out) := by
        rw [expand, if_pos rfl]
      have e2 : expanded c col ('\t' :: rest)
          = List.replicate (N - col) ' ' ++ expanded c N rest := by
        rw [expanded, if_pos rfl, hN, hNv]
      have htn : (Int.ofNat (N - col)).toNat = N - col := rfl
      rw [e1, hq, bind_ok, hw1, hmul, hw2, hw3, htn, hadv, ih N hrest, bind_ok, e2]
    · by_cases hn : ch = '\n'
      · subst hn
        have hN : nextColumn c col '\n' = 0 := rfl
        rw [hN] at hrest
        have e1 : expand (Int.ofNat c) (Int.ofNat col) ('\n' :: rest)
            = (expand (Int.ofNat c) 0 rest).bind fun out => .ok ('\n' :: out) := by
          rw [expand, if_neg (by decide), if_pos rfl]
        have e2 : expanded c col ('\n' :: rest) = '\n' :: expanded c 0 rest := by
          rw [expanded, if_neg (by decide), hN]
        rw [e1, e2]
        have := ih 0 hrest
        rw [show Int.ofNat 0 = 0 from rfl] at this
        rw [this, bind_ok]
      · have hN : nextColumn c col ch = col + 1 := by
          unfold nextColumn; rw [if_neg ht, if_neg hn]
        rw [hN] at hrest hnext
        have hw : wrap (Int.ofNat col + 1) = Int.ofNat (col + 1) := by
          simp only [Int.ofNat_eq_coe]
          push_cast
          unfold wrap; omega
        have e1 : expand (Int.ofNat c) (Int.ofNat col) (ch :: rest)
            = (expand (Int.ofNat c) (wrap (Int.ofNat col + 1)) rest).bind
                fun out => .ok (ch :: out) := by
          rw [expand, if_neg ht, if_neg hn]
        have e2 : expanded c col (ch :: rest) = ch :: expanded c (col + 1) rest := by
          rw [expanded, if_neg ht, hN]
        rw [e1, e2, hw, ih (col + 1) hrest, bind_ok]

theorem expanded_no_tab (c : Nat) : ∀ (inp : Text) (col : Nat), '\t' ∉ expanded c col inp := by
  intro inp
  induction inp with
  | nil => intro col h; cases h
  | cons ch rest ih =>
    intro col h
    unfold expanded at h
    split at h
    · rcases List.mem_append.1 h with h1 | h1
      · have := List.eq_of_mem_replicate h1
        exact absurd this (by decide)
      · exact ih _ h1
    · rename_i ht
      rcases List.mem_cons.1 h with h1 | h1
      · exact ht h1.symm
      · exact ih _ h1

theorem advance_wrap : ∀ (k : Nat) (col : Int), wrap col = col →
    advance k col = wrap (col + k) := by
  intro k
  induction k with
  | zero => intro col h; simpa [advance] using h.symm
  | succ k ih =>
    intro col h
    have hw : wrap (wrap (col + 1)) = wrap (col + 1) := by unfold wrap; omega
    rw [advance, ih _ hw]
    push_cast
    unfold wrap; omega

/-- A run of `n` plain characters is copied and moves the column `n` times. -/
theorem expand_plain (c : Int) (x : Char) (hx1 : x ≠ '\t') (hx2 : x ≠ '\n') (rest : Text) :
    ∀ (n : Nat) (col : Int),
      expand c col (List.replicate n x ++ rest)
        = (expand c (advance n col) rest).bind fun out => .ok (List.replicate n x ++ out) := by
  intro n
  induction n with
  | zero =>
    intro col
    show expand c col rest = (expand c col rest).bind fun out => .ok out
    cases expand c col rest <;> rfl
  | succ n ih =>
    intro col
    have e : List.replicate (n + 1) x ++ rest = x :: (List.replicate n x ++ rest) := rfl
    rw [e, expand, if_neg hx1, if_neg hx2, ih]
    show _ = (expand c (advance n (wrap (col + 1))) rest).bind _
    cases expand c (advance n (wrap (col + 1))) rest <;> rfl

theorem expanded_plain (c : Nat) (x : Char) (hx1 : x ≠ '\t') (hx2 : x ≠ '\n') (rest : Text) :
    ∀ (n col : Nat),
      expanded c col (List.replicate n x ++ rest)
        = List.replicate n x ++ expanded c (col + n) rest := by
  intro n
  induction n with
  | zero => intro col; rfl
  | succ n ih =>
    intro col
    have e : List.replicate (n + 1) x ++ rest = x :: (List.replicate n x ++ rest) := rfl
    have hN : nextColumn c col x = col + 1 := by
      unfold nextColumn; rw [if_neg hx1, if_neg hx2]
    rw [e, expanded, if_neg hx1, hN, ih, show col + 1 + n = col + (n + 1) by omega]
    rfl

theorem expanded_filter (c : Nat) : ∀ (inp : Text) (col : Nat),
    (expanded c col inp).filter (fun x => x != ' ')
      = inp.filter (fun x => x != ' ' && x != '\t') := by
  intro inp
  induction inp with
  | nil => intro col; rfl
  | cons ch rest ih =>
    intro col
    unfold expanded
    split
    · rename_i ht
      subst ht
      rw [List.filter_append, ih]
      have : (List.replicate (nextColumn c col '\t' - col) ' ').filter (fun x => x != ' ')
          = [] := by
        rw [List.filter_eq_nil_iff]
        intro a ha
        rw [List.eq_of_mem_replicate ha]
        decide
      rw [this]
      rfl
    · rename_i ht
      by_cases hs : ch = ' '
      · subst hs
        simp only [List.filter_cons, ih]
        rfl
      · have h1 : (ch != ' ') = true := by simpa using hs
        have h2 : (ch != '\t') = true := by simpa using ht
        simp only [List.filter_cons, ih, h1, h2, Bool.and_self, if_true]

/-! ### The rewriting of the operators and the removal of blanks -/

theorem Uloop_cons (y0 y1 z a : Char) (hz : z ∉ [y0, y1]) (hsp : ' ' ∉ [y0, y1]) :
    ∀ (n : Nat) (s : Text), [y0, y1].isPrefixOf (a :: s) = false →
      Uloop n (a :: s) [y0, y1] z = a :: Uloop n s [y0, y1] z := by
  intro n
  induction n with
  | zero => intro s _; rfl
  | succ n ih =>
    intro s hp
    have hQ : Q (a :: s) [y0, y1] = (Q s [y0, y1]).map (fun i => i + 1) := by
      have e : Q (a :: s) [y0, y1]
          = if [y0, y1] ≠ [] ∧ [y0, y1].isPrefixOf (a :: s) = true then some 0
            else (Q s [y0, y1]).map (fun i => i + 1) := rfl
      rw [e, if_neg (by rw [hp]; simp)]
    have e1 : Uloop (n + 1) (a :: s) [y0, y1] z
        = match Q (a :: s) [y0, y1] with
          | none => a :: s
          | some i => Uloop n (((a :: s).set i z).set (i + 1) ' ') [y0, y1] z := rfl
    have e2 : Uloop (n + 1) s [y0, y1] z
        = match Q s [y0, y1] with
          | none => s
          | some i => Uloop n ((s.set i z).set (i + 1) ' ') [y0, y1] z := rfl
    rw [e1, e2, hQ]
    cases Q s [y0, y1] with
    | none => rfl
    | some i =>
      show Uloop n (((a :: s).set (i + 1) z).set (i + 1 + 1) ' ') [y0, y1] z = _
      rw [List.set_cons_succ, List.set_cons_succ]
      apply ih
      cases hh : [y0, y1].isPrefixOf (a :: (s.set i z).set (i + 1) ' ') with
      | false => rfl
      | true =>
        have h1 : [y0, y1].isPrefixOf ((a :: s.set i z).set (i + 1 + 1) ' ') = true := by
          rw [List.set_cons_succ]; exact hh
        have h2 := isPrefixOf_set ' ' _ _ _ hsp h1
        have h3 : [y0, y1].isPrefixOf ((a :: s).set (i + 1) z) = true := by
          rw [List.set_cons_succ]; exact h2
        have h4 := isPrefixOf_set z _ _ _ hz h3
        rw [hp] at h4
        cases h4

theorem Uloop_pair (y0 y1 z : Char) (hz : z ∉ [y0, y1]) (hsp : ' ' ∉ [y0, y1]) (n : Nat)
    (r : Text) :
    Uloop (n + 1) (y0 :: y1 :: r) [y0, y1] z = z :: ' ' :: Uloop n r [y0, y1] z := by
  have hQ : Q (y0 :: y1 :: r) [y0, y1] = some 0 := by
    have e : Q (y0 :: y1 :: r) [y0, y1]
        = if [y0, y1] ≠ [] ∧ [y0, y1].isPrefixOf (y0 :: y1 :: r) = true then some 0
          else (Q (y1 :: r) [y0, y1]).map (fun i => i + 1) := rfl
    rw [e, if_pos (by simp [List.isPrefixOf])]
  have hz0 : z ≠ y0 := fun e => hz (by rw [e]; exact List.mem_cons_self _ _)
  have hs0 : ' ' ≠ y0 := fun e => hsp (by rw [e]; exact List.mem_cons_self _ _)
  have e1 : Uloop (n + 1) (y0 :: y1 :: r) [y0, y1] z
      = match Q (y0 :: y1 :: r) [y0, y1] with
        | none => y0 :: y1 :: r
        | some i => Uloop n (((y0 :: y1 :: r).set i z).set (i + 1) ' ') [y0, y1] z := rfl
  rw [e1, hQ]
  show Uloop n (z :: ' ' :: r) [y0, y1] z = _
  rw [Uloop_cons y0 y1 z z hz hsp n _ (by simp [List.isPrefixOf, Ne.symm hz0]),
    Uloop_cons y0 y1 z ' ' hz hsp n _ (by simp [List.isPrefixOf, Ne.symm hs0])]

/-- The loop of the macro `U` is one pass from left to right. -/
theorem Uloop_eq_Upass (y0 y1 z : Char) (hz : z ∉ [y0, y1]) (hsp : ' ' ∉ [y0, y1]) :
    ∀ (L : Nat) (s : Text), s.length ≤ L → ∀ n, s.length ≤ n →
      Uloop n s [y0, y1] z = Upass y0 y1 z s := by
  intro L
  induction L with
  | zero =>
    intro s hs n _
    have : s = [] := List.length_eq_zero.1 (by omega)
    subst this
    cases n <;> simp [Uloop, Upass, Q]
  | succ L ih =>
    intro s hs n hn
    cases s with
    | nil => cases n <;> simp [Uloop, Upass, Q]
    | cons a t =>
      cases t with
      | nil =>
        rw [Uloop_cons y0 y1 z a hz hsp n [] (by simp [List.isPrefixOf])]
        have : Uloop n [] [y0, y1] z = [] := by cases n <;> simp [Uloop, Q]
        rw [this]
        simp [Upass]
      | cons b r =>
        by_cases hab : a = y0 ∧ b = y1
        · obtain ⟨rfl, rfl⟩ := hab
          obtain ⟨k, rfl⟩ : ∃ k, n = k + 1 := ⟨n - 1, by simp at hn; omega⟩
          rw [Uloop_pair a b z hz hsp k r, ih r (by simp at hs; omega) k (by simp at hn; omega)]
          simp [Upass]
        · have hp : [y0, y1].isPrefixOf (a :: b :: r) = false := by
            simp only [List.isPrefixOf, Bool.and_true, Bool.and_eq_false_imp, beq_iff_eq]
            intro h1
            simp only [beq_eq_false_iff_ne, ne_eq]
            intro h2
            exact hab ⟨h1.symm, h2.symm⟩
          rw [Uloop_cons y0 y1 z a hz hsp n _ hp,
            ih (b :: r) (by simp at hs ⊢; omega) n (by simp at hn ⊢; omega)]
          conv_rhs => rw [Upass]
          rw [if_neg hab]

theorem U_eq_Upass (y0 y1 z : Char) (hz : z ∉ [y0, y1]) (hsp : ' ' ∉ [y0, y1]) (s : Text) :
    U s [y0, y1] z = Upass y0 y1 z s :=
  Uloop_eq_Upass y0 y1 z hz hsp s.length s (le_refl _) s.length (le_refl _)

theorem Upass_pair (y0 y1 z : Char) (r : Text) :
    Upass y0 y1 z (y0 :: y1 :: r) = z :: ' ' :: Upass y0 y1 z r := by
  rw [Upass, if_pos ⟨rfl, rfl⟩]

theorem Upass_cons (y0 y1 z a : Char) (s : Text) (h : ∀ r, s = y1 :: r → a ≠ y0) :
    Upass y0 y1 z (a :: s) = a :: Upass y0 y1 z s := by
  cases s with
  | nil => simp [Upass]
  | cons b r =>
    rw [Upass, if_neg]
    rintro ⟨h1, h2⟩
    exact h r (by rw [h2]) h1

theorem head_Upass (y0 y1 z c : Char) (s w : Text) (h : Upass y0 y1 z s = c :: w) :
    c = z ∨ ∃ v, s = c :: v := by
  cases s with
  | nil => simp [Upass] at h
  | cons a t =>
    cases t with
    | nil =>
      simp only [Upass, List.cons.injEq] at h
      exact Or.inr ⟨[], by rw [h.1]⟩
    | cons b r =>
      rw [Upass] at h
      split at h
      · exact Or.inl (List.cons.inj h).1.symm
      · exact Or.inr ⟨b :: r, by rw [(List.cons.inj h).1]⟩

theorem mem_Upass (y0 y1 z x : Char) : ∀ (L : Nat) (s : Text), s.length ≤ L →
    x ∈ Upass y0 y1 z s → x = z ∨ x = ' ' ∨ x ∈ s := by
  intro L
  induction L with
  | zero =>
    intro s hs h
    have : s = [] := List.length_eq_zero.1 (by omega)
    subst this
    simp [Upass] at h
  | succ L ih =>
    intro s hs h
    cases s with
    | nil => simp [Upass] at h
    | cons a t =>
      cases t with
      | nil =>
        simp only [Upass] at h
        exact Or.inr (Or.inr h)
      | cons b r =>
        rw [Upass] at h
        split at h
        · rcases List.mem_cons.1 h with h1 | h1
          · exact Or.inl h1
          · rcases List.mem_cons.1 h1 with h2 | h2
            · exact Or.inr (Or.inl h2)
            · rcases ih r (by simp at hs; omega) h2 with h3 | h3 | h3
              · exact Or.inl h3
              · exact Or.inr (Or.inl h3)
              · exact Or.inr (Or.inr (by simp [h3]))
        · rcases List.mem_cons.1 h with h1 | h1
          · exact Or.inr (Or.inr (by simp [h1]))
          · rcases ih (b :: r) (by simp at hs ⊢; omega) h1 with h3 | h3 | h3
            · exact Or.inl h3
            · exact Or.inr (Or.inl h3)
            · exact Or.inr (Or.inr (List.mem_cons_of_mem _ h3))

/-- In a line without a double quote the rewriting at the head of the run loop
is the three passes. -/
theorem sentinels_eq_passes (s : Text) (hq : '"' ∉ s) : sentinels s = passes s := by
  unfold sentinels passes
  rw [if_pos (Q_none_of_not_mem s '"' [] hq),
    U_eq_Upass '<' '>' '#' (by decide) (by decide),
    U_eq_Upass '<' '=' '$' (by decide) (by decide),
    U_eq_Upass '>' '=' '!' (by decide) (by decide)]

theorem passes_no_quote (s : Text) (hq : '"' ∉ s) : '"' ∉ passes s := by
  intro h
  unfold passes at h
  rcases mem_Upass _ _ _ _ _ _ (le_refl _) h with h1 | h1 | h1
  · exact absurd h1 (by decide)
  · exact absurd h1 (by decide)
  · rcases mem_Upass _ _ _ _ _ _ (le_refl _) h1 with h2 | h2 | h2
    · exact absurd h2 (by decide)
    · exact absurd h2 (by decide)
    · rcases mem_Upass _ _ _ _ _ _ (le_refl _) h2 with h3 | h3 | h3
      · exact absurd h3 (by decide)
      · exact absurd h3 (by decide)
      · exact hq h3

theorem passes_ne (s : Text) : passes ('<' :: '>' :: s) = '#' :: ' ' :: passes s := by
  unfold passes
  rw [Upass_pair,
    Upass_cons '<' '=' '$' '#' _ (fun _ _ => by decide),
    Upass_cons '<' '=' '$' ' ' _ (fun _ _ => by decide),
    Upass_cons '>' '=' '!' '#' _ (fun _ _ => by decide),
    Upass_cons '>' '=' '!' ' ' _ (fun _ _ => by decide)]

theorem passes_le (s : Text) : passes ('<' :: '=' :: s) = '$' :: ' ' :: passes s := by
  unfold passes
  rw [Upass_cons '<' '>' '#' '<' _ (fun r h => by cases h),
    Upass_cons '<' '>' '#' '=' _ (fun _ _ => by decide),
    Upass_pair,
    Upass_cons '>' '=' '!' '$' _ (fun _ _ => by decide),
    Upass_cons '>' '=' '!' ' ' _ (fun _ _ => by decide)]

theorem passes_ge (s : Text) : passes ('>' :: '=' :: s) = '!' :: ' ' :: passes s := by
  unfold passes
  rw [Upass_cons '<' '>' '#' '>' _ (fun _ _ => by decide),
    Upass_cons '<' '>' '#' '=' _ (fun _ _ => by decide),
    Upass_cons '<' '=' '$' '>' _ (fun _ _ => by decide),
    Upass_cons '<' '=' '$' '=' _ (fun _ _ => by decide),
    Upass_pair]

/-- A character that starts none of the three operators with its successor
stays where it is. -/
theorem passes_cons (a : Char) (s : Text)
    (h1 : ∀ r, s = '>' :: r → a ≠ '<') (h2 : ∀ r, s = '=' :: r → a ≠ '<')
    (h3 : ∀ r, s = '=' :: r → a ≠ '>') :
    passes (a :: s) = a :: passes s := by
  unfold passes
  rw [Upass_cons '<' '>' '#' a s h1,
    Upass_cons '<' '=' '$' a _ (fun r hr => by
      rcases head_Upass _ _ _ _ _ _ hr with e | ⟨v, e⟩
      · exact absurd e (by decide)
      · exact h2 v e),
    Upass_cons '>' '=' '!' a _ (fun r hr => by
      rcases head_Upass _ _ _ _ _ _ hr with e | ⟨v, e⟩
      · exact absurd e (by decide)
      · rcases head_Upass _ _ _ _ _ _ e with e1 | ⟨v1, e1⟩
        · exact absurd e1 (by decide)
        · exact h3 v1 e1)]

theorem tight_tail (a : Char) (s : Text) (h : tight (a :: s) = true) : tight s = true := by
  cases s with
  | nil => rfl
  | cons b r =>
    rw [tight, Bool.and_eq_true] at h
    exact h.2

theorem rewritten_cons (a : Char) (s : Text)
    (h1 : ∀ r, s = '>' :: r → a ≠ '<') (h2 : ∀ r, s = '=' :: r → a ≠ '<')
    (h3 : ∀ r, s = '=' :: r → a ≠ '>') :
    rewritten (a :: s) = a :: rewritten s := by
  cases s with
  | nil => simp [rewritten]
  | cons b r =>
    rw [rewritten, if_neg, if_neg, if_neg]
    · rintro ⟨e1, e2⟩; exact h3 r (by rw [e2]) e1
    · rintro ⟨e1, e2⟩; exact h2 r (by rw [e2]) e1
    · rintro ⟨e1, e2⟩; exact h1 r (by rw [e2]) e1

/-- Where no `<` or `>` is directly followed by a blank, rewriting the
operators in place and deleting the blanks then gives what deleting the blanks
and rewriting each operator to its sentinel then gives. -/
theorem passes_filter : ∀ (L : Nat) (s : Text), s.length ≤ L → tight s = true →
    (passes s).filter (fun c => !(c == ' ' || c == '\t')) = specText s := by
  intro L
  induction L with
  | zero =>
    intro s hs _
    have : s = [] := List.length_eq_zero.1 (by omega)
    subst this
    rfl
  | succ L ih =>
    intro s hs ht
    cases s with
    | nil => rfl
    | cons a t =>
      by_cases hA : a = '<' ∧ ∃ r, t = '>' :: r
      · obtain ⟨rfl, r, rfl⟩ := hA
        have := ih r (by simp at hs; omega) (tight_tail _ _ (tight_tail _ _ ht))
        unfold specText at this ⊢
        rw [passes_ne]
        simp only [List.filter_cons] at this ⊢
        simp only [this, rewritten]
        simp
      by_cases hB : a = '<' ∧ ∃ r, t = '=' :: r
      · obtain ⟨rfl, r, rfl⟩ := hB
        have := ih r (by simp at hs; omega) (tight_tail _ _ (tight_tail _ _ ht))
        unfold specText at this ⊢
        rw [passes_le]
        simp only [List.filter_cons] at this ⊢
        simp only [this, rewritten]
        simp
      by_cases hC : a = '>' ∧ ∃ r, t = '=' :: r
      · obtain ⟨rfl, r, rfl⟩ := hC
        have := ih r (by simp at hs; omega) (tight_tail _ _ (tight_tail _ _ ht))
        unfold specText at this ⊢
        rw [passes_ge]
        simp only [List.filter_cons] at this ⊢
        simp only [this, rewritten]
        simp
      have h1 : ∀ r, t = '>' :: r → a ≠ '<' := fun r hr e => hA ⟨e, r, hr⟩
      have h2 : ∀ r, t = '=' :: r → a ≠ '<' := fun r hr e => hB ⟨e, r, hr⟩
      have h3 : ∀ r, t = '=' :: r → a ≠ '>' := fun r hr e => hC ⟨e, r, hr⟩
      have iht := ih t (by simp at hs; omega) (tight_tail _ _ ht)
      rw [passes_cons a t h1 h2 h3]
      unfold specText at iht ⊢
      by_cases hb : a = ' ' ∨ a = '\t'
      · have e : (!(a == ' ' || a == '\t')) = false := by
          rcases hb with e | e <;> subst e <;> rfl
        rw [List.filter_cons, List.filter_cons, e]
        simpa using iht
      · have e : (!(a == ' ' || a == '\t')) = true := by
          have := not_or.1 hb
          simp [this.1, this.2]
        rw [List.filter_cons, List.filter_cons, e]
        simp only [if_true]
        rw [iht]
        symm
        have hhead : ∀ (x : Char) (w : Text),
            t.filter (fun c => !(c == ' ' || c == '\t')) = x :: w → (a = '<' ∨ a = '>') →
            ∃ v, t = x :: v := by
          intro x w hw ha
          cases t with
          | nil => simp at hw
          | cons b r =>
            rw [tight, Bool.and_eq_true] at ht
            have hbb : (!(b == ' ' || b == '\t')) = true := by
              have h5 := ht.1
              rcases ha with e | e <;> subst e <;> simpa using h5
            rw [List.filter_cons, hbb] at hw
            simp only [if_true] at hw
            exact ⟨r, by rw [(List.cons.inj hw).1]⟩
        apply rewritten_cons
        · intro r hr e
          obtain ⟨v, hv⟩ := hhead _ _ hr (Or.inl e)
          exact h1 v hv e
        · intro r hr e
          obtain ⟨v, hv⟩ := hhead _ _ hr (Or.inl e)
          exact h2 v hv e
        · intro r hr e
          obtain ⟨v, hv⟩ := hhead _ _ hr (Or.inr e)
          exact h3 v hv e

/-- The text the executor dispatches on, for a line without a double quote: the
operators rewritten in place, the blanks deleted then. -/
theorem strip_sentinels (s : Text) (hq : '"' ∉ s) :
    strip (sentinels s) 0 = (passes s).filter (fun c => !(c == ' ' || c == '\t')) := by
  rw [sentinels_eq_passes s hq, strip_filter _ (passes_no_quote s hq)]

/-! ### A loop whose start is above its limit -/

/-- The body `20 PRINT I` / `30 NEXT I` entered with `I = a` above the limit
`b`: it prints `a` once and the run ends with `I = a + 1`. -/
theorem loop_body_once (sF : Text) (a b : Int) (hab : b < a) (ha1 : -2147483648 ≤ a)
    (ha2 : a < 2147483647) (st : State) (n : Nat) (E : List Int)
    (hm : Holds3 st.m sF "PRINT I".data "NEXT I".data) (hP : st.P 73 = a) (hM : st.M 73 = b) :
    ∃ st1, loop (n + 4) st 11 E = .ok st1 ∧ st1.out = st.out ++ [fmtInt a] ∧
      st1.P 73 = a + 1 ∧ st1.inp = st.inp := by
  obtain ⟨st1, e1, m1, P1, M1, L1, o1, i1⟩ := step_print_I st E _ _ hm 11 (by decide) (by decide)
  obtain ⟨st2, e2, m2, P2, M2, L2, o2, i2⟩ :=
    step_next_I st1 E _ _ (by rw [m1]; exact hm) 21 (by decide) (by decide)
  have hw : wrap (st.P 73 + 1) = a + 1 := by rw [hP]; unfold wrap; omega
  rw [P1, M1, hw, hM, if_neg (by omega)] at e2
  rw [P1, hw] at P2
  obtain ⟨st3, e3, P3, o3, i3⟩ :=
    loop_end n st2 E _ _ _ (by rw [m2, m1]; exact hm) 31 (by decide) (by decide)
  refine ⟨st3, ?_, ?_, ?_, ?_⟩
  · rw [show n + 4 = (n + 3) + 1 by omega, loop_succ _ _ _ _ (by decide), e1]
    simp only [Res.bind]
    rw [loop_succ _ _ _ _ (by decide), e2]
    simp only [Res.bind]
    exact e3
  · rw [o3, o2, o1, hP]
  · rw [P3, P2]; simp
  · rw [i3, i2, i1]

/-- The run of `10 FOR I=<a> TO <b>` / `20 PRINT I` / `30 NEXT I` for `a > b`. -/
theorem run_for_once (a b : Int) (hb1 : -2147483648 ≤ b) (hab : b < a) (ha2 : a < 2147483647)
    (n : Nat) (st : State)
    (hm : Holds3 st.m ("FOR I=".data ++ fmtInt a ++ " TO ".data ++ fmtInt b)
      "PRINT I".data "NEXT I".data) :
    ∃ s4, run (n + 5) st = .ok s4 ∧ s4.out = st.out ++ [fmtInt a] ∧
      s4.P 73 = a + 1 ∧ s4.inp = st.inp := by
  unfold run
  generalize hst0 : ({ st with P := fun _ => 0 } : State) = st0
  have hm0 : Holds3 st0.m ("FOR I=".data ++ fmtInt a ++ " TO ".data ++ fmtInt b)
      "PRINT I".data "NEXT I".data := by
    rw [← hst0]; exact hm
  have ho0 : st0.out = st.out := by rw [← hst0]
  have hi0 : st0.inp = st.inp := by rw [← hst0]
  obtain ⟨B1, e1⟩ := stmt_for_I st0 10 [] a b (by omega) (by omega) hb1 (by omega)
  have hstep1 := step10 st0 [] _ _ _ hm0 1 (by decide) (by decide)
  rw [e1] at hstep1
  generalize hst1 : ({ prepared st0 10 ("FOR I=".data ++ fmtInt a ++ " TO ".data ++ fmtInt b) with
      B := B1,
      P := Function.update st0.P 73 a,
      M := Function.update st0.M 73 b,
      L := Function.update st0.L 73 (Int.ofNat 10) } : State) = st1 at hstep1
  have hm1 : st1.m = st0.m := by
    rw [← hst1]; exact prepared_m st0 10 _ (sentinels_for_I a b) hm0.1
  have hP1 : st1.P 73 = a := by rw [← hst1]; show Function.update st0.P 73 a 73 = a; simp
  have hM1 : st1.M 73 = b := by rw [← hst1]; show Function.update st0.M 73 b 73 = b; simp
  have ho1 : st1.out = st0.out := by rw [← hst1]; rfl
  have hi1 : st1.inp = st0.inp := by rw [← hst1]; rfl
  obtain ⟨s4, e4, o4, P4, i4⟩ := loop_body_once _ a b hab (by omega) ha2 st1 n []
    (by rw [hm1]; exact hm0) hP1 hM1
  refine ⟨s4, ?_, by rw [o4, ho1, ho0], P4, by rw [i4, hi1, hi0]⟩
  rw [show n + 5 = (n + 4) + 1 by omega, loop_succ _ _ _ _ (by decide), hstep1]
  simp only [Res.bind]
  exact e4

/-! ### What a run depends on -/

theorem gets_after (st : State) (o : List Text) (f : Text → Option Text) :
    gets (st.after o f) = (gets st).map fun sg => (sg.1.after o f, sg.2) := by
  unfold gets State.after
  simp only
  split
  · rfl
  · split <;> rfl

/-- A statement executes in the same way whatever was printed before and
whatever the files are. -/
theorem exec_after (st : State) (l : Int) (E : List Int) (d : Nat) (o : List Text)
    (f : Text → Option Text) :
    exec (st.after o f) l E d = (exec st l E d).map fun c => (c.1.after o f, c.2) := by
  have hB : (st.after o f).B = st.B := rfl
  have hP : (st.after o f).P = st.P := rfl
  have hM : (st.after o f).M = st.M := rfl
  have hL : (st.after o f).L = st.L := rfl
  unfold exec
  rw [hB, hP, hM, hL, gets_after]
  by_cases h1 : rd st.B 1 = '='
  · rw [if_pos h1, if_pos h1]
    cases eval st.B st.P 2 with
    | fault e => rfl
    | ok vp =>
      cases idx (rd st.B 0) with
      | fault e => rfl
      | ok i => rfl
  rw [if_neg h1, if_neg h1]
  by_cases hE : rd st.B 0 = 'E'
  · rw [if_pos hE, if_pos hE]; rfl
  rw [if_neg hE, if_neg hE]
  by_cases hR : rd st.B 0 = 'R'
  · rw [if_pos hR, if_pos hR]
    by_cases hMM : rd st.B 2 ≠ 'M'
    · rw [if_pos hMM, if_pos hMM]
      cases E <;> rfl
    · rw [if_neg hMM, if_neg hMM]; rfl
  rw [if_neg hR, if_neg hR]
  by_cases hI : rd st.B 0 = 'I'
  · rw [if_pos hI, if_pos hI]
    by_cases hN : rd st.B 1 = 'N'
    · rw [if_pos hN, if_pos hN]
      cases gets st with
      | fault e => rfl
      | ok sg =>
        have e1 : ((Res.ok sg : Res (State × Bool)).map fun sg => (sg.1.after o f, sg.2))
            = .ok (sg.1.after o f, sg.2) := rfl
        rw [e1, bind_ok, bind_ok]
        have hB2 : (sg.1.after o f).B = sg.1.B := rfl
        have hP2 : (sg.1.after o f).P = sg.1.P := rfl
        simp only [hB2, hP2]
        cases eval sg.1.B sg.1.P 0 with
        | fault e => rfl
        | ok vp =>
          cases idx (rd sg.1.B d) with
          | fault e => rfl
          | ok i => rfl
    · rw [if_neg hN, if_neg hN]
      cases Q (cstr st.B 0) ['T', 'H'] with
      | none => rfl
      | some q =>
        simp only
        cases eval (st.B.set q NUL) st.P 2 with
        | fault e => rfl
        | ok cp =>
          rw [bind_ok, bind_ok]
          by_cases hc : cp.1 ≠ 0
          · rw [if_pos hc, if_pos hc]
            cases eval (st.B.set q NUL) st.P (q + 4) with
            | fault e => rfl
            | ok tp => rfl
          · rw [if_neg hc, if_neg hc]; rfl
  rw [if_neg hI, if_neg hI]
  by_cases hPp : rd st.B 0 = 'P'
  · rw [if_pos hPp, if_pos hPp]
    by_cases hq : rd st.B 5 = '"'
    · rw [if_pos hq, if_pos hq]
      simp only [Res.map, State.after, List.append_assoc]
    · rw [if_neg hq, if_neg hq]
      cases eval st.B st.P 5 with
      | fault e => rfl
      | ok vp => simp only [Res.bind, Res.map, State.after, List.append_assoc]
  rw [if_neg hPp, if_neg hPp]
  by_cases hG : rd st.B 0 = 'G'
  · rw [if_pos hG, if_pos hG]
    by_cases hS : rd st.B 2 = 'S'
    · rw [if_pos hS, if_pos hS]
      by_cases hl : R ≤ E.length
      · rw [if_pos hl, if_pos hl]; rfl
      · rw [if_neg hl, if_neg hl]
        cases eval st.B st.P 5 with
        | fault e => rfl
        | ok vp => rfl
    · rw [if_neg hS, if_neg hS]
      cases eval st.B st.P 4 with
      | fault e => rfl
      | ok vp => rfl
  rw [if_neg hG, if_neg hG]
  by_cases hF : rd st.B 0 = 'F'
  · rw [if_pos hF, if_pos hF]
    cases Q (cstr st.B 0) ['T', 'O'] with
    | none => rfl
    | some q =>
      simp only
      cases eval (st.B.set q NUL) st.P 5 with
      | fault e => rfl
      | ok vp =>
        rw [bind_ok, bind_ok]
        cases idx (rd (st.B.set q NUL) 3) with
        | fault e => rfl
        | ok i =>
          rw [bind_ok, bind_ok]
          cases eval (st.B.set q NUL) (Function.update st.P i vp.1) (q + 2) with
          | fault e => rfl
          | ok wp => rfl
  rw [if_neg hF, if_neg hF]
  by_cases hN : rd st.B 0 = 'N'
  · rw [if_pos hN, if_pos hN]
    cases idx (rd st.B d) with
    | fault e => rfl
    | ok i =>
      rw [bind_ok, bind_ok]
      by_cases hc : wrap (st.P i + 1) ≤ st.M i
      · rw [if_pos hc, if_pos hc]; rfl
      · rw [if_neg hc, if_neg hc]; rfl
  rw [if_neg hN, if_neg hN]
  rfl

theorem stmt_after (st : State) (k : Nat) (s : Text) (E : List Int) (o : List Text)
    (f : Text → Option Text) :
    stmt (st.after o f) k s E = (stmt st k s E).map fun c => (c.1.after o f, c.2) := by
  unfold stmt
  split
  · rfl
  · exact exec_after (prepared st k s) _ E _ o f

theorem step_after (st : State) (l : Int) (E : List Int) (o : List Text)
    (f : Text → Option Text) :
    step (st.after o f) l E = (step st l E).map fun c => (c.1.after o f, c.2) := by
  have hm : (st.after o f).m = st.m := rfl
  unfold step
  rw [hm]
  split
  · rfl
  · cases skip st.m (12 * R - l.toNat) l.toNat with
    | fault e => rfl
    | ok k =>
      rw [bind_ok, bind_ok]
      cases st.m k with
      | none => rfl
      | some s =>
        simp only
        rw [stmt_after]
        cases stmt st k s E <;> rfl

theorem loop_after : ∀ (n : Nat) (st : State) (l : Int) (E : List Int) (o : List Text)
    (f : Text → Option Text),
    loop n (st.after o f) l E = (loop n st l E).map fun s => s.after o f := by
  intro n
  induction n with
  | zero => intro st l E o f; rfl
  | succ n ih =>
    intro st l E o f
    unfold loop
    split
    · rfl
    · rw [step_after]
      cases step st l E with
      | fault e => rfl
      | ok c =>
        show loop n (c.1.after o f) c.2.1 c.2.2 = _
        rw [ih]
        rfl

/-- What a run prints does not depend on what was printed before it, on the
files, or on the values the variables hold when it starts. -/
theorem run_after (n : Nat) (st : State) (o : List Text) (f : Text → Option Text)
    (P : Nat → Int) :
    run n { st with out := o ++ st.out, fs := f, P := P }
      = (run n st).map fun s => s.after o f :=
  loop_after n { st with P := fun _ => 0 } 1 [] o f

/-! ### The claims -/

/-- C1: for all integers a and b with a, b and a+b in the signed 32-bit range,
written as `%d` writes them (optional `-`, no leading zeros): typing
`10 A=<a>`, `20 B=<b>`, `30 PRINT A+B` and `RUN` at a fresh interpreter makes
the run print exactly one line, the numeral of a+b, between the prompts, and
the run halts (any bound of at least 9 on the length of the session is
enough). -/
theorem sum_program_prints_sum (a b : Int)
    (ha1 : -2147483648 ≤ a) (ha2 : a ≤ 2147483647)
    (hb1 : -2147483648 ≤ b) (hb2 : b ≤ 2147483647)
    (hs1 : -2147483648 ≤ a + b) (hs2 : a + b ≤ 2147483647) (n : Nat) (hn : 9 ≤ n) :
    printed (typed n ["10 A=".data ++ fmtInt a, "20 B=".data ++ fmtInt b,
        "30 PRINT A+B".data, "RUN".data])
      = .ok ["Ok".data, "Ok".data, "Ok".data, "Ok".data, fmtInt (a + b), "Ok".data] := by
  obtain ⟨k, rfl⟩ : ∃ k, n = k + 4 + 5 := ⟨n - 9, by omega⟩
  have hnul : ∀ (v : Char) (x : Int), v ≠ NUL → ∀ c ∈ v :: '=' :: fmtInt x, c ≠ NUL := by
    intro v x hv c hc
    rcases List.mem_cons.1 hc with h | h
    · rw [h]; exact hv
    · rcases List.mem_cons.1 h with h | h
      · rw [h]; decide
      · exact fmtInt_ne_NUL x c h
  have hla := fmtInt_length_le a ha1 ha2
  have hlb := fmtInt_length_le b hb1 hb2
  obtain ⟨st3, hm, ho, hi, hfin⟩ := typed3 (k + 4) ('A' :: '=' :: fmtInt a)
    ('B' :: '=' :: fmtInt b) "PRINT A+B".data (hnul 'A' a (by decide)) (hnul 'B' b (by decide))
    (by decide) (by simp only [List.length_cons]; omega) (by simp only [List.length_cons]; omega)
    (by decide)
  obtain ⟨s4, hrun, hout, hinp⟩ := run_sum a b ha1 ha2 hb1 hb2 k st3 hm
  have h := hfin s4 hrun (by rw [hinp, hi])
  have e : typed (k + 4 + 5) ["10 A=".data ++ fmtInt a, "20 B=".data ++ fmtInt b,
        "30 PRINT A+B".data, "RUN".data]
      = typed (k + 4 + 5) [natDec 10 ++ ' ' :: 'A' :: '=' :: fmtInt a,
          natDec 20 ++ ' ' :: 'B' :: '=' :: fmtInt b, natDec 30 ++ ' ' :: "PRINT A+B".data,
          "RUN".data] := rfl
  rw [e, h]
  show Res.ok (s4.out ++ ["Ok".data]) = _
  rw [hout, ho, wrap_of_range (a + b) hs1 hs2]
  rfl

/-- C1 at a = -7 and b = 12. -/
theorem sum_program_prints_sum_witness :
    printed (typed 9 ["10 A=".data ++ fmtInt (-7), "20 B=".data ++ fmtInt 12,
        "30 PRINT A+B".data, "RUN".data])
      = .ok ["Ok".data, "Ok".data, "Ok".data, "Ok".data, fmtInt (-7 + 12), "Ok".data] :=
  sum_program_prints_sum (-7) 12 (by decide) (by decide) (by decide)
    (by decide) (by decide) (by decide) 9 (by decide)

/-- C2: multiplication binds tighter than addition and parentheses override it.
With the statement `PRINT A+B*C` in the buffer the evaluator, started behind
the keyword, yields A+(B*C) in 32-bit arithmetic for all values of the
variables, and with `PRINT (A+B)*C` it yields (A+B)*C; the stored lines
`PRINT 2+3*4` and `PRINT (2+3)*4` print 14 and 20 under RUN. -/
theorem precedence_mul_over_add (P : Nat → Int) (tail : Text) :
    eval ("PRINTA+B*C".data ++ NUL :: tail) P 5
        = .ok (wrap (P 65 + wrap (P 66 * P 67)), 10) ∧
    eval ("PRINT(A+B)*C".data ++ NUL :: tail) P 5
        = .ok (wrap (wrap (P 65 + P 66) * P 67), 12) ∧
    printed (typed 9 ["10 PRINT 2+3*4".data, "RUN".data])
        = .ok ["Ok".data, "Ok".data, "14".data, "Ok".data] ∧
    printed (typed 9 ["10 PRINT (2+3)*4".data, "RUN".data])
        = .ok ["Ok".data, "Ok".data, "20".data, "Ok".data] :=
  ⟨rfl, rfl, by decide!, by decide!⟩

/-- C3, as stated, fails: with A=7, B=2, C=1 the evaluator does not give
`A-B-C` the value (A-B)-C = 4 but 6, and it gives `1<2<3` the value 0, not
the value 1 of (1<2)<3. -/
theorem left_grouping_fails :
    eval ("PRINT7-2-1".data ++ [NUL]) (fun _ => 0) 5 = .ok (6, 10) ∧
    wrap (wrap (7 - 2) - 1) = 4 ∧
    eval ("PRINT1<2<3".data ++ [NUL]) (fun _ => 0) 5 = .ok (0, 10) ∧
    printed (typed 9 ["10 PRINT 7-2-1".data, "20 PRINT 1<2<3".data, "RUN".data])
        = .ok ["Ok".data, "Ok".data, "Ok".data, "6".data, "0".data, "Ok".data] :=
  ⟨rfl, by decide, rfl, by decide!⟩

/-- C3, amended: operators of one precedence tier group right to left (the
right operand of an operator is the whole rest of the tier).  For all values
of A, B, C the evaluator gives `A-B-C` the value A-(B-C), and it gives `1<2<3`
the value of 1<(2<3), which is 0. -/
theorem right_grouping (P : Nat → Int) (tail : Text) :
    eval ("PRINTA-B-C".data ++ NUL :: tail) P 5
        = .ok (wrap (P 65 - wrap (P 66 - P 67)), 10) ∧
    eval ("PRINT1<2<3".data ++ [NUL]) (fun _ => 0) 5
        = .ok (if (1 : Int) < (if (2 : Int) < 3 then 1 else 0) then 1 else 0, 10) ∧
    (if (1 : Int) < (if (2 : Int) < 3 then 1 else 0) then 1 else 0) = (0 : Int) :=
  ⟨rfl, by decide, by decide⟩

/-- C4: each of the six comparisons written in a program line without quotes
evaluates during RUN to 1 when it holds and to 0 when it does not.  Whatever
the state, the slot and the call stack, the statement of the stored line
`PRINT A=B` (and likewise `<>`, `<`, `>`, `<=`, `>=`), after the rewriting of
the two-character operators, prints 1 or 0 accordingly and leaves the counter
and the stack alone; `PRINT 5<=5` prints 1 and `PRINT 5<4` prints 0. -/
theorem comparisons_yield_truth_values (st : State) (k : Nat) (E : List Int) :
    stmt st k "PRINT A=B".data E
      = .ok ({ prepared st k "PRINT A=B".data with
                out := st.out ++ [fmtInt (if st.P 65 = st.P 66 then 1 else 0)] },
             Int.ofNat k, E) ∧
    stmt st k "PRINT A<>B".data E
      = .ok ({ prepared st k "PRINT A<>B".data with
                out := st.out ++ [fmtInt (if st.P 65 = st.P 66 then 0 else 1)] },
             Int.ofNat k, E) ∧
    stmt st k "PRINT A<B".data E
      = .ok ({ prepared st k "PRINT A<B".data with
                out := st.out ++ [fmtInt (if st.P 65 < st.P 66 then 1 else 0)] },
             Int.ofNat k, E) ∧
    stmt st k "PRINT A>B".data E
      = .ok ({ prepared st k "PRINT A>B".data with
                out := st.out ++ [fmtInt (if st.P 65 > st.P 66 then 1 else 0)] },
             Int.ofNat k, E) ∧
    stmt st k "PRINT A<=B".data E
      = .ok ({ prepared st k "PRINT A<=B".data with
                out := st.out ++ [fmtInt (if st.P 65 ≤ st.P 66 then 1 else 0)] },
             Int.ofNat k, E) ∧
    stmt st k "PRINT A>=B".data E
      = .ok ({ prepared st k "PRINT A>=B".data with
                out := st.out ++ [fmtInt (if st.P 65 ≥ st.P 66 then 1 else 0)] },
             Int.ofNat k, E) ∧
    printed (typed 9 ["10 PRINT 5<=5".data, "20 PRINT 5<4".data, "RUN".data])
      = .ok ["Ok".data, "Ok".data, "Ok".data, "1".data, "0".data, "Ok".data] := by
  refine ⟨?_, ?_, ?_, ?_, ?_, ?_, by decide!⟩
  · rw [← cbool_beq]; rfl
  · rw [← cbool_bne]; rfl
  · rw [← cbool_decide]; rfl
  · rw [← cbool_decide]; rfl
  · rw [← cbool_decide]; rfl
  · rw [← cbool_decide]; rfl

/-- C5: for all integers a ≤ b in the signed 32-bit range with b below the
maximum, typing `10 FOR I=<a> TO <b>`, `20 PRINT I`, `30 NEXT I` and `RUN` at a
fresh interpreter makes the run print a, a+1, ..., b, one per line and in that
order, and halt with I equal to b+1 (any bound of at least 2(b-a)+9 on the
length of the session is enough); for a = 1 and b = 3 it prints 1, 2, 3. -/
theorem for_loop_counts (a b : Int) (ha : -2147483648 ≤ a) (hab : a ≤ b)
    (hb : b < 2147483647) (n : Nat) (hn : 2 * (b - a).toNat + 9 ≤ n) :
    (∃ st, typed n ["10 FOR I=".data ++ fmtInt a ++ " TO ".data ++ fmtInt b,
        "20 PRINT I".data, "30 NEXT I".data, "RUN".data] = .ok st ∧
      st.out = ["Ok".data, "Ok".data, "Ok".data, "Ok".data]
        ++ (List.range ((b - a).toNat + 1)).map (fun j => fmtInt (a + (j : Nat)))
        ++ ["Ok".data] ∧
      st.P ('I').toNat = b + 1) ∧
    printed (typed 15 ["10 FOR I=1 TO 3".data, "20 PRINT I".data, "30 NEXT I".data, "RUN".data])
      = .ok ["Ok".data, "Ok".data, "Ok".data, "Ok".data, "1".data, "2".data, "3".data,
          "Ok".data] := by
  refine ⟨?_, by decide!⟩
  obtain ⟨k, rfl⟩ : ∃ k, n = (k + 2 * (b - a).toNat + 4) + 5 :=
    ⟨n - (2 * (b - a).toNat + 9), by omega⟩
  have hla := fmtInt_length_le a ha (by omega)
  have hlb := fmtInt_length_le b (by omega) (by omega)
  have hnul : ∀ c ∈ "FOR I=".data ++ fmtInt a ++ " TO ".data ++ fmtInt b, c ≠ NUL := by
    intro c hc e
    subst e
    rcases List.mem_append.1 hc with h | h
    · rcases List.mem_append.1 h with h | h
      · rcases List.mem_append.1 h with h | h
        · exact absurd h (by decide)
        · exact fmtInt_not_mem a _ (by decide) (by decide) h
      · exact absurd h (by decide)
    · exact fmtInt_not_mem b _ (by decide) (by decide) h
  have hlen : ("FOR I=".data ++ fmtInt a ++ " TO ".data ++ fmtInt b).length < 900 := by
    simp only [List.length_append, List.length_cons, List.length_nil]
    omega
  obtain ⟨st3, hm, ho, hi, hfin⟩ := typed3 (k + 2 * (b - a).toNat + 4)
    ("FOR I=".data ++ fmtInt a ++ " TO ".data ++ fmtInt b) "PRINT I".data "NEXT I".data
    hnul (by decide) (by decide) hlen (by decide) (by decide)
  obtain ⟨s4, hrun, hout, hP, hinp⟩ := run_for a b ha hb (b - a).toNat (by omega) k st3 hm
  have h := hfin s4 hrun (by rw [hinp, hi])
  refine ⟨{ s4 with out := s4.out ++ ["Ok".data] }, ?_, ?_, hP⟩
  · rw [← h]
    rfl
  · show s4.out ++ ["Ok".data] = _
    rw [hout, ho]

/-- C5 at a = -1 and b = 1. -/
theorem for_loop_counts_witness :
    ∃ st, typed 13 ["10 FOR I=".data ++ fmtInt (-1) ++ " TO ".data ++ fmtInt 1,
        "20 PRINT I".data, "30 NEXT I".data, "RUN".data] = .ok st ∧
      st.out = ["Ok".data, "Ok".data, "Ok".data, "Ok".data]
        ++ (List.range (((1 : Int) - (-1)).toNat + 1)).map (fun j => fmtInt (-1 + (j : Nat)))
        ++ ["Ok".data] ∧
      st.P ('I').toNat = 1 + 1 :=
  (for_loop_counts (-1) 1 (by decide) (by decide) (by decide) 13 (by decide)).1

/-- C6: GOSUB pushes the current line and RETURN resumes right after it.  The
statement `GOSUB <t>` of slot `n` pushes `n` on the call stack (and sets the
counter so that the loop goes on at `t`); a round of the run loop that finds a
`RETURN` while `n` is on top of the stack pops it and leaves the counter at
`n + 1`; and from the counter `n + 1` the loop executes the statement of the
smallest stored line number greater than `n`.  The program `10 GOSUB 100` /
`20 PRINT 9` / `30 END` / `100 PRINT 1` / `110 RETURN` prints 1, then 9, and
halts. -/
theorem gosub_return_resumes (st : State) (n : Nat) (t : Int) (E : List Int)
    (ht1 : -2147483648 ≤ t) (ht2 : t ≤ 2147483647) (hE : E.length < R) (hn : n < 12 * R) :
    stmt st n ("GOSUB ".data ++ fmtInt t) E
      = .ok (prepared st n ("GOSUB ".data ++ fmtInt t), wrap (t - 1), Int.ofNat n :: E) ∧
    (∀ (st1 : State) (l : Int) (k : Nat) (E1 : List Int), 0 ≤ l → l.toNat ≤ k → k < 12 * R →
      st1.m k = some "RETURN".data → (∀ i, l.toNat ≤ i → i < k → st1.m i = none) →
      step st1 l (Int.ofNat n :: E1)
        = .ok (prepared st1 k "RETURN".data, Int.ofNat n + 1, E1)) ∧
    (∀ (st2 : State) (j : Nat) (s : Text) (E2 : List Int), n < j → j < 12 * R →
      st2.m j = some s → (∀ i, n < i → i < j → st2.m i = none) →
      step st2 (Int.ofNat n + 1) E2
        = (stmt st2 j s E2).bind fun c => .ok (c.1, wrap (c.2.1 + 1), c.2.2)) ∧
    printed (typed 20 ["10 GOSUB 100".data, "20 PRINT 9".data, "30 END".data,
        "100 PRINT 1".data, "110 RETURN".data, "RUN".data])
      = .ok ["Ok".data, "Ok".data, "Ok".data, "Ok".data, "Ok".data, "Ok".data,
          "1".data, "9".data, "Ok".data] := by
  refine ⟨stmt_gosub st n E t ht1 ht2 hE, ?_, ?_, by decide!⟩
  · intro st1 l k E1 h0 hl hk hs hnone
    rw [step_at st1 l _ k _ h0 hl hk hs hnone, stmt_return]
    have : wrap (Int.ofNat n + 1) = Int.ofNat n + 1 := by
      simp only [Int.ofNat_eq_coe]
      unfold R at hn
      unfold wrap; omega
    simp only [Res.bind, this]
  · intro st2 j s E2 hj1 hj2 hs hnone
    exact step_at st2 _ E2 j s (by simp only [Int.ofNat_eq_coe]; omega)
      (by simp only [Int.ofNat_eq_coe]; omega) hj2 hs
      (fun i hi1 hi2 => hnone i (by simp only [Int.ofNat_eq_coe] at hi1; omega) hi2)

/-- C6 at the line `10 GOSUB 100` of a fresh interpreter. -/
theorem gosub_return_resumes_witness :
    ([] : List Int).length < R ∧ 10 < 12 * R ∧
    stmt (init [] (fun _ => none)) 10 ("GOSUB ".data ++ fmtInt 100) []
      = .ok (prepared (init [] (fun _ => none)) 10 ("GOSUB ".data ++ fmtInt 100),
          wrap (100 - 1), [Int.ofNat 10]) :=
  ⟨by decide, by decide,
    (gosub_return_resumes (init [] (fun _ => none)) 10 100 [] (by decide) (by decide)
      (by decide) (by decide)).1⟩

/-- C7 fails on the code for targets behind the end marker: with only
`10 GOTO 11000` stored there is no stored line from 11000 on, yet the run does
not end: the loop `while(!(s=m[l]))l++` reads behind the last slot of `m`.  (A
target up to the marker is resolved as claimed, see `step_at` and
`loop_marker`: `10 GOTO 50` / `100 PRINT 7` prints 7.) -/
theorem jump_behind_marker_leaves_store :
    printed (typed 9 ["10 GOTO 11000".data, "RUN".data]) = .fault .bounds ∧
    printed (typed 9 ["10 GOTO 50".data, "100 PRINT 7".data, "RUN".data])
      = .ok ["Ok".data, "Ok".data, "Ok".data, "7".data, "Ok".data] :=
  ⟨by decide!, by decide!⟩

/-- C8 fails on the code at the 998-character bound: the line `1 AAA...A` of
998 characters is stored, saved as 999 bytes with its newline, and after NEW
the load command takes only 998 of them with `fgets(B,R,f)`, finds no newline
and writes through the null pointer `Q(B,"\n")`.  (With one character less the
store comes back, as it does whenever the saved lines fit, see
`reload_restores`: LIST prints the same before and after.) -/
theorem reload_of_longest_line_faults :
    printed (typed 9 ['1' :: ' ' :: List.replicate 996 'A', "SAVE x".data, "NEW".data,
        "OLD x".data]) = .fault .null ∧
    printed (typed 9 ['1' :: ' ' :: List.replicate 995 'A', "LIST".data, "SAVE x".data,
        "NEW".data, "LIST".data, "OLD x".data, "LIST".data])
      = .ok ["Ok".data, "Ok".data, '1' :: ' ' :: List.replicate 995 'A', "Ok".data, "Ok".data,
          "Ok".data, "Ok".data, "Ok".data, '1' :: ' ' :: List.replicate 995 'A', "Ok".data] :=
  ⟨by decide!, by decide!⟩

/-- C9: typing `<k> <text>` at the prompt, with `k` the numeral of a slot
number (any slot but the one of the end marker) and a text, empty or not, that
fits the buffer, makes the store map `k` to exactly that text, whatever slot
`k` held before, and leaves every other slot as it was. -/
theorem definition_stores_text (n : Nat) (st : State) (k : Nat) (t : Text) (rest : List Text)
    (hk : k < 12 * R) (hk2 : k ≠ 11 * R) (hnul : ∀ c ∈ t, c ≠ NUL)
    (hlen : (natDec k ++ ' ' :: t).length < R)
    (hinp : st.inp = (natDec k ++ ' ' :: t) :: rest) :
    ∃ st1, prompt n st = .ok (st1, false) ∧ st1.m k = some t ∧
      ∀ j, j ≠ k → st1.m j = st.m j := by
  refine ⟨_, prompt_define n st k t rest hk hk2 hnul hlen hinp, ?_, ?_⟩
  · show Function.update st.m k (some t) k = some t
    simp
  · intro j hj
    show Function.update st.m k (some t) j = st.m j
    simp [hj]

/-- C9 at the line `10 PRINT 1` typed at a fresh interpreter. -/
theorem definition_stores_text_witness :
    ∃ st1, prompt 0 (init ["10 PRINT 1".data] (fun _ => none)) = .ok (st1, false) ∧
      st1.m 10 = some "PRINT 1".data ∧
      ∀ j, j ≠ 10 → st1.m j = (init ["10 PRINT 1".data] (fun _ => none)).m j :=
  definition_stores_text 0 (init ["10 PRINT 1".data] (fun _ => none)) 10 "PRINT 1".data []
    (by decide) (by decide) (by decide) (by decide) rfl

/-- C10, as stated, fails: after `10 PRINT 1` and then `10` followed by a
single space, LIST prints a line numbered 10 (with empty text). -/
theorem number_and_space_keeps_entry :
    printed (typed 9 ["10 PRINT 1".data, "10 ".data, "LIST".data])
      = .ok ["Ok".data, "Ok".data, "Ok".data, "10 ".data, "Ok".data] := by
  decide!

/-- C10, amended: typing the bare number `<k>` leaves the store with no entry
for `k` (LIST prints no line numbered `k`, and the run loop never stops at
slot `k`), every other slot staying as it was; typing `<k>` followed by a
single space stores the empty text in slot `k`, which LIST prints as `<k> `. -/
theorem bare_number_deletes (n : Nat) (st : State) (k : Nat) (rest : List Text)
    (hk : k < 11 * R) :
    (st.inp = natDec k :: rest →
      ∃ st1, prompt n st = .ok (st1, false) ∧ st1.m k = none ∧
        (∀ j, j ≠ k → st1.m j = st.m j) ∧
        (∀ s, natDec k ++ ' ' :: s ∉ listing st1.m) ∧
        (∀ f l, skip st1.m f l ≠ .ok k)) ∧
    (st.inp = (natDec k ++ [' ']) :: rest →
      ∃ st1, prompt n st = .ok (st1, false) ∧ st1.m k = some [] ∧
        (∀ j, j ≠ k → st1.m j = st.m j) ∧
        natDec k ++ [' '] ∈ listing st1.m) := by
  have hk12 : k < 12 * R := by omega
  have hk11 : k ≠ 11 * R := by omega
  constructor
  · intro hinp
    have hm : Function.update st.m k none k = none := by simp
    refine ⟨_, prompt_delete n st k rest hk12 hk11 hinp, hm, ?_, ?_, ?_⟩
    · intro j hj
      show Function.update st.m k none j = st.m j
      simp [hj]
    · intro s hs
      obtain ⟨i, _, s1, h1, h2⟩ := (mem_listing _ _).1 hs
      have hik : k = i := natDec_space_inj k i s s1 h2
      subst hik
      have h3 : Function.update st.m k none k = some s1 := h1
      rw [hm] at h3
      cases h3
    · intro f l h
      have h3 := skip_isSome _ k f l h
      have h4 : (Function.update st.m k none k).isSome = true := h3
      rw [hm] at h4
      cases h4
  · intro hinp
    have hlen : (natDec k ++ ' ' :: ([] : Text)).length < R := by
      have := natDec_length_le 4 k (by unfold R at hk; norm_num; omega)
      simp only [List.length_append, List.length_cons, List.length_nil]
      unfold R; omega
    have hm : Function.update st.m k (some ([] : Text)) k = some [] := by simp
    refine ⟨_, prompt_define n st k [] rest hk12 hk11 (fun c hc => by cases hc) hlen hinp,
      hm, ?_, ?_⟩
    · intro j hj
      show Function.update st.m k (some []) j = st.m j
      simp [hj]
    · exact (mem_listing _ _).2 ⟨k, hk, [], hm, rfl⟩

/-- C10, amended, at slot 10 of a fresh interpreter. -/
theorem bare_number_deletes_witness :
    10 < 11 * R ∧
    ∃ st1, prompt 0 (init ["10".data] (fun _ => none)) = .ok (st1, false) ∧ st1.m 10 = none ∧
      (∀ j, j ≠ 10 → st1.m j = (init ["10".data] (fun _ => none)).m j) ∧
      (∀ s, natDec 10 ++ ' ' :: s ∉ listing st1.m) ∧
      (∀ f l, skip st1.m f l ≠ .ok 10) :=
  ⟨by decide,
    (bare_number_deletes 0 (init ["10".data] (fun _ => none)) 10 [] (by decide)).1 rfl⟩

/-- C11, as stated, fails: the line `LOAD x` is not the load command.  Its
first character is `L`, so the dispatcher lists the stored program: with
`10 PRINT 1` stored and a file `x` that holds `20 PRINT 2`, typing `LOAD x`
prints `10 PRINT 1`, and the LIST that follows shows that line 20 was not
loaded. -/
theorem load_word_lists :
    printed (basic 9 ["10 PRINT 1".data, "LOAD x".data, "LIST".data]
        (fun p => if p = "x".data then some "20 PRINT 2\n".data else none))
      = .ok ["Ok".data, "Ok".data, "10 PRINT 1".data, "Ok".data, "10 PRINT 1".data,
          "Ok".data] := by
  decide!

/-- C11, amended: the load command is `OLD <path>` (case `O` of the
dispatcher, the name read from the fifth character on).  For a file that is
there, typing `OLD <path>` runs the load loop, which feeds the lines of the
file through `G()`, and prints nothing but the prompt; typing `LOAD <path>`
leaves the store as it is and prints the listing of the stored program.  With
`10 PRINT 1` stored and `20 PRINT 2` in the file `x`, `OLD x` prints nothing
and the LIST that follows prints both lines. -/
theorem old_is_the_load_command (n : Nat) (st : State) (path : Text) (rest : List Text)
    (hnul : ∀ c ∈ path, c ≠ NUL) (hlen : path.length + 5 < R) :
    (∀ content, st.fs path = some content → st.inp = ("OLD ".data ++ path) :: rest →
      prompt n st
        = ((load content.length { st with
              B := put st.B ("OLD ".data ++ path)
              out := st.out ++ ["Ok".data]
              inp := rest } content).bind fun s1 => .ok (s1, false)) ∧
      ∀ s1 b, prompt n st = .ok (s1, b) → s1.out = st.out ++ ["Ok".data]) ∧
    (st.inp = ("LOAD ".data ++ path) :: rest →
      ∃ s1, prompt n st = .ok (s1, false) ∧ s1.m = st.m ∧
        s1.out = st.out ++ ["Ok".data] ++ listing st.m) ∧
    printed (basic 9 ["10 PRINT 1".data, "OLD x".data, "LIST".data]
        (fun p => if p = "x".data then some "20 PRINT 2\n".data else none))
      = .ok ["Ok".data, "Ok".data, "Ok".data, "10 PRINT 1".data, "20 PRINT 2".data,
          "Ok".data] := by
  refine ⟨?_, ?_, by decide!⟩
  · intro content hfile hinp
    have h := prompt_old n st path content rest hnul (by omega) hfile hinp
    refine ⟨h, ?_⟩
    intro s1 b hs
    rw [h] at hs
    obtain ⟨s2, h2, h3⟩ := bind_eq_ok hs
    cases h3
    exact load_out _ _ _ _ h2
  · intro hinp
    exact ⟨_, prompt_load n st path rest hlen hinp, rfl, rfl⟩

/-- C11, amended, at the line `LOAD x` typed at a fresh interpreter. -/
theorem old_is_the_load_command_witness :
    ∃ s1, prompt 0 (init ["LOAD x".data] (fun _ => none)) = .ok (s1, false) ∧
      s1.m = (init ["LOAD x".data] (fun _ => none)).m ∧
      s1.out = (init ["LOAD x".data] (fun _ => none)).out ++ ["Ok".data]
        ++ listing (init ["LOAD x".data] (fun _ => none)).m :=
  (old_is_the_load_command 0 (init ["LOAD x".data] (fun _ => none)) "x".data []
    (by decide) (by decide)).2.1 rfl

/-- C12: RUN starts from a clean state.  Whatever the variables hold, with `k`
the lowest stored line number from 1 on, the command `RUN` executes first the
statement of line `k`, with an empty call stack and in a state whose variables
are all 0 (the rest of the run goes on from what that statement leaves).  A
second RUN of `10 PRINT A` / `20 A=5` / `30 END` prints 0 again. -/
theorem run_starts_clean (n : Nat) (st : State) (k : Nat) (s : Text)
    (hk : k < 12 * R) (hk1 : 1 ≤ k) (hs : st.m k = some s)
    (hlow : ∀ i, 1 ≤ i → i < k → st.m i = none) :
    (run (n + 1) st
      = (stmt { st with P := fun _ => 0 } k s []).bind
          fun c => loop n c.1 (wrap (c.2.1 + 1)) c.2.2) ∧
    (∀ v, (prepared { st with P := fun _ => 0 } k s).P v = 0) ∧
    printed (typed 12 ["10 PRINT A".data, "20 A=5".data, "30 END".data, "RUN".data,
        "RUN".data])
      = .ok ["Ok".data, "Ok".data, "Ok".data, "Ok".data, "0".data, "Ok".data, "0".data,
          "Ok".data] :=
  ⟨run_first n st k s hk hk1 hs hlow, fun _ => rfl, by decide!⟩

/-- C12 at a store that holds `10 PRINT A` while every variable is 7. -/
theorem run_starts_clean_witness :
    run 1 { init [] (fun _ => none) with
        m := fun i => if i = 10 then some "PRINT A".data else none
        P := fun _ => 7 }
      = (stmt { init [] (fun _ => none) with
            m := fun i => if i = 10 then some "PRINT A".data else none
            P := fun _ => 0 } 10 "PRINT A".data []).bind
          fun c => loop 0 c.1 (wrap (c.2.1 + 1)) c.2.2 :=
  (run_starts_clean 0 { init [] (fun _ => none) with
        m := fun i => if i = 10 then some "PRINT A".data else none
        P := fun _ => 7 } 10 "PRINT A".data (by decide) (by decide) rfl
      (fun i _ h2 => if_neg (by omega))).1

/-- C13: integer division truncates toward zero.  For all values of A and B
with B not 0 (and not the pair minimum integer, -1), the evaluator gives `A/B`
a value `q` whose magnitude is the whole part of |A| / |B|, which is not
negative when A and B have the same sign and not positive when they have
opposite signs; with A=-7, B=2 and with A=7, B=-2 the program prints -3. -/
theorem division_truncates (P : Nat → Int) (tail : Text) (hB : P 66 ≠ 0)
    (hmin : ¬ (P 65 = -2147483648 ∧ P 66 = -1)) :
    (∃ q, eval ("PRINTA/B".data ++ NUL :: tail) P 5 = .ok (q, 8) ∧
      q.natAbs = (P 65).natAbs / (P 66).natAbs ∧
      ((0 ≤ P 65 ∧ 0 < P 66) ∨ (P 65 ≤ 0 ∧ P 66 < 0) → 0 ≤ q) ∧
      ((0 ≤ P 65 ∧ P 66 < 0) ∨ (P 65 ≤ 0 ∧ 0 < P 66) → q ≤ 0)) ∧
    printed (typed 20 ["10 A=-7".data, "20 B=2".data, "30 PRINT A/B".data, "40 A=7".data,
        "50 B=-2".data, "60 PRINT A/B".data, "70 END".data, "RUN".data])
      = .ok ["Ok".data, "Ok".data, "Ok".data, "Ok".data, "Ok".data, "Ok".data, "Ok".data,
          "Ok".data, "-3".data, "-3".data, "Ok".data] := by
  refine ⟨⟨Int.tdiv (P 65) (P 66), ?_, tdiv_truncates _ _⟩, by decide!⟩
  exact eval_quotient P tail _ (by unfold cdiv; rw [if_neg hB, if_neg hmin])

/-- C13 at A = -7 and B = 2. -/
theorem division_truncates_witness :
    ∃ q, eval ("PRINTA/B".data ++ NUL :: []) (fun i => if i = 65 then -7 else 2) 5
        = .ok (q, 8) ∧
      q.natAbs = (-7 : Int).natAbs / (2 : Int).natAbs ∧
      ((0 ≤ (-7 : Int) ∧ 0 < (2 : Int)) ∨ ((-7 : Int) ≤ 0 ∧ (2 : Int) < 0) → 0 ≤ q) ∧
      ((0 ≤ (-7 : Int) ∧ (2 : Int) < 0) ∨ ((-7 : Int) ≤ 0 ∧ 0 < (2 : Int)) → q ≤ 0) :=
  (division_truncates (fun i => if i = 65 then -7 else 2) [] (by decide) (by decide)).1

/-- C14, as stated, fails: nothing is reported and no control returns after a
division by zero.  With `10 PRINT 1/0` stored, RUN ends the whole session in
the fault of the division; the LIST typed after it is never read. -/
theorem division_by_zero_faults :
    printed (typed 9 ["10 PRINT 1/0".data, "RUN".data, "LIST".data]) = .fault .divide := by
  decide!

/-- C14, amended: a division whose divisor is 0 is not checked.  The operator
`/` of C is applied as it is, which is undefined (here: the fault `divide`),
whatever the dividend; the statement `PRINT 1/0` faults in every state; and
when RUN is typed while the lowest stored line holds it, the session ends in
that fault, whatever input follows (any bound of at least 2 on the length of
the session is enough to get there). -/
theorem division_by_zero_ends_session (n : Nat) (st : State) (k : Nat) (rest : List Text)
    (hk : k < 12 * R) (hk1 : 1 ≤ k) (hs : st.m k = some "PRINT 1/0".data)
    (hlow : ∀ i, 1 ≤ i → i < k → st.m i = none) (hinp : st.inp = "RUN".data :: rest) :
    (∀ o, cdiv o 0 = .fault .divide) ∧
    (∀ (st1 : State) (E : List Int), stmt st1 k "PRINT 1/0".data E = .fault .divide) ∧
    session (n + 2) st = .fault .divide :=
  ⟨fun _ => rfl, fun st1 E => stmt_one_by_zero st1 k E,
    session_run_fault n st k _ rest _ hk hk1 hs hlow hinp
      (fun st1 => stmt_one_by_zero st1 k [])⟩

/-- C14, amended, at the store `10 PRINT 1/0` with `RUN` and `LIST` typed. -/
theorem division_by_zero_ends_session_witness :
    session 2 { init ["RUN".data, "LIST".data] (fun _ => none) with
        m := fun i => if i = 10 then some "PRINT 1/0".data else none } = .fault .divide :=
  (division_by_zero_ends_session 0 { init ["RUN".data, "LIST".data] (fun _ => none) with
        m := fun i => if i = 10 then some "PRINT 1/0".data else none } 10 ["LIST".data]
      (by decide) (by decide) rfl (fun i _ h2 => if_neg (by omega)) rfl).2.2

/-- C15, as stated, fails: nothing is reported and no control returns after a
RETURN on an empty call stack.  With `10 RETURN` stored, RUN ends the whole
session in the fault of the read below the stack; the LIST typed after it is
never read. -/
theorem return_on_empty_stack_faults :
    printed (typed 9 ["10 RETURN".data, "RUN".data, "LIST".data]) = .fault .bounds := by
  decide!

/-- C15, amended: RETURN does not check the call stack.  With the stack empty
the statement reads the slot below the array `E` (`l=*--C` with `C` at `E`),
which is undefined (here: the fault `bounds`), in every state and slot; and
when RUN is typed while the lowest stored line is `RETURN`, the session ends
in that fault, whatever input follows. -/
theorem return_on_empty_stack_ends_session (n : Nat) (st : State) (k : Nat)
    (rest : List Text) (hk : k < 12 * R) (hk1 : 1 ≤ k) (hs : st.m k = some "RETURN".data)
    (hlow : ∀ i, 1 ≤ i → i < k → st.m i = none) (hinp : st.inp = "RUN".data :: rest) :
    (∀ (st1 : State) (j : Nat), stmt st1 j "RETURN".data [] = .fault .bounds) ∧
    session (n + 2) st = .fault .bounds :=
  ⟨fun _ _ => rfl, session_run_fault n st k _ rest _ hk hk1 hs hlow hinp (fun _ => rfl)⟩

/-- C15, amended, at the store `10 RETURN` with `RUN` and `LIST` typed. -/
theorem return_on_empty_stack_ends_session_witness :
    session 2 { init ["RUN".data, "LIST".data] (fun _ => none) with
        m := fun i => if i = 10 then some "RETURN".data else none } = .fault .bounds :=
  (return_on_empty_stack_ends_session 0
      { init ["RUN".data, "LIST".data] (fun _ => none) with
        m := fun i => if i = 10 then some "RETURN".data else none } 10 ["LIST".data]
      (by decide) (by decide) rfl (fun i _ h2 => if_neg (by omega)) rfl).2

/-- C17, as stated, fails: a literal with a leading zero is not read in base
ten.  The primary tier calls `strtol(p,&p,0)`, which reads `010` as the octal
numeral of 8 and stops in `09` behind the `0`: `PRINT 010` prints 8 and
`PRINT 09` prints 0 (`PRINT 0x1F` prints 31, and `PRINT 12` prints 12). -/
theorem leading_zero_is_octal :
    Y ("010".data ++ [NUL]) (fun _ => 0) 1 0 = .ok (8, 3) ∧
    Y ("09".data ++ [NUL]) (fun _ => 0) 1 0 = .ok (0, 1) ∧
    printed (typed 12 ["10 PRINT 010".data, "20 PRINT 09".data, "30 PRINT 0x1F".data,
        "40 PRINT 12".data, "50 END".data, "RUN".data])
      = .ok ["Ok".data, "Ok".data, "Ok".data, "Ok".data, "Ok".data, "Ok".data, "8".data,
          "0".data, "31".data, "12".data, "Ok".data] :=
  ⟨by decide!, by decide!, by decide!⟩

/-- C17, amended: for every number `n` up to 2147483647 written in decimal
digits without a leading zero (`natDec n`, the numeral `0` included) and
followed by a character that is neither a digit nor a letter, the primary
tier returns `n` and leaves the cursor immediately behind the last digit, on
that character. -/
theorem decimal_literal_read (B : Text) (P : Nat → Int) (p m n : Nat) (c : Char)
    (tail : Text) (hB : B.drop p = natDec n ++ c :: tail) (hc : digitVal c = none)
    (hp : p < R) (hn : n ≤ 2147483647) :
    Y B P (m + 1) p = .ok (Int.ofNat n, p + (natDec n).length) ∧
    rd B (p + (natDec n).length) = c :=
  ⟨Y_numeral B P p m n c tail hB hc hp hn, rd_add_of_drop _ _ _ hB⟩

/-- C17, amended, at the literal 120 of `PRINT 120+7`. -/
theorem decimal_literal_read_witness :
    Y ("PRINT120+7".data ++ [NUL]) (fun _ => 0) 1 5
      = .ok (Int.ofNat 120, 5 + (natDec 120).length) ∧
    rd ("PRINT120+7".data ++ [NUL]) (5 + (natDec 120).length) = '+' :=
  decimal_literal_read ("PRINT120+7".data ++ [NUL]) (fun _ => 0) 5 0 120 '+' ['7', NUL]
    rfl (by decide) (by decide) (by decide)

/-- C18, as stated, fails for a target of value 0: after `20 IF 1 THEN 0` no
statement is executed at all (the counter 0 ends the run), although the
smallest stored line number not below 0 is 10: the run prints 1 once and
halts. -/
theorem then_zero_ends_run :
    printed (typed 9 ["10 PRINT 1".data, "20 IF 1 THEN 0".data, "30 PRINT 2".data, "RUN".data])
      = .ok ["Ok".data, "Ok".data, "Ok".data, "Ok".data, "1".data, "Ok".data] := by
  decide!

/-- C18, amended.  Let the stored line of slot `k ≥ 1` read `IF <c> THEN <e>`
once the operators are rewritten and the blanks removed, the keyword being the
first `TH` of the line, and let the condition (evaluated in the buffer cut at
the keyword) have the value `cv`.  The statement changes no variable and
prints nothing.  If `cv` is zero, the target is not evaluated (nothing is
asked of it) and the next statement executed is that of the smallest stored
line number above `k`.  If `cv` is not zero and the target has the value `t`:
for `t ≥ 1` the next statement executed is that of the smallest stored line
number not below `t`; for `t = 0` the run ends.  `IF 0 THEN 1/0` falls through
without a division; `IF 1 THEN 30` skips line 20. -/
theorem if_then_jumps (n : Nat) (st : State) (k : Nat) (s c e : Text) (E : List Int)
    (hk1 : 1 ≤ k) (hk : k < 12 * R) (hs : st.m k = some s)
    (hb : strip (sentinels s) 0 = 'I' :: 'F' :: (c ++ 'T' :: 'H' :: 'E' :: 'N' :: e))
    (hnul : ∀ x ∈ strip (sentinels s) 0, x ≠ NUL)
    (hlen : (strip (sentinels s) 0).length < R)
    (hQ : Q (strip (sentinels s) 0) ['T', 'H'] = some (c.length + 2))
    (cv : Int) (cq : Nat)
    (hc : eval ((prepared st k s).B.set (c.length + 2) NUL) st.P 2 = .ok (cv, cq)) :
    (∃ st1, st1.P = st.P ∧ st1.out = st.out ∧
      st1.m = Function.update st.m k (some (sentinels s)) ∧
      (cv = 0 → ∀ j s1, k < j → j < 12 * R → st1.m j = some s1 →
        (∀ i, k < i → i < j → st1.m i = none) →
        loop (n + 2) st (Int.ofNat k) E
          = (stmt st1 j s1 E).bind fun r => loop n r.1 (wrap (r.2.1 + 1)) r.2.2) ∧
      (cv ≠ 0 → ∀ t tq,
        eval ((prepared st k s).B.set (c.length + 2) NUL) st.P (c.length + 2 + 4) = .ok (t, tq) →
        (t = 0 → loop (n + 2) st (Int.ofNat k) E = .ok st1) ∧
        (1 ≤ t → ∀ j s1, t.toNat ≤ j → j < 12 * R → st1.m j = some s1 →
          (∀ i, t.toNat ≤ i → i < j → st1.m i = none) →
          loop (n + 2) st (Int.ofNat k) E
            = (stmt st1 j s1 E).bind fun r => loop n r.1 (wrap (r.2.1 + 1)) r.2.2))) ∧
    printed (typed 9 ["10 IF 0 THEN 1/0".data, "20 PRINT 5".data, "30 END".data, "RUN".data])
      = .ok ["Ok".data, "Ok".data, "Ok".data, "Ok".data, "5".data, "Ok".data] ∧
    printed (typed 12 ["10 IF 1 THEN 30".data, "20 PRINT 5".data, "30 PRINT 6".data,
        "40 END".data, "RUN".data])
      = .ok ["Ok".data, "Ok".data, "Ok".data, "Ok".data, "Ok".data, "6".data, "Ok".data] := by
  refine ⟨⟨{ prepared st k s with B := (prepared st k s).B.set (c.length + 2) NUL },
    rfl, rfl, rfl, ?_, ?_⟩, by decide!, by decide!⟩
  · intro h0 j s1 hkj hj hjs hnone
    have hst : stmt st k s E
        = .ok ({ prepared st k s with B := (prepared st k s).B.set (c.length + 2) NUL },
            Int.ofNat k, E) := by
      rw [stmt_if st k s c e E hb hnul hlen hQ, hc, bind_ok, if_neg (by simpa using h0)]
    rw [loop_next (n + 1) st _ k s E E hk1 hk hs hst]
    exact loop_at n _ _ E j s1 (by simp only [Int.ofNat_eq_coe]; omega)
      (by simp only [Int.ofNat_eq_coe]; omega) hj hjs
      (fun i h1 h2 => hnone i (by simp only [Int.ofNat_eq_coe] at h1; omega) h2)
  · intro h0 t tq ht
    have hst : stmt st k s E
        = .ok ({ prepared st k s with B := (prepared st k s).B.set (c.length + 2) NUL },
            wrap (t - 1), E) := by
      rw [stmt_if st k s c e E hb hnul hlen hQ, hc, bind_ok, if_pos (by simpa using h0), ht,
        bind_ok]
    constructor
    · intro e0
      subst e0
      rw [loop_jump (n + 1) st _ k s E E 0 hk1 hk hs hst (by decide) (by decide)]
      rfl
    · intro h1 j s1 htj hj hjs hnone
      rw [loop_jump (n + 1) st _ k s E E t hk1 hk hs hst (by omega) (by unfold R at hj; omega)]
      exact loop_at n _ t E j s1 h1 htj hj hjs hnone

/-- C18, amended, at `10 IF A THEN 30` with A = 0 and `20 PRINT 5`: the
statement executed next is that of line 20. -/
theorem if_then_jumps_witness :
    ∃ st1, st1.P = (fun _ => (0 : Int)) ∧
      loop 2 { init [] (fun _ => none) with
          m := fun i => if i = 10 then some "IF A THEN 30".data
            else if i = 20 then some "PRINT 5".data else none }
        (Int.ofNat 10) []
      = (stmt st1 20 "PRINT 5".data []).bind fun r => loop 0 r.1 (wrap (r.2.1 + 1)) r.2.2 := by
  obtain ⟨⟨st1, hP, _, hm, h, _⟩, _⟩ := if_then_jumps 0
    { init [] (fun _ => none) with
      m := fun i => if i = 10 then some "IF A THEN 30".data
        else if i = 20 then some "PRINT 5".data else none }
    10 "IF A THEN 30".data ['A'] ['3', '0'] [] (by decide) (by decide) rfl (by decide)
    (by decide) (by decide) (by decide) 0 3 (by decide)
  refine ⟨st1, hP, h rfl 20 _ (by decide) (by decide) (by rw [hm]; rfl) ?_⟩
  intro i h1 h2
  rw [hm]
  rw [Function.update_noteq (show i ≠ 10 by omega)]
  show (if i = 10 then _ else if i = 20 then _ else none) = none
  rw [if_neg (by omega), if_neg (by omega)]

/-- C19: for every text `t` without a double quote (and without the end-of-string
character, the statement fitting the buffer), the statement `PRINT "t"` of a
slot `k` prints exactly `t` as one line, changes no variable, leaves the
counter and the call stack alone and keeps the stored line as it is; blanks,
tabs and `<>`, `<=`, `>=` inside `t` come out as written, and LIST shows the
line unchanged after the RUN. -/
theorem print_literal_verbatim (st : State) (k : Nat) (E : List Int) (t : Text)
    (hq : '"' ∉ t) (hnul : ∀ c ∈ t, c ≠ NUL) (hlen : t.length + 7 < R) :
    (∃ st1, stmt st k (['P', 'R', 'I', 'N', 'T', ' ', '"'] ++ t ++ ['"']) E
        = .ok (st1, Int.ofNat k, E) ∧
      st1.out = st.out ++ [t] ∧ st1.P = st.P ∧
      st1.m k = some (['P', 'R', 'I', 'N', 'T', ' ', '"'] ++ t ++ ['"'])) ∧
    printed (typed 9 ["10 PRINT ".data ++ '"' :: "a <> b  <=\tc >= d".data ++ ['"'],
        "20 END".data, "RUN".data, "LIST".data])
      = .ok ["Ok".data, "Ok".data, "Ok".data, "a <> b  <=\tc >= d".data, "Ok".data,
          "10 PRINT ".data ++ '"' :: "a <> b  <=\tc >= d".data ++ ['"'], "20 END".data,
          "Ok".data] := by
  refine ⟨?_, by decide!⟩
  obtain ⟨_, B1, h⟩ := stmt_print_literal st k E t hq hnul hlen
  refine ⟨_, h, rfl, rfl, ?_⟩
  show Function.update st.m k _ k = _
  rw [Function.update_same]

/-- C19 at the text `HI`, in slot 10 of a fresh interpreter. -/
theorem print_literal_verbatim_witness :
    ∃ st1, stmt (init [] (fun _ => none)) 10
        (['P', 'R', 'I', 'N', 'T', ' ', '"'] ++ "HI".data ++ ['"']) []
        = .ok (st1, Int.ofNat 10, []) ∧
      st1.out = (init [] (fun _ => none)).out ++ ["HI".data] ∧
      st1.P = (init [] (fun _ => none)).P ∧
      st1.m 10 = some (['P', 'R', 'I', 'N', 'T', ' ', '"'] ++ "HI".data ++ ['"']) :=
  (print_literal_verbatim (init [] (fun _ => none)) 10 [] "HI".data (by decide) (by decide)
    (by decide)).1

/-- C20, as stated, fails: RUN rewrites the stored line it executes.  After
`10 PRINT 5<>4` and `20 END`, LIST prints the lines as typed; after RUN, which
prints 1, LIST prints `10 PRINT 5# 4`. -/
theorem run_rewrites_stored_line :
    printed (typed 9 ["10 PRINT 5<>4".data, "20 END".data, "LIST".data, "RUN".data,
        "LIST".data])
      = .ok ["Ok".data, "Ok".data, "Ok".data, "10 PRINT 5<>4".data, "20 END".data, "Ok".data,
          "1".data, "Ok".data, "10 PRINT 5# 4".data, "20 END".data, "Ok".data] := by
  decide!

/-- C20, amended: a RUN that terminates leaves in every slot of the Program
Store either the text it held or that text with its operators rewritten by the
macro `U` (in a line without a double quote `<>`, `<=`, `>=` become `# `, `$ `,
`! `): no line number is added or removed, and a line that holds a double
quote, or neither `<` nor `>`, or that an earlier RUN has rewritten, is
character for character the same after the RUN. -/
theorem run_rewrites_operators_only (n : Nat) (st st1 : State) (h : run n st = .ok st1) :
    (∀ k, st1.m k = st.m k ∨ ∃ s, st.m k = some s ∧ st1.m k = some (sentinels s)) ∧
    (∀ k, (st1.m k).isSome = (st.m k).isSome) ∧
    (∀ k s, st.m k = some s →
      (Q s ['"'] ≠ none ∨ ('<' ∉ s ∧ '>' ∉ s) ∨ ∃ s0, s = sentinels s0) →
      st1.m k = some s) := by
  have hm := loop_m n _ 1 [] st1 h
  refine ⟨hm, ?_, ?_⟩
  · intro k
    rcases hm k with e | ⟨s, e1, e2⟩
    · rw [e]
    · rw [e2]
      show _ = (st.m k).isSome
      rw [e1]; rfl
  · intro k s hs hcase
    have hid : sentinels s = s := by
      rcases hcase with hq | ⟨h1, h2⟩ | ⟨s0, rfl⟩
      · unfold sentinels; rw [if_neg hq]
      · exact sentinels_id s h1 h2
      · exact sentinels_idem s0
    rcases hm k with e | ⟨s2, e1, e2⟩
    · rw [e]; exact hs
    · have e3 : st.m k = some s2 := e1
      rw [hs] at e3
      cases e3
      rw [e2, hid]

/-- C20, amended, at the program `10 PRINT 5<>4` / `20 END`. -/
theorem run_rewrites_operators_only_witness :
    ∃ st1, run 3 { init [] (fun _ => none) with
          m := fun i => if i = 10 then some "PRINT 5<>4".data
            else if i = 20 then some "END".data else none } = .ok st1 ∧
      st1.m 10 = some "PRINT 5# 4".data ∧ st1.m 20 = some "END".data ∧
      ∀ k, (st1.m k).isSome = (if k = 10 then true else if k = 20 then true else false) := by
  refine ⟨_, rfl, rfl, rfl, ?_⟩
  intro k
  rw [(run_rewrites_operators_only 3 { init [] (fun _ => none) with
          m := fun i => if i = 10 then some "PRINT 5<>4".data
            else if i = 20 then some "END".data else none } _ rfl).2.1 k]
  show (if k = 10 then some "PRINT 5<>4".data
    else if k = 20 then some "END".data else none).isSome = _
  split
  · rfl
  · split <;> rfl

/-- C21, as stated, fails: a line without a line number is not dropped.  `atoi`
reads it as the number 0, so `HELLO WORLD`, typed at the prompt or read by the
load command `OLD` from a file, stores the text `WORLD` in slot 0, and LIST
prints `0 WORLD`. -/
theorem unnumbered_line_is_stored :
    printed (typed 9 ["HELLO WORLD".data, "LIST".data])
      = .ok ["Ok".data, "Ok".data, "0 WORLD".data, "Ok".data] ∧
    printed (basic 9 ["OLD x".data, "LIST".data]
        (fun p => if p = "x".data then some "HELLO WORLD\n".data else none))
      = .ok ["Ok".data, "Ok".data, "0 WORLD".data, "Ok".data] :=
  ⟨by decide!, by decide!⟩

/-- C21, amended: a line that starts neither with white space, a sign or a
digit is the definition of line 0.  Fed through `G()` as `<word> <text>` (the
word without a blank) it stores the text in slot 0, which LIST prints as
`0 <text>`; fed as a bare word it empties slot 0; every other slot stays as it
was.  Typed at the prompt, this happens whenever the first character is none
of the command letters `R L N B S O`. -/
theorem unnumbered_line_defines_line_zero (n : Nat) (st : State) (c : Char) (w t : Text)
    (rest : List Text) (hd : ¬ (48 ≤ c.toNat ∧ c.toNat ≤ 57))
    (hsp : ¬ (c = ' ' ∨ (9 ≤ c.toNat ∧ c.toNat ≤ 13))) (hm : c ≠ '-') (hp : c ≠ '+')
    (hw : ' ' ∉ w) (hnul : ∀ x ∈ c :: w ++ ' ' :: t, x ≠ NUL)
    (hlen : (c :: w ++ ' ' :: t).length < R) :
    (∀ (st0 : State) (tail : Text), st0.B = (c :: w ++ ' ' :: t) ++ NUL :: tail →
      G st0 = .ok { st0 with m := Function.update st0.m 0 (some t) }) ∧
    (∀ (st0 : State) (tail : Text), st0.B = (c :: w) ++ NUL :: tail →
      G st0 = .ok { st0 with m := Function.update st0.m 0 none }) ∧
    (c ∉ ['R', 'L', 'N', 'B', 'S', 'O'] →
      (st.inp = (c :: w ++ ' ' :: t) :: rest →
        ∃ st1, prompt n st = .ok (st1, false) ∧ st1.m 0 = some t ∧
          (∀ j, j ≠ 0 → st1.m j = st.m j) ∧ natDec 0 ++ ' ' :: t ∈ listing st1.m) ∧
      (st.inp = (c :: w) :: rest →
        ∃ st1, prompt n st = .ok (st1, false) ∧ st1.m 0 = none ∧
          ∀ j, j ≠ 0 → st1.m j = st.m j)) := by
  have hnul2 : ∀ x ∈ c :: w, x ≠ NUL := fun x hx =>
    hnul x (by rw [List.cons_append]; rcases List.mem_cons.1 hx with h | h
               · exact h ▸ List.mem_cons_self _ _
               · exact List.mem_cons_of_mem _ (List.mem_append_left _ h))
  have hlen2 : (c :: w).length < R := by
    simp only [List.length_cons, List.length_append] at hlen ⊢
    omega
  refine ⟨fun st0 tail hB => G_word st0 c w t tail hd hsp hm hp hw hnul hB,
    fun st0 tail hB => G_bare_word st0 c w tail hd hsp hm hp hw hnul2 hB, ?_⟩
  intro hcmd
  constructor
  · intro hinp
    have hm0 : Function.update st.m 0 (some t) 0 = some t := by simp
    refine ⟨_, prompt_word n st c w t rest hd hsp hm hp hcmd hw hnul hlen hinp, hm0, ?_, ?_⟩
    · intro j hj
      show Function.update st.m 0 (some t) j = st.m j
      simp [hj]
    · exact (mem_listing _ _).2 ⟨0, by unfold R; omega, t, hm0, rfl⟩
  · intro hinp
    refine ⟨_, prompt_bare_word n st c w rest hd hsp hm hp hcmd hw hnul2 hlen2 hinp, ?_, ?_⟩
    · show Function.update st.m 0 none 0 = none
      simp
    · intro j hj
      show Function.update st.m 0 none j = st.m j
      simp [hj]

/-- C21, amended, at the line `HELLO WORLD` typed at a fresh interpreter. -/
theorem unnumbered_line_defines_line_zero_witness :
    ∃ st1, prompt 0 (init ["HELLO WORLD".data] (fun _ => none)) = .ok (st1, false) ∧
      st1.m 0 = some "WORLD".data ∧
      (∀ j, j ≠ 0 → st1.m j = (init ["HELLO WORLD".data] (fun _ => none)).m j) ∧
      natDec 0 ++ ' ' :: "WORLD".data ∈ listing st1.m :=
  ((unnumbered_line_defines_line_zero 0 (init ["HELLO WORLD".data] (fun _ => none)) 'H'
    "ELLO".data "WORLD".data [] (by decide) (by decide) (by decide) (by decide) (by decide)
    (by decide) (by decide)).2.2 (by decide)).1 rfl

/-- C22, as stated, fails: line numbers are not confined to 1..998.  `G()`
stores whatever number `atoi` reads, so after `5000 PRINT 1`, `5001 END` and
`0 X` typed at a fresh interpreter LIST prints the lines 0, 5000 and 5001, and
RUN executes line 5000. -/
theorem line_numbers_outside_range :
    printed (typed 9 ["5000 PRINT 1".data, "5001 END".data, "0 X".data, "LIST".data,
        "RUN".data])
      = .ok ["Ok".data, "Ok".data, "Ok".data, "Ok".data, "0 X".data, "5000 PRINT 1".data,
          "5001 END".data, "Ok".data, "1".data, "Ok".data] := by
  decide!

/-- C22, amended: the entries of the Program Store carry the numbers their
definitions gave them, and every slot of the array `m` is a line number.
Starting from the empty store, for any sequence of inputs that are line
definitions `<k> <text>` with 0 ≤ k ≤ 11987 (k other than 10989, the slot of
the end marker), commands `NEW`, or loads `OLD <path>` of files of saved lines,
`basic()` gets through to the end of the input (any bound above the number of
inputs is enough), and in the store it leaves every entry is the end marker, a
line one of the inputs defined, under the number typed, or a line one of the
inputs loaded; so every entry has a number in [0, 11987], and every line LIST
prints was typed or stands in a loaded file.  Every number is reached: the
line a final definition `<k> <text>` gives is in the store under `k`, LIST
prints it when k ≤ 10988, and the line search of RUN from any counter l ≤ k
ends at a stored line in [l, k].  A definition with a number from 11988 on is
outside this: `G()` then stores behind the last slot of `m`. -/
theorem stored_lines_come_from_input (n : Nat) (inp : List Text) (fs : Text → Option Text)
    (hacc : ∀ ln ∈ inp, Accepted fs ln) (hn : inp.length < n) :
    (∃ st, basic n inp fs = .ok st ∧
      (∀ k s, st.m k = some s → Origin fs inp k s) ∧
      (∀ k, st.m k ≠ none → k < 12 * R) ∧
      (∀ ln ∈ listing st.m, ln ∈ inp ∨
        ∃ l ∈ inp, ∃ es, Loads fs l es ∧ ∃ e ∈ es, ln = natDec e.1 ++ ' ' :: e.2) ∧
      (∀ pre ln k t, inp = pre ++ [ln] → Defines ln k t →
        st.m k = some t ∧ (k < 11 * R → ln ∈ listing st.m) ∧
        ∀ l, l ≤ k → ∃ j, skip st.m (12 * R - l) l = .ok j ∧ l ≤ j ∧ j ≤ k ∧
          (st.m j).isSome = true)) ∧
    (∀ (st0 : State) (k : Nat) (t tail : Text), 12 * R ≤ k → k ≤ 2147483647 →
      (∀ c ∈ t, c ≠ NUL) → st0.B = (natDec k ++ ' ' :: t) ++ NUL :: tail →
      G st0 = .fault .bounds) := by
  refine ⟨?_, fun st0 k t tail hk hk2 ht hB => G_behind st0 k t tail hk hk2 ht hB⟩
  obtain ⟨st, h1, h2, _, h4⟩ := session_accepted fs inp inp n (init inp fs) rfl rfl hn hacc
    (fun _ h => h) (fun k s h => by
      have h' : (if k = 11 * R then some ['E'] else none) = some s := h
      by_cases hk : k = 11 * R
      · rw [if_pos hk] at h'
        exact Or.inl ⟨hk, (Option.some.inj h').symm⟩
      · rw [if_neg hk] at h'
        cases h')
  refine ⟨st, h1, h2, ?_, ?_, ?_⟩
  · intro k hk
    cases hs : st.m k with
    | none => exact absurd hs hk
    | some s => exact Origin_lt fs inp k s (h2 k s hs)
  · intro ln hln
    obtain ⟨i, hi, s, hs, rfl⟩ := (mem_listing _ _).1 hln
    rcases h2 i s hs with ⟨h, _⟩ | ⟨l, hl, hd⟩ | ⟨l, hl, es, hL, he⟩
    · omega
    · left
      rw [← hd.1]
      exact hl
    · exact Or.inr ⟨l, hl, es, hL, (i, s), he, rfl⟩
  · intro pre ln k t hpre hd
    have hk := h4 pre ln k t hpre hd
    refine ⟨hk, fun hlt => (mem_listing _ _).2 ⟨k, hlt, t, hk, hd.1⟩, fun l hl => ?_⟩
    have hlt := hd.2.1
    exact skip_finds st.m k (by rw [hk]; rfl) (12 * R - l) l hl (by omega)

/-- C22, amended, at a session that loads a file, clears the store and defines
the lines 5000 and 11000. -/
theorem stored_lines_come_from_input_witness :
    ∃ st, basic 5 ["OLD x".data, "NEW".data, "5000 PRINT 1".data, "11000 END".data]
        (fun p => if p = "x".data then some "10 PRINT 2\n".data else none) = .ok st ∧
      st.m 11000 = some "END".data ∧ ∀ k, st.m k ≠ none → k < 12 * R := by
  obtain ⟨⟨st, h1, _, h3, _, h5⟩, _⟩ := stored_lines_come_from_input 5
    ["OLD x".data, "NEW".data, "5000 PRINT 1".data, "11000 END".data]
    (fun p => if p = "x".data then some "10 PRINT 2\n".data else none)
    (by
      intro ln h
      simp only [List.mem_cons, List.mem_singleton, List.not_mem_nil, or_false] at h
      rcases h with rfl | rfl | rfl | rfl
      · exact Or.inr (Or.inr ⟨[(10, "PRINT 2".data)], "x".data, rfl, by decide, by decide,
          by decide, rfl, by
            intro e he
            rw [List.mem_singleton] at he
            subst he
            exact ⟨by decide, by decide, by decide⟩⟩)
      · exact Or.inl rfl
      · exact Or.inr (Or.inl ⟨5000, "PRINT 1".data, rfl, by decide, by decide, by decide,
          by decide⟩)
      · exact Or.inr (Or.inl ⟨11000, "END".data, rfl, by decide, by decide, by decide,
          by decide⟩))
    (by decide)
  exact ⟨st, h1, (h5 ["OLD x".data, "NEW".data, "5000 PRINT 1".data] "11000 END".data 11000
    "END".data rfl ⟨rfl, by decide, by decide, by decide, by decide⟩).1, h3⟩

/-- C23, as stated, fails for a line that outgrows the 32-bit column counter.
After 4294967291 letters `a` the counter `curcol`, incremented once per letter,
has wrapped around to -5; for the tab that follows, with the default width 4,
`((curcol/chpertab)+1)*chpertab` is 0 and 5 spaces are written, where the
usage text asks for the 1 space up to column 4294967292. -/
theorem tab_behind_long_line :
    expand 4 0 (List.replicate 4294967291 'a' ++ ['\t'])
      = .ok (List.replicate 4294967291 'a' ++ List.replicate 5 ' ') ∧
    expanded 4 0 (List.replicate 4294967291 'a' ++ ['\t'])
      = List.replicate 4294967291 'a' ++ List.replicate 1 ' ' := by
  constructor
  · rw [expand_plain 4 'a' (by decide) (by decide), advance_wrap _ _ (by decide)]
    have e : wrap (0 + (4294967291 : Nat)) = -5 := by decide
    rw [e]
    have e2 : expand 4 (-5) ['\t'] = .ok (List.replicate 5 ' ') := by decide
    rw [e2]
    rfl
  · rw [expanded_plain 4 'a' (by decide) (by decide)]
    have e2 : expanded 4 (0 + 4294967291) ['\t'] = List.replicate 1 ' ' := by decide
    rw [e2]

/-- C23, amended: tabe in expand mode (`-e`) with a tab width c ≥ 1 (default
4), on every input in which no column beyond 2147483647 - c is reached: the
output is the expansion the usage text describes.  It holds no tab; each tab
of the input is replaced by the k spaces, 1 ≤ k ≤ c, that bring the column
(counted from 0, reset after each newline) to the next multiple of c; every
other character is copied unchanged and in order.  The arguments `-e` give the
width 4, the arguments `-e -8` the width 8. -/
theorem expand_refines (args : List Text) (c : Nat) (inp : Text)
    (hargs : arguments args defaults
      = { chpertab := Int.ofNat c, gottype := true, exptype := some TAB_EXPAND,
          ccerror := false })
    (hc : 1 ≤ c) (hfit : reach c 0 inp + c ≤ 2147483647) :
    expand (arguments args defaults).chpertab 0 inp = .ok (expanded c 0 inp) ∧
    '\t' ∉ expanded c 0 inp ∧
    (expanded c 0 inp).filter (fun x => x != ' ')
      = inp.filter (fun x => x != ' ' && x != '\t') ∧
    (∀ col, 1 ≤ nextColumn c col '\t' - col ∧ nextColumn c col '\t' - col ≤ c ∧
      c ∣ nextColumn c col '\t' ∧ col < nextColumn c col '\t' ∧
      ∀ m, col < m → c ∣ m → nextColumn c col '\t' ≤ m) ∧
    arguments [['-', 'e']] defaults
      = { chpertab := 4, gottype := true, exptype := some TAB_EXPAND, ccerror := false } ∧
    arguments [['-', 'e'], ['-', '8']] defaults
      = { chpertab := 8, gottype := true, exptype := some TAB_EXPAND, ccerror := false } := by
  refine ⟨?_, expanded_no_tab c inp 0, expanded_filter c inp 0, ?_, by decide, by decide⟩
  · rw [hargs]
    exact expand_expanded c hc inp 0 hfit
  · intro col
    obtain ⟨h1, h2, h3, h4⟩ := next_multiple c col hc
    have hN : nextColumn c col '\t' = (col / c + 1) * c := rfl
    rw [hN]
    exact ⟨by omega, by omega, h3, h1, h4⟩

/-- C23, amended, at the arguments `-e` and a text of two lines. -/
theorem expand_refines_witness :
    expand (arguments [['-', 'e']] defaults).chpertab 0 "ab\tc\n\td".data
      = .ok (expanded 4 0 "ab\tc\n\td".data) ∧
    expanded 4 0 "ab\tc\n\td".data = "ab  c\n    d".data :=
  ⟨(expand_refines [['-', 'e']] 4 "ab\tc\n\td".data (by decide) (by decide) (by decide)).1,
    by decide⟩

/-- C24, as stated, fails: the operators are rewritten in the stored line
before the blanks are removed, so an operator written with a blank inside is
not rewritten.  For `PRINT A < = B` the executor dispatches on `PRINTA<=B`,
where the specification has `PRINTA$B` (the text of `PRINT A<=B`); with A=1 and
B=2 the two statements print 0 and 1. -/
theorem blank_inside_operator :
    strip (sentinels "PRINT A < = B".data) 0 = "PRINTA<=B".data ∧
    specText "PRINT A < = B".data = "PRINTA$B".data ∧
    strip (sentinels "PRINT A<=B".data) 0 = "PRINTA$B".data ∧
    printed (typed 12 ["10 A=1".data, "20 B=2".data, "30 PRINT A < = B".data,
        "40 PRINT A<=B".data, "50 END".data, "RUN".data])
      = .ok ["Ok".data, "Ok".data, "Ok".data, "Ok".data, "Ok".data, "Ok".data, "0".data,
          "1".data, "Ok".data] :=
  ⟨by decide, by decide, by decide, by decide!⟩

/-- C24, amended: for every stored statement text without a double quote, the
text the executor dispatches on is obtained by first rewriting each adjacent
`<>`, `<=`, `>=` in place (to its sentinel and a blank, the three passes of the
macro `U`) and then deleting every space and tab.  It is the text of the
specification (blanks deleted first, operators rewritten then) whenever no `<`
or `>` of the line is directly followed by a space or a tab.  A blank inside
an operator changes the statement: `PRINT A < = B` prints whether A is less
than the variable named `=`. -/
theorem dispatch_text (s : Text) (hq : '"' ∉ s) :
    strip (sentinels s) 0 = (passes s).filter (fun c => !(c == ' ' || c == '\t')) ∧
    (tight s = true → strip (sentinels s) 0 = specText s) ∧
    (∀ (st : State) (k : Nat) (E : List Int),
      stmt st k "PRINT A < = B".data E
        = .ok ({ prepared st k "PRINT A < = B".data with
                  out := st.out ++ [fmtInt (if st.P 65 < st.P 61 then 1 else 0)] },
               Int.ofNat k, E)) := by
  refine ⟨strip_sentinels s hq, fun ht => ?_, fun st k E => ?_⟩
  · rw [strip_sentinels s hq]
    exact passes_filter s.length s (le_refl _) ht
  · rw [← cbool_decide]; rfl

/-- C24, amended, at the line `PRINT A <= B`. -/
theorem dispatch_text_witness :
    strip (sentinels "PRINT A <= B".data) 0 = specText "PRINT A <= B".data ∧
    specText "PRINT A <= B".data = "PRINTA$B".data :=
  ⟨(dispatch_text "PRINT A <= B".data (by decide)).2.1 (by decide), by decide⟩

/-- C25, as stated, fails at the largest integer: in `FOR I=2147483647 TO 0`
the `++P[*d]` of NEXT overflows; with the wrap-around of a 32-bit `int` the
variable becomes -2147483648, which is not above the limit, and the body runs
again.  After four rounds of the run loop two lines are printed and the
counter is back at line 20; the run has not halted after 25 statements. -/
theorem for_from_maximum_runs_on :
    (rounds 4 { init [] (fun _ => none) with
        m := fun i => if i = 10 then some "FOR I=2147483647 TO 0".data
          else if i = 20 then some "PRINT I".data
          else if i = 30 then some "NEXT I".data else none } 1 []).map
        (fun c => (c.1.out, c.2.1, c.1.P 73))
      = .ok (["2147483647".data, "-2147483648".data], 21, -2147483648) ∧
    printed (typed 30 ["10 FOR I=2147483647 TO 0".data, "20 PRINT I".data,
        "30 NEXT I".data, "RUN".data]) = .fault .fuel :=
  ⟨by decide!, by decide!⟩

/-- C25, amended: for all integers b < a in the signed 32-bit range with a
below the maximum, typing `10 FOR I=<a> TO <b>`, `20 PRINT I`, `30 NEXT I` and
`RUN` at a fresh interpreter makes the run print a exactly once and halt with
I equal to a+1 (any bound of at least 9 on the length of the session is
enough); for a = 5 and b = 0 it prints 5. -/
theorem for_body_runs_once (a b : Int) (hb : -2147483648 ≤ b) (hab : b < a)
    (ha : a < 2147483647) (n : Nat) (hn : 9 ≤ n) :
    (∃ st, typed n ["10 FOR I=".data ++ fmtInt a ++ " TO ".data ++ fmtInt b,
        "20 PRINT I".data, "30 NEXT I".data, "RUN".data] = .ok st ∧
      st.out = ["Ok".data, "Ok".data, "Ok".data, "Ok".data, fmtInt a, "Ok".data] ∧
      st.P ('I').toNat = a + 1) ∧
    printed (typed 9 ["10 FOR I=5 TO 0".data, "20 PRINT I".data, "30 NEXT I".data, "RUN".data])
      = .ok ["Ok".data, "Ok".data, "Ok".data, "Ok".data, "5".data, "Ok".data] := by
  refine ⟨?_, by decide!⟩
  obtain ⟨k, rfl⟩ : ∃ k, n = (k + 4) + 5 := ⟨n - 9, by omega⟩
  have hla := fmtInt_length_le a (by omega) (by omega)
  have hlb := fmtInt_length_le b hb (by omega)
  have hnul : ∀ c ∈ "FOR I=".data ++ fmtInt a ++ " TO ".data ++ fmtInt b, c ≠ NUL := by
    intro c hc e
    subst e
    rcases List.mem_append.1 hc with h | h
    · rcases List.mem_append.1 h with h | h
      · rcases List.mem_append.1 h with h | h
        · exact absurd h (by decide)
        · exact fmtInt_not_mem a _ (by decide) (by decide) h
      · exact absurd h (by decide)
    · exact fmtInt_not_mem b _ (by decide) (by decide) h
  have hlen : ("FOR I=".data ++ fmtInt a ++ " TO ".data ++ fmtInt b).length < 900 := by
    simp only [List.length_append, List.length_cons, List.length_nil]
    omega
  obtain ⟨st3, hm, ho, hi, hfin⟩ := typed3 (k + 4)
    ("FOR I=".data ++ fmtInt a ++ " TO ".data ++ fmtInt b) "PRINT I".data "NEXT I".data
    hnul (by decide) (by decide) hlen (by decide) (by decide)
  obtain ⟨s4, hrun, hout, hP, hinp⟩ := run_for_once a b hb hab ha k st3 hm
  have h := hfin s4 hrun (by rw [hinp, hi])
  refine ⟨{ s4 with out := s4.out ++ ["Ok".data] }, ?_, ?_, hP⟩
  · rw [← h]
    rfl
  · show s4.out ++ ["Ok".data] = _
    rw [hout, ho]
    rfl

/-- C25, amended, at a = 3 and b = -2. -/
theorem for_body_runs_once_witness :
    ∃ st, typed 9 ["10 FOR I=".data ++ fmtInt 3 ++ " TO ".data ++ fmtInt (-2),
        "20 PRINT I".data, "30 NEXT I".data, "RUN".data] = .ok st ∧
      st.out = ["Ok".data, "Ok".data, "Ok".data, "Ok".data, fmtInt 3, "Ok".data] ∧
      st.P ('I').toNat = 3 + 1 :=
  (for_body_runs_once 3 (-2) (by decide) (by decide) (by decide) 9 (by decide)).1

/-- C26, as stated, fails: RUN clears the variables but not the loop limits
and loop lines (`M`, `L`) an earlier FOR recorded.  The program `10 NEXT I` /
`20 PRINT 7` / `30 END` / `40 END` prints 7 at a fresh interpreter; typed after
a run of `30 FOR I=1 TO 3` / `40 NEXT I` / `50 END` and NEW, the same program
with the same input prints nothing: NEXT finds the old limit 3 and goes on
behind the old loop line 30. -/
theorem run_depends_on_earlier_loops :
    printed (typed 12 ["10 NEXT I".data, "20 PRINT 7".data, "30 END".data, "40 END".data,
        "RUN".data])
      = .ok ["Ok".data, "Ok".data, "Ok".data, "Ok".data, "Ok".data, "7".data, "Ok".data] ∧
    printed (typed 30 ["30 FOR I=1 TO 3".data, "40 NEXT I".data, "50 END".data, "RUN".data,
        "NEW".data, "10 NEXT I".data, "20 PRINT 7".data, "30 END".data, "40 END".data,
        "RUN".data])
      = .ok ["Ok".data, "Ok".data, "Ok".data, "Ok".data, "Ok".data, "Ok".data, "Ok".data,
          "Ok".data, "Ok".data, "Ok".data, "Ok".data] :=
  ⟨by decide!, by decide!⟩

/-- C26, amended: what RUN prints is a function of the Program Store, the
INPUT lines, the loop limits and loop lines left by earlier FOR statements and
the bytes left in the input buffer.  Two RUNs from states that agree on these
print the same lines `r` after what was printed before (or end in the same
fault), for every bound on the length of the run, whatever values the
variables hold, whatever was printed before and whatever the files are. -/
theorem run_output_depends_on (n : Nat) (st1 st2 : State)
    (hm : st1.m = st2.m) (hB : st1.B = st2.B) (hM : st1.M = st2.M) (hL : st1.L = st2.L)
    (hinp : st1.inp = st2.inp) :
    ∃ r : Res (List Text),
      printed (run n st1) = r.map (fun w => st1.out ++ w) ∧
      printed (run n st2) = r.map (fun w => st2.out ++ w) := by
  have key : ∀ st : State, st.m = st1.m → st.B = st1.B → st.M = st1.M → st.L = st1.L →
      st.inp = st1.inp →
      printed (run n st)
        = (printed (run n { st1 with out := [], fs := fun _ => none })).map
            (fun w => st.out ++ w) := by
    intro st e1 e2 e3 e4 e5
    have e : st = { ({ st1 with out := [], fs := fun _ => none } : State) with
        out := st.out ++ [], fs := st.fs, P := st.P } := by
      cases st
      simp only [List.append_nil] at e1 e2 e3 e4 e5 ⊢
      subst e1 e2 e3 e4 e5
      rfl
    have hrun : run n st
        = (run n { st1 with out := [], fs := fun _ => none }).map
            fun s => s.after st.out st.fs := by
      conv_lhs => rw [e]
      exact run_after n { st1 with out := [], fs := fun _ => none } st.out st.fs st.P
    rw [hrun]
    cases run n { st1 with out := [], fs := fun _ => none } <;> rfl
  exact ⟨_, key st1 rfl rfl rfl rfl rfl, key st2 hm.symm hB.symm hM.symm hL.symm hinp.symm⟩

/-- C26, amended, at the store `10 PRINT A` / `20 END`, once fresh and once
with A = 5 and a line printed before. -/
theorem run_output_depends_on_witness :
    ∃ r : Res (List Text),
      printed (run 3 { init [] (fun _ => none) with
          m := fun i => if i = 10 then some "PRINT A".data
            else if i = 20 then some "END".data else none })
        = r.map (fun w => [] ++ w) ∧
      printed (run 3 { init [] (fun _ => none) with
          m := fun i => if i = 10 then some "PRINT A".data
            else if i = 20 then some "END".data else none
          P := fun _ => 5
          out := ["Ok".data] })
        = r.map (fun w => ["Ok".data] ++ w) :=
  run_output_depends_on 3
    { init [] (fun _ => none) with
      m := fun i => if i = 10 then some "PRINT A".data
        else if i = 20 then some "END".data else none }
    { init [] (fun _ => none) with
      m := fun i => if i = 10 then some "PRINT A".data
        else if i = 20 then some "END".data else none
      P := fun _ => 5
      out := ["Ok".data] } rfl rfl rfl rfl rfl

end Basic
